import Mathlib

/-! # REChain MVP: the ledger handlers of `src/App.js`

A shallow embedding of the money- and token-moving handlers of the `App`
component (`handleAddCash`, `handleCashOut`, `handleBuy`, `handleSell`,
`handleVote`, `checkForRentalPayouts`, `recordPortfolioSnapshot`) and of the
`BuyModal` dialog in front of `handleBuy`.

Modelling conventions.

* `Store` is the part of the Firestore database one session reads and writes:
  the user document (`cashBalance`), the public `properties` and `proposals`
  collections and the user's `portfolio`, `transactions` and
  `portfolioHistory` collections.  The React state (`userData`, `properties`,
  `portfolio`) is fed by `onSnapshot` listeners; handlers are modelled at a
  moment when the listeners have delivered the current store, so reads of the
  React state are reads of the store.
* The session is initialised (`db`, `user`, `userData` are non-null), which is
  the only situation in which the pages that call the handlers are rendered.
* The handlers are given twice.  In `Store` JavaScript numbers are modelled
  by `Int`: money is counted in euro cents and times in milliseconds since the
  epoch, a handler that receives a string receives the number `parseFloat`
  reads from it, and `serverTimestamp()` and `Date.now()` are the same clock,
  passed as `now`.  What the handlers compute is written in the order the code
  computes it.
* In `JsStore` money is a JavaScript number, `NaN` or a double, the form
  handlers receive what `parseFloat` makes of the string, and the two clocks
  are kept apart in a `Clock`: tests read the device clock, stored timestamps
  are server times.  The statements in which rounding, `NaN` or the difference
  between the two clocks matters are made on `JsStore`.
* A collection is a list of documents in insertion order, with the document
  id as a field.  Firestore keeps ids unique inside a collection; that is the
  predicate `Store.WF`, assumed where a statement needs it.
* Firestore primitives follow their documented behaviour: `increment` adds,
  `update` fails on a missing document, `set` creates or replaces, `delete`
  removes, and a write batch is applied completely or not at all.
-/

namespace REChain

/-! ## Data model -/

/-- Document ids: the property id doubles as the id of the holding document. -/
abbrev DocId := String

/-- A document of `public/data/properties`, with the fields the handlers read. -/
structure Property where
  id : DocId
  name : String
  tokenPrice : Int
  tokensAvailable : Int
  monthlyRentPerToken : Int
  deriving DecidableEq, Repr

/-- A document of `users/{uid}/portfolio`; `lastPayoutDate` may be missing. -/
structure Holding where
  id : DocId
  propertyName : String
  quantity : Int
  lastPayoutDate : Option Int
  deriving DecidableEq, Repr

/-- The `type` field of a transaction record. -/
inductive TxType where
  | Deposit
  | Withdrawal
  | Purchase
  | Sale
  | RentalIncome
  deriving DecidableEq, Repr

/-- The `description` field: two fixed texts and the template
`${quantity} tokens of ${property.name}`. -/
inductive Description where
  | cashAdded
  | cashWithdrawn
  | tokensOf (quantity : Int) (propertyName : String)
  deriving DecidableEq, Repr

/-- A document of `users/{uid}/transactions`. -/
structure Transaction where
  type : TxType
  amount : Int
  description : Description
  timestamp : Int
  deriving DecidableEq, Repr

/-- A document of `users/{uid}/portfolioHistory`. -/
structure Snapshot where
  value : Int
  timestamp : Int
  deriving DecidableEq, Repr

/-- A document of `public/data/proposals`. -/
structure Proposal where
  id : DocId
  propertyId : DocId
  yes : Int
  no : Int
  deriving DecidableEq, Repr

/-- The two counters `handleVote` is called with (`'yes'`, `'no'`). -/
inductive Vote where
  | yes
  | no
  deriving DecidableEq, Repr

/-- The store as one session sees it. -/
structure Store where
  cashBalance : Int
  properties : List Property
  portfolio : List Holding
  proposals : List Proposal
  transactions : List Transaction
  portfolioHistory : List Snapshot
  deriving DecidableEq, Repr

/-- How a handler call ended. -/
inductive Outcome where
  /-- ran to its last statement -/
  | completed
  /-- stopped at `alert("Insufficient funds"); return` -/
  | insufficientFunds
  /-- the store rejected the write (the promise rejects) -/
  | commitRejected
  /-- stopped because `property` was `undefined` when its field was read -/
  | typeError
  /-- the Confirm button of `BuyModal` is disabled -/
  | disabled
  /-- the vote buttons of `GovernancePage` are not rendered -/
  | notOffered
  deriving DecidableEq, Repr

/-- Document ids are unique inside each collection. -/
def Store.WF (s : Store) : Prop :=
  (s.properties.map (fun p => p.id)).Nodup ∧ (s.portfolio.map (fun h => h.id)).Nodup

instance (s : Store) : Decidable s.WF := by
  unfold Store.WF; infer_instance

/-! ## Write batches -/

/-- The writes the handlers put into a `writeBatch`. -/
inductive Write where
  /-- the write `update(userDocRef, { cashBalance: increment(delta) })` -/
  | incrementCash (delta : Int)
  /-- the write `update(doc(properties, propertyId), { tokensAvailable: increment(delta) })` -/
  | incrementTokens (propertyId : DocId) (delta : Int)
  /-- the write `update(holdingDocRef, { quantity: increment(delta) })` -/
  | incrementQuantity (holdingId : DocId) (delta : Int)
  /-- the write `set(holdingDocRef, { propertyName, quantity, lastPayoutDate })` -/
  | setHolding (holding : Holding)
  /-- the write `delete(doc(portfolio, holdingId))` -/
  | deleteHolding (holdingId : DocId)
  /-- the write `update(holdingDocRef, { lastPayoutDate: serverTimestamp() })` -/
  | stampLastPayout (holdingId : DocId) (time : Int)
  deriving DecidableEq, Repr

/-- One write applied to the store; `none` when an `update` finds no document. -/
def Write.apply (s : Store) : Write → Option Store
  | .incrementCash delta => some { s with cashBalance := s.cashBalance + delta }
  | .incrementTokens propertyId delta =>
    if s.properties.any (fun p => p.id == propertyId) then
      some { s with properties := s.properties.map fun p =>
        if p.id == propertyId then { p with tokensAvailable := p.tokensAvailable + delta } else p }
    else none
  | .incrementQuantity holdingId delta =>
    if s.portfolio.any (fun h => h.id == holdingId) then
      some { s with portfolio := s.portfolio.map fun h =>
        if h.id == holdingId then { h with quantity := h.quantity + delta } else h }
    else none
  | .setHolding holding =>
    if s.portfolio.any (fun h => h.id == holding.id) then
      some { s with portfolio := s.portfolio.map fun h =>
        if h.id == holding.id then holding else h }
    else some { s with portfolio := s.portfolio ++ [holding] }
  | .deleteHolding holdingId =>
    some { s with portfolio := s.portfolio.filter fun h => !(h.id == holdingId) }
  | .stampLastPayout holdingId time =>
    if s.portfolio.any (fun h => h.id == holdingId) then
      some { s with portfolio := s.portfolio.map fun h =>
        if h.id == holdingId then { h with lastPayoutDate := some time } else h }
    else none

/-- The function `commit` of a write batch: the writes in order, all or nothing. -/
def commit (s : Store) : List Write → Option Store
  | [] => some s
  | w :: ws =>
    match w.apply s with
    | some s1 => commit s1 ws
    | none => none

/-! ## Account ledger (`App.js` 147-158) -/

/-- The handler `handleAddCash`: increment the balance, then add a `Deposit` record. -/
def handleAddCash (now : Int) (s : Store) (amount : Int) : Store × Outcome :=
  ({ s with
      cashBalance := s.cashBalance + amount
      transactions := s.transactions ++ [⟨.Deposit, amount, .cashAdded, now⟩] },
   .completed)

/-- The handler `handleCashOut`: refuse when `cashBalance < amount`, else decrement the
balance and add a `Withdrawal` record of `-amount`. -/
def handleCashOut (now : Int) (s : Store) (amount : Int) : Store × Outcome :=
  if s.cashBalance < amount then (s, .insufficientFunds)
  else
    ({ s with
        cashBalance := s.cashBalance + -amount
        transactions := s.transactions ++ [⟨.Withdrawal, -amount, .cashWithdrawn, now⟩] },
     .completed)

/-! ## Trade settlement (`App.js` 160-188) -/

/-- The handler `handleBuy`: refuse when `cashBalance < cost`; otherwise batch the cash
debit, the supply decrement and the holding upsert, add the `Purchase` record
(outside the batch, before the commit) and commit the batch. -/
def handleBuy (now : Int) (s : Store) (property : Property) (amount : Int) : Store × Outcome :=
  let cost := amount * property.tokenPrice
  if s.cashBalance < cost then (s, .insufficientFunds)
  else
    let holdingWrite :=
      if s.portfolio.any (fun h => h.id == property.id) then
        Write.incrementQuantity property.id amount
      else
        Write.setHolding ⟨property.id, property.name, amount, some 0⟩
    let batch :=
      [Write.incrementCash (-cost), Write.incrementTokens property.id (-amount), holdingWrite]
    let s1 := { s with transactions :=
      s.transactions ++ [⟨.Purchase, -cost, .tokensOf amount property.name, now⟩] }
    match commit s1 batch with
    | some s2 => (s2, .completed)
    | none => (s1, .commitRejected)

/-- The handler `handleSell`: look the property up by the holding's id, batch the cash
credit, the supply increment and the deletion of the holding, add the `Sale`
record (outside the batch, before the commit) and commit the batch. -/
def handleSell (now : Int) (s : Store) (holding : Holding) : Store × Outcome :=
  match s.properties.find? (fun p => p.id == holding.id) with
  | none => (s, .typeError)
  | some property =>
    let saleValue := holding.quantity * property.tokenPrice
    let batch :=
      [Write.incrementCash saleValue, Write.incrementTokens holding.id holding.quantity,
       Write.deleteHolding holding.id]
    let s1 := { s with transactions :=
      s.transactions ++ [⟨.Sale, saleValue, .tokensOf holding.quantity property.name, now⟩] }
    match commit s1 batch with
    | some s2 => (s2, .completed)
    | none => (s1, .commitRejected)

/-! ## Governance (`App.js` 190-194) -/

/-- The handler `handleVote`: `updateDoc(proposalRef, { [vote]: increment(1) })`. -/
def handleVote (s : Store) (proposalId : DocId) (vote : Vote) : Store × Outcome :=
  if s.proposals.any (fun p => p.id == proposalId) then
    ({ s with proposals := s.proposals.map fun p =>
        if p.id == proposalId then
          match vote with
          | .yes => { p with yes := p.yes + 1 }
          | .no => { p with no := p.no + 1 }
        else p },
     .completed)
  else (s, .commitRejected)

/-! ## Rental payouts (`App.js` 98-127) -/

/-- Thirty days in milliseconds: `30 * 24 * 60 * 60 * 1000`. -/
def thirtyDays : Int := 30 * 24 * 60 * 60 * 1000

/-- The body of the payout loop for one holding (`App.js` 104-108): the rent
when the holding is paid in this pass, `none` when it is skipped. -/
def rentalPayout (now : Int) (properties : List Property) (holding : Holding) : Option Int :=
  let thirtyDaysAgo := now - thirtyDays
  let lastPayout := holding.lastPayoutDate.getD 0
  if lastPayout < thirtyDaysAgo then
    match properties.find? (fun p => p.id == holding.id) with
    | some property => some (holding.quantity * property.monthlyRentPerToken)
    | none => none
  else none

/-- The batched writes of one payout pass, in loop order. -/
def payoutBatch (now : Int) (properties : List Property) : List Holding → List Write
  | [] => []
  | holding :: rest =>
    match rentalPayout now properties holding with
    | some rentAmount =>
      Write.incrementCash rentAmount :: Write.stampLastPayout holding.id now ::
        payoutBatch now properties rest
    | none => payoutBatch now properties rest

/-- The `Rental Income` records of one payout pass, in loop order. -/
def payoutRecords (now : Int) (properties : List Property) : List Holding → List Transaction
  | [] => []
  | holding :: rest =>
    match properties.find? (fun p => p.id == holding.id), rentalPayout now properties holding with
    | some property, some rentAmount =>
      ⟨.RentalIncome, rentAmount, .tokensOf holding.quantity property.name, now⟩ ::
        payoutRecords now properties rest
    | _, _ => payoutRecords now properties rest

/-- The function `checkForRentalPayouts`: nothing for an empty portfolio; otherwise the
records of the eligible holdings are added (outside the batch) and the batch
is committed, a rejected commit being logged and swallowed. -/
def checkForRentalPayouts (now : Int) (s : Store) : Store × Outcome :=
  if s.portfolio.length = 0 then (s, .completed)
  else
    let batch := payoutBatch now s.properties s.portfolio
    let s1 := { s with transactions :=
      s.transactions ++ payoutRecords now s.properties s.portfolio }
    match commit s1 batch with
    | some s2 => (s2, .completed)
    | none => (s1, .commitRejected)

/-! ## Portfolio snapshots (`App.js` 93-96, 129-143) -/

/-- The memo `portfolioValue`: quantity times current price, `0` for an unknown property. -/
def portfolioValue (s : Store) : Int :=
  s.portfolio.foldl
    (fun total holding =>
      total + holding.quantity *
        (match s.properties.find? (fun p => p.id == holding.id) with
         | some property => property.tokenPrice
         | none => 0))
    0

/-- One day in milliseconds: `24 * 60 * 60 * 1000`. -/
def oneDay : Int := 24 * 60 * 60 * 1000

/-- The query `orderBy('timestamp', 'desc'), limit(1)`: a record of greatest timestamp. -/
def lastRecord : List Snapshot → Option Snapshot
  | [] => none
  | r :: rest =>
    match lastRecord rest with
    | none => some r
    | some best => if best.timestamp < r.timestamp then some r else some best

/-- The function `recordPortfolioSnapshot`: add a snapshot when there is none yet or the
latest one is older than one day. -/
def recordPortfolioSnapshot (now : Int) (s : Store) : Store :=
  let oneDayAgo := now - oneDay
  let append : Store :=
    { s with portfolioHistory := s.portfolioHistory ++ [⟨portfolioValue s, now⟩] }
  match lastRecord s.portfolioHistory with
  | none => append
  | some r => if r.timestamp < oneDayAgo then append else s

/-! ## The purchase dialog (`App.js` 330-336) -/

/-- The `onChange` of the amount input: `Math.max(1, parseInt(value) || 1)`;
`parsed` is `none` when `parseInt` gives `NaN`. -/
def BuyModal.setAmount (parsed : Option Int) : Int :=
  max 1 (match parsed with
    | some v => if v = 0 then 1 else v
    | none => 1)

/-- The Confirm button: disabled when `totalCost > userBalance` or
`amount > property.tokensAvailable`, otherwise `onBuy(property, amount)`. -/
def BuyModal.confirm (now : Int) (s : Store) (property : Property) (amount : Int) :
    Store × Outcome :=
  let totalCost := amount * property.tokenPrice
  let userBalance := s.cashBalance
  if totalCost > userBalance ∨ amount > property.tokensAvailable then (s, .disabled)
  else handleBuy now s property amount

/-! ## The governance page (`App.js` 252-286) -/

/-- The memo `userHoldings`: the quantity by holding id, built by
`portfolio.reduce((acc, h) => ({...acc, [h.id]: h.quantity}), {})`, a later
holding replacing an earlier one of the same id. -/
def GovernancePage.userHoldings (portfolio : List Holding) : DocId → Option Int :=
  portfolio.foldl (fun acc h => fun key => if key == h.id then some h.quantity else acc key)
    (fun _ => none)

/-- The flag `canVote = userHoldings[p.propertyId] > 0`; a missing entry compares false. -/
def GovernancePage.canVote (s : Store) (p : Proposal) : Bool :=
  match GovernancePage.userHoldings s.portfolio p.propertyId with
  | some quantity => decide (quantity > 0)
  | none => false

/-- The vote buttons of one proposal: rendered only when `canVote`, and then
calling `onVote(p.id, choice)`. -/
def GovernancePage.vote (s : Store) (p : Proposal) (choice : Vote) : Store × Outcome :=
  if GovernancePage.canVote s p then handleVote s p.id choice else (s, .notOffered)

/-! ## Seeding (`App.js` 374-404) -/

/-- The four documents of `propertiesToSeed`, amounts in cents. -/
def propertiesToSeed : List Property :=
  [ ⟨"amsterdam-canal-house", "Amsterdam Canal House", 10000, 25000, 37⟩,
    ⟨"rotterdam-penthouse", "Rotterdam Modern Penthouse", 12000, 10000, 52⟩,
    ⟨"utrecht-historic-loft", "Utrecht Historic Loft", 7500, 10000, 30⟩,
    ⟨"the-hague-residence", "The Hague Royal Residence", 20000, 20000, 68⟩ ]

/-- The store right after sign-up and `seedInitialData`: a balance of 100000
euro, the seeded catalog and the seeded proposal (its id is generated by the
store and passed in). -/
def seededStore (proposalId : DocId) : Store :=
  { cashBalance := 10000000
    properties := propertiesToSeed
    portfolio := []
    proposals := [⟨proposalId, "rotterdam-penthouse", 1250, 120⟩]
    transactions := []
    portfolioHistory := [] }

/-! ## Observations and call sequences -/

/-- The quantity the account holds of a property, `0` without a holding. -/
def holdingQuantity (s : Store) (propertyId : DocId) : Int :=
  match s.portfolio.find? (fun h => h.id == propertyId) with
  | some h => h.quantity
  | none => 0

/-- The catalog entry of a property id. -/
def findProperty (s : Store) (propertyId : DocId) : Option Property :=
  s.properties.find? (fun p => p.id == propertyId)

/-- Supply of a property: its `tokensAvailable` plus the quantities of all
holdings of it. -/
def totalSupply (s : Store) (propertyId : DocId) : Int :=
  ((s.properties.filter (fun p => p.id == propertyId)).map (fun p => p.tokensAvailable)).sum +
    ((s.portfolio.filter (fun h => h.id == propertyId)).map (fun h => h.quantity)).sum

/-- A call of one of the handlers, with its arguments. -/
inductive Call where
  | addCash (amount : Int)
  | cashOut (amount : Int)
  | buy (property : Property) (amount : Int)
  | sell (holding : Holding)
  | rentalPayouts
  | vote (proposalId : DocId) (choice : Vote)
  deriving DecidableEq, Repr

/-- The store after one call made at time `now`. -/
def Call.run (now : Int) (s : Store) : Call → Store
  | .addCash amount => (handleAddCash now s amount).1
  | .cashOut amount => (handleCashOut now s amount).1
  | .buy property amount => (handleBuy now s property amount).1
  | .sell holding => (handleSell now s holding).1
  | .rentalPayouts => (checkForRentalPayouts now s).1
  | .vote proposalId choice => (handleVote s proposalId choice).1

/-- The store after a sequence of timed calls, first call first. -/
def runCalls (s : Store) : List (Int × Call) → Store
  | [] => s
  | (now, c) :: rest => runCalls (c.run now s) rest

/-- A trade as the pages issue it: a purchase, or the sale of a holding that is
in the portfolio (the Portfolio page offers `Sell All` per listed holding). -/
def Call.isTrade (s : Store) : Call → Bool
  | .buy _ _ => true
  | .sell holding => s.portfolio.contains holding
  | _ => false

/-- Every call of the sequence is a trade in the store it meets. -/
def tradesOnly : Store → List (Int × Call) → Bool
  | _, [] => true
  | s, (now, c) :: rest => c.isTrade s && tradesOnly (c.run now s) rest

/-! ## Doubles and the two clocks

The handlers compute with JavaScript numbers.  A number is here `NaN` or a
double, held as the rational it denotes, in euro as the forms and the catalog
spell it; sums and products are rounded to the nearest double.  Numbers are
finite: a result beyond the largest double is not turned into `Infinity`, and
there is no signed zero.  Token counts and times are integers, on which the
arithmetic of doubles is exact below `2 ^ 53`. -/

/-- The number of binary digits of `n`, counted in at most `fuel` steps. -/
def bitLength : Nat → Nat → Nat
  | 0, _ => 0
  | fuel + 1, n => if n = 0 then 0 else bitLength fuel (n / 2) + 1

/-- The rational `q` times `2 ^ k`, for an integer `k`. -/
def scale2 (q : ℚ) (k : Int) : ℚ :=
  if 0 ≤ k then q * (2 ^ k.toNat : Nat) else q / (2 ^ (-k).toNat : Nat)

/-- The integer nearest to `q`, the even one of the two when `q` lies halfway. -/
def roundHalfEven (q : ℚ) : Int :=
  let f := q.floor
  let r := q - f
  if r < 1 / 2 then f else if 1 / 2 < r then f + 1 else if f % 2 = 0 then f else f + 1

/-- The double nearest to `q` (IEEE 754 binary64, round to nearest, ties to
even): `q` is scaled so that it lies in `[2^52, 2^53)`, or by `2^1074` when it
is too small for that, rounded to an integer and scaled back. -/
def round64 (q : ℚ) : ℚ :=
  if q = 0 then 0
  else
    let a := |q|
    let l : Int := (bitLength 4096 a.num.natAbs : Int) - (bitLength 4096 a.den : Int)
    let e : Int := max (if scale2 1 l ≤ a then l - 52 else l - 53) (-1074)
    let m := roundHalfEven (scale2 a (-e))
    let r := scale2 (m : ℚ) e
    if q < 0 then -r else r

/-- A JavaScript number as the handlers meet it. -/
inductive JsNumber where
  | nan
  | finite (value : ℚ)
  deriving DecidableEq, Repr

/-- The sum `a + b` of two numbers, which is also what `increment(b)` stores on
a field holding `a`: the double nearest to the exact sum, `NaN` if either is. -/
def JsNumber.add : JsNumber → JsNumber → JsNumber
  | .finite a, .finite b => .finite (round64 (a + b))
  | _, _ => .nan

/-- The number `-a`. -/
def JsNumber.neg : JsNumber → JsNumber
  | .finite a => .finite (-a)
  | .nan => .nan

/-- The comparison `a < b`, false when either side is `NaN`. -/
def JsNumber.lt : JsNumber → JsNumber → Bool
  | .finite a, .finite b => decide (a < b)
  | _, _ => false

/-- The comparison `a >= b`, false when either side is `NaN`. -/
def JsNumber.ge : JsNumber → JsNumber → Bool
  | .finite a, .finite b => decide (b ≤ a)
  | _, _ => false

/-- The function `parseFloat` on the string of a form field: `text` is the
number the string spells, `none` when it spells none (as the empty string). -/
def parseFloat (text : Option ℚ) : JsNumber :=
  match text with
  | some q => .finite (round64 q)
  | none => .nan

/-- The product `quantity * x` of a token count and a double. -/
def times (quantity : Int) (x : ℚ) : ℚ :=
  round64 (quantity * x)

/-- The two clocks a call meets: `Date.now()` on the device, and the time the
store writes for `serverTimestamp()`. -/
structure Clock where
  device : Int
  server : Int
  deriving DecidableEq, Repr

/-! ## The store at double precision

The handlers once more, on a store whose money fields are doubles and with
the two clocks apart: tests read `Date.now()`, stored timestamps are
`serverTimestamp()`. -/

/-- A document of `public/data/properties`, prices in euro. -/
structure JsProperty where
  id : DocId
  name : String
  tokenPrice : ℚ
  tokensAvailable : Int
  monthlyRentPerToken : ℚ
  deriving DecidableEq, Repr

/-- A document of `users/{uid}/transactions`. -/
structure JsTransaction where
  type : TxType
  amount : JsNumber
  description : Description
  timestamp : Int
  deriving DecidableEq, Repr

/-- A document of `users/{uid}/portfolioHistory`. -/
structure JsSnapshot where
  value : ℚ
  timestamp : Int
  deriving DecidableEq, Repr

/-- The store as one session sees it. -/
structure JsStore where
  cashBalance : JsNumber
  properties : List JsProperty
  portfolio : List Holding
  proposals : List Proposal
  transactions : List JsTransaction
  portfolioHistory : List JsSnapshot
  deriving DecidableEq, Repr

/-- Document ids are unique inside each collection. -/
def JsStore.WF (s : JsStore) : Prop :=
  (s.properties.map (fun p => p.id)).Nodup ∧ (s.portfolio.map (fun h => h.id)).Nodup

instance (s : JsStore) : Decidable s.WF := by
  unfold JsStore.WF; infer_instance

/-- The writes the handlers put into a `writeBatch`. -/
inductive JsWrite where
  /-- the write `update(userDocRef, { cashBalance: increment(delta) })` -/
  | incrementCash (delta : ℚ)
  /-- the write `update(doc(properties, propertyId), { tokensAvailable: increment(delta) })` -/
  | incrementTokens (propertyId : DocId) (delta : Int)
  /-- the write `update(holdingDocRef, { quantity: increment(delta) })` -/
  | incrementQuantity (holdingId : DocId) (delta : Int)
  /-- the write `set(holdingDocRef, { propertyName, quantity, lastPayoutDate })` -/
  | setHolding (holding : Holding)
  /-- the write `delete(doc(portfolio, holdingId))` -/
  | deleteHolding (holdingId : DocId)
  /-- the write `update(holdingDocRef, { lastPayoutDate: serverTimestamp() })` -/
  | stampLastPayout (holdingId : DocId) (time : Int)
  deriving DecidableEq, Repr

/-- One write applied to the store; `none` when an `update` finds no document. -/
def JsWrite.apply (s : JsStore) : JsWrite → Option JsStore
  | .incrementCash delta => some { s with cashBalance := s.cashBalance.add (.finite delta) }
  | .incrementTokens propertyId delta =>
    if s.properties.any (fun p => p.id == propertyId) then
      some { s with properties := s.properties.map fun p =>
        if p.id == propertyId then { p with tokensAvailable := p.tokensAvailable + delta } else p }
    else none
  | .incrementQuantity holdingId delta =>
    if s.portfolio.any (fun h => h.id == holdingId) then
      some { s with portfolio := s.portfolio.map fun h =>
        if h.id == holdingId then { h with quantity := h.quantity + delta } else h }
    else none
  | .setHolding holding =>
    if s.portfolio.any (fun h => h.id == holding.id) then
      some { s with portfolio := s.portfolio.map fun h =>
        if h.id == holding.id then holding else h }
    else some { s with portfolio := s.portfolio ++ [holding] }
  | .deleteHolding holdingId =>
    some { s with portfolio := s.portfolio.filter fun h => !(h.id == holdingId) }
  | .stampLastPayout holdingId time =>
    if s.portfolio.any (fun h => h.id == holdingId) then
      some { s with portfolio := s.portfolio.map fun h =>
        if h.id == holdingId then { h with lastPayoutDate := some time } else h }
    else none

/-- The function `commit` of a write batch: the writes in order, all or nothing. -/
def JsStore.commit (s : JsStore) : List JsWrite → Option JsStore
  | [] => some s
  | w :: ws =>
    match w.apply s with
    | some s1 => JsStore.commit s1 ws
    | none => none

/-- The handler `handleAddCash` (`App.js` 147-152): increment the balance by
`parseFloat(amount)`, then add a `Deposit` record of `parseFloat(amount)`. -/
def JsStore.handleAddCash (now : Int) (s : JsStore) (amount : Option ℚ) : JsStore × Outcome :=
  ({ s with
      cashBalance := s.cashBalance.add (parseFloat amount)
      transactions := s.transactions ++ [⟨.Deposit, parseFloat amount, .cashAdded, now⟩] },
   .completed)

/-- The handler `handleCashOut` (`App.js` 153-158): refuse when
`cashBalance < parseFloat(amount)`, else increment the balance by
`-parseFloat(amount)` and add a `Withdrawal` record of `-parseFloat(amount)`. -/
def JsStore.handleCashOut (now : Int) (s : JsStore) (amount : Option ℚ) : JsStore × Outcome :=
  if s.cashBalance.lt (parseFloat amount) then (s, .insufficientFunds)
  else
    ({ s with
        cashBalance := s.cashBalance.add (parseFloat amount).neg
        transactions := s.transactions ++
          [⟨.Withdrawal, (parseFloat amount).neg, .cashWithdrawn, now⟩] },
     .completed)

/-- The handler `handleBuy` (`App.js` 160-175): refuse when `cashBalance < cost`;
otherwise batch the cash debit, the supply decrement and the holding upsert,
add the `Purchase` record (outside the batch, before the commit) and commit
the batch. -/
def JsStore.handleBuy (now : Int) (s : JsStore) (property : JsProperty) (amount : Int) :
    JsStore × Outcome :=
  let cost := times amount property.tokenPrice
  if s.cashBalance.lt (.finite cost) then (s, .insufficientFunds)
  else
    let holdingWrite :=
      if s.portfolio.any (fun h => h.id == property.id) then
        JsWrite.incrementQuantity property.id amount
      else
        JsWrite.setHolding ⟨property.id, property.name, amount, some 0⟩
    let batch :=
      [JsWrite.incrementCash (-cost), JsWrite.incrementTokens property.id (-amount), holdingWrite]
    let s1 := { s with transactions :=
      s.transactions ++ [⟨.Purchase, .finite (-cost), .tokensOf amount property.name, now⟩] }
    match JsStore.commit s1 batch with
    | some s2 => (s2, .completed)
    | none => (s1, .commitRejected)

/-- The handler `handleSell` (`App.js` 177-188): look the property up by the
holding's id, batch the cash credit, the supply increment and the deletion of
the holding, add the `Sale` record (outside the batch, before the commit) and
commit the batch. -/
def JsStore.handleSell (now : Int) (s : JsStore) (holding : Holding) : JsStore × Outcome :=
  match s.properties.find? (fun p => p.id == holding.id) with
  | none => (s, .typeError)
  | some property =>
    let saleValue := times holding.quantity property.tokenPrice
    let batch :=
      [JsWrite.incrementCash saleValue, JsWrite.incrementTokens holding.id holding.quantity,
       JsWrite.deleteHolding holding.id]
    let s1 := { s with transactions :=
      s.transactions ++
        [⟨.Sale, .finite saleValue, .tokensOf holding.quantity property.name, now⟩] }
    match JsStore.commit s1 batch with
    | some s2 => (s2, .completed)
    | none => (s1, .commitRejected)

/-- The handler `handleVote` (`App.js` 190-194). -/
def JsStore.handleVote (s : JsStore) (proposalId : DocId) (vote : Vote) : JsStore × Outcome :=
  if s.proposals.any (fun p => p.id == proposalId) then
    ({ s with proposals := s.proposals.map fun p =>
        if p.id == proposalId then
          match vote with
          | .yes => { p with yes := p.yes + 1 }
          | .no => { p with no := p.no + 1 }
        else p },
     .completed)
  else (s, .commitRejected)

/-- The body of the payout loop for one holding (`App.js` 104-108), `dateNow`
being `Date.now()`: the rent when the holding is paid in this pass, `none`
when it is skipped. -/
def JsStore.rentalPayout (dateNow : Int) (properties : List JsProperty) (holding : Holding) :
    Option ℚ :=
  let thirtyDaysAgo := dateNow - thirtyDays
  let lastPayout := holding.lastPayoutDate.getD 0
  if lastPayout < thirtyDaysAgo then
    match properties.find? (fun p => p.id == holding.id) with
    | some property => some (times holding.quantity property.monthlyRentPerToken)
    | none => none
  else none

/-- The batched writes of one payout pass, in loop order: the test of a holding
reads the device clock (`App.js` 101, 105), the new `lastPayoutDate` is the
server time (`App.js` 114). -/
def JsStore.payoutBatch (clock : Clock) (properties : List JsProperty) :
    List Holding → List JsWrite
  | [] => []
  | holding :: rest =>
    match JsStore.rentalPayout clock.device properties holding with
    | some rentAmount =>
      JsWrite.incrementCash rentAmount :: JsWrite.stampLastPayout holding.id clock.server ::
        JsStore.payoutBatch clock properties rest
    | none => JsStore.payoutBatch clock properties rest

/-- The `Rental Income` records of one payout pass, in loop order, with the
server time as their timestamp (`App.js` 117-122). -/
def JsStore.payoutRecords (clock : Clock) (properties : List JsProperty) :
    List Holding → List JsTransaction
  | [] => []
  | holding :: rest =>
    match properties.find? (fun p => p.id == holding.id),
      JsStore.rentalPayout clock.device properties holding with
    | some property, some rentAmount =>
      ⟨.RentalIncome, .finite rentAmount, .tokensOf holding.quantity property.name,
        clock.server⟩ :: JsStore.payoutRecords clock properties rest
    | _, _ => JsStore.payoutRecords clock properties rest

/-- The function `checkForRentalPayouts` (`App.js` 98-127): nothing for an empty
portfolio; otherwise the records of the holdings that pass the test are added
(outside the batch) and the batch is committed, a rejected commit being logged
and swallowed. -/
def JsStore.checkForRentalPayouts (clock : Clock) (s : JsStore) : JsStore × Outcome :=
  if s.portfolio.length = 0 then (s, .completed)
  else
    let batch := JsStore.payoutBatch clock s.properties s.portfolio
    let s1 := { s with transactions :=
      s.transactions ++ JsStore.payoutRecords clock s.properties s.portfolio }
    match JsStore.commit s1 batch with
    | some s2 => (s2, .completed)
    | none => (s1, .commitRejected)

/-- A holding is due at the device time `dateNow`: its last payout (the epoch
when the field is missing) lies more than thirty days back and its property is
in the catalog.  These are the two tests of the payout loop (`App.js`
104-107); an elapsed time of exactly thirty days does not pass the first. -/
def JsStore.isDue (dateNow : Int) (properties : List JsProperty) (holding : Holding) : Bool :=
  decide (thirtyDays < dateNow - holding.lastPayoutDate.getD 0) &&
    (properties.find? (fun p => p.id == holding.id)).isSome

/-- The rent of a holding: the double `quantity * monthlyRentPerToken` of its
property. -/
def JsStore.rentOf (properties : List JsProperty) (holding : Holding) : ℚ :=
  match properties.find? (fun p => p.id == holding.id) with
  | some property => times holding.quantity property.monthlyRentPerToken
  | none => 0

/-- The `Rental Income` record of a holding paid at server time `time`. -/
def JsStore.payoutRecord (time : Int) (properties : List JsProperty) (holding : Holding) :
    Option JsTransaction :=
  match properties.find? (fun p => p.id == holding.id) with
  | some property =>
    some ⟨.RentalIncome, .finite (times holding.quantity property.monthlyRentPerToken),
      .tokensOf holding.quantity property.name, time⟩
  | none => none

/-- The pass made at device time `dateNow` pays the holding of `propertyId`. -/
def JsStore.paysHolding (dateNow : Int) (s : JsStore) (propertyId : DocId) : Bool :=
  s.portfolio.any fun h =>
    h.id == propertyId && (JsStore.rentalPayout dateNow s.properties h).isSome

/-- The memo `portfolioValue` (`App.js` 93-96): quantity times current price,
`0` for an unknown property, summed from `0` in portfolio order. -/
def JsStore.portfolioValue (s : JsStore) : ℚ :=
  s.portfolio.foldl
    (fun total holding =>
      round64 (total + times holding.quantity
        (match s.properties.find? (fun p => p.id == holding.id) with
         | some property => property.tokenPrice
         | none => 0)))
    0

/-- The query `orderBy('timestamp', 'desc'), limit(1)`: a record of greatest timestamp. -/
def JsStore.lastRecord : List JsSnapshot → Option JsSnapshot
  | [] => none
  | r :: rest =>
    match JsStore.lastRecord rest with
    | none => some r
    | some best => if best.timestamp < r.timestamp then some r else some best

/-- The function `recordPortfolioSnapshot` (`App.js` 129-143): add a snapshot when there
is none yet or the latest one is older than one day.  The test reads the
device clock (`App.js` 135, 137), the new snapshot carries the server time
(`App.js` 140). -/
def JsStore.recordPortfolioSnapshot (clock : Clock) (s : JsStore) : JsStore :=
  let oneDayAgo := clock.device - oneDay
  let append : JsStore :=
    { s with portfolioHistory :=
        s.portfolioHistory ++ [⟨JsStore.portfolioValue s, clock.server⟩] }
  match JsStore.lastRecord s.portfolioHistory with
  | none => append
  | some r => if r.timestamp < oneDayAgo then append else s

/-- A call of one of the handlers, with its arguments. -/
inductive JsCall where
  | addCash (amount : Option ℚ)
  | cashOut (amount : Option ℚ)
  | buy (property : JsProperty) (amount : Int)
  | sell (holding : Holding)
  | rentalPayouts
  | vote (proposalId : DocId) (choice : Vote)
  deriving DecidableEq, Repr

/-- The store after one call: the records of the handlers carry the server
time, the payout pass reads both clocks. -/
def JsCall.run (clock : Clock) (s : JsStore) : JsCall → JsStore
  | .addCash amount => (JsStore.handleAddCash clock.server s amount).1
  | .cashOut amount => (JsStore.handleCashOut clock.server s amount).1
  | .buy property amount => (JsStore.handleBuy clock.server s property amount).1
  | .sell holding => (JsStore.handleSell clock.server s holding).1
  | .rentalPayouts => (JsStore.checkForRentalPayouts clock s).1
  | .vote proposalId choice => (JsStore.handleVote s proposalId choice).1

/-- The store after a sequence of calls, each with its two clock readings,
first call first. -/
def JsStore.runCalls (s : JsStore) : List (Clock × JsCall) → JsStore
  | [] => s
  | (clock, c) :: rest => JsStore.runCalls (c.run clock s) rest

/-- Calls that leave the holding document of `propertyId` in place: purchases,
payout passes and sales of other holdings, made at server times that do not
decrease from `start` on. -/
def JsStore.keepsHolding (propertyId : DocId) : Int → List (Clock × JsCall) → Bool
  | _, [] => true
  | start, (clock, c) :: rest =>
    decide (start ≤ clock.server) &&
      (match c with
        | .buy _ _ => true
        | .rentalPayouts => true
        | .sell holding => !(holding.id == propertyId)
        | _ => false) &&
      JsStore.keepsHolding propertyId clock.server rest

/-- No amount of the store is negative: the balance is a number that is not
negative, and so are of every property the supply, the price and the rent,
and of every holding the quantity. -/
def JsStore.NonNegative (s : JsStore) : Prop :=
  s.cashBalance.ge (.finite 0) = true ∧
  (∀ p ∈ s.properties, 0 ≤ p.tokensAvailable ∧ 0 ≤ p.tokenPrice ∧ 0 ≤ p.monthlyRentPerToken) ∧
  ∀ h ∈ s.portfolio, 0 ≤ h.quantity

instance (s : JsStore) : Decidable s.NonNegative := by
  unfold JsStore.NonNegative; infer_instance

/-- A call within the bounds the pages keep: a deposit of a number that is not
negative, a withdrawal of a number, a purchase of a catalog entry for a
quantity from 0 up to its `tokensAvailable` (the bound of `BuyModal`), the sale
of a holding that is in the portfolio; payout passes and votes are
unrestricted. -/
def JsCall.admissible (s : JsStore) : JsCall → Bool
  | .addCash amount => (parseFloat amount).ge (.finite 0)
  | .cashOut amount => decide (parseFloat amount ≠ .nan)
  | .buy property amount =>
    s.properties.contains property && decide (0 ≤ amount) &&
      decide (amount ≤ property.tokensAvailable)
  | .sell holding => s.portfolio.contains holding
  | _ => true

/-- Every call of the sequence is admissible in the store it meets. -/
def JsStore.admissibleCalls : JsStore → List (Clock × JsCall) → Bool
  | _, [] => true
  | s, (clock, c) :: rest => c.admissible s && JsStore.admissibleCalls (c.run clock s) rest

/-! ## Example stores -/

/-- The catalog entry of the scenarios: 100.00 a token, 25000 tokens available,
0.37 rent a token and month. -/
def canalHouse : Property :=
  ⟨"amsterdam-canal-house", "Amsterdam Canal House", 10000, 25000, 37⟩

/-- The account of the scenarios: 1000.00 in cash, no holding, the seeded catalog. -/
def scenarioStore : Store :=
  { cashBalance := 100000
    properties := propertiesToSeed
    portfolio := []
    proposals := []
    transactions := []
    portfolioHistory := [] }

/-- The holding Scenario A leaves behind: 5 tokens, last payout at the epoch. -/
def canalHolding : Holding :=
  ⟨"amsterdam-canal-house", "Amsterdam Canal House", 5, some 0⟩

/-- The scenario account after the purchase of Scenario A. -/
def scenarioAfterBuy : Store :=
  { cashBalance := 50000
    properties :=
      [ ⟨"amsterdam-canal-house", "Amsterdam Canal House", 10000, 24995, 37⟩,
        ⟨"rotterdam-penthouse", "Rotterdam Modern Penthouse", 12000, 10000, 52⟩,
        ⟨"utrecht-historic-loft", "Utrecht Historic Loft", 7500, 10000, 30⟩,
        ⟨"the-hague-residence", "The Hague Royal Residence", 20000, 20000, 68⟩ ]
    portfolio := [canalHolding]
    proposals := []
    transactions :=
      [⟨.Purchase, -50000, .tokensOf 5 "Amsterdam Canal House", 0⟩]
    portfolioHistory := [] }

/-- A catalog with three tokens left of one property, and cash to buy more. -/
def scarceStore : Store :=
  { cashBalance := 100000
    properties := [⟨"utrecht-historic-loft", "Utrecht Historic Loft", 7500, 3, 30⟩]
    portfolio := []
    proposals := []
    transactions := []
    portfolioHistory := [] }

/-- The only entry of `scarceStore`. -/
def loft : Property :=
  ⟨"utrecht-historic-loft", "Utrecht Historic Loft", 7500, 3, 30⟩

/-- Ten canal-house tokens whose last payout was at the epoch. -/
def rentedStore : Store :=
  { cashBalance := 0
    properties := [canalHouse]
    portfolio := [⟨"amsterdam-canal-house", "Amsterdam Canal House", 10, some 0⟩]
    proposals := []
    transactions := []
    portfolioHistory := [] }

/-- A property id without a document in the catalog, as a purchase dialog
left open shows it after the document is gone. -/
def ghostProperty : Property :=
  ⟨"leiden-townhouse", "Leiden Townhouse", 9000, 100, 40⟩

/-- The proposal `seedInitialData` writes, under the id `"proposal-1"`. -/
def seededProposal : Proposal :=
  ⟨"proposal-1", "rotterdam-penthouse", 1250, 120⟩

/-- The seeded store with a holding of quantity 0 in the property of the
seeded proposal. -/
def emptyHandedStore : Store :=
  { seededStore "proposal-1" with
    portfolio := [⟨"rotterdam-penthouse", "Rotterdam Modern Penthouse", 0, some 0⟩] }

/-- The seeded store with one snapshot, taken at the epoch. -/
def snapshotStore : Store :=
  { seededStore "proposal-1" with portfolioHistory := [⟨0, 0⟩] }

/-- The account right after sign-up, at double precision: a balance of 100000
euro, nothing else. -/
def signUpAccount : JsStore :=
  { cashBalance := .finite 100000
    properties := []
    portfolio := []
    proposals := []
    transactions := []
    portfolioHistory := [] }

/-- The four documents of `propertiesToSeed`, in euro: rents of 0.37, 0.52,
0.30 and 0.68 a token. -/
def jsPropertiesToSeed : List JsProperty :=
  [ ⟨"amsterdam-canal-house", "Amsterdam Canal House", 100, 25000, round64 (37 / 100)⟩,
    ⟨"rotterdam-penthouse", "Rotterdam Modern Penthouse", 120, 10000, round64 (52 / 100)⟩,
    ⟨"utrecht-historic-loft", "Utrecht Historic Loft", 75, 10000, round64 (30 / 100)⟩,
    ⟨"the-hague-residence", "The Hague Royal Residence", 200, 20000, round64 (68 / 100)⟩ ]

/-- Scenario C: ten canal-house tokens last paid at the epoch, no cash. -/
def jsRentedStore : JsStore :=
  { cashBalance := .finite 0
    properties := jsPropertiesToSeed
    portfolio := [⟨"amsterdam-canal-house", "Amsterdam Canal House", 10, some 0⟩]
    proposals := []
    transactions := []
    portfolioHistory := [] }

/-- Three holdings on the sign-up balance: the first paid at the epoch, the
second never, the third a day before thirty days have passed. -/
def jsThreeHoldings : JsStore :=
  { cashBalance := .finite 100000
    properties := jsPropertiesToSeed
    portfolio :=
      [ ⟨"amsterdam-canal-house", "Amsterdam Canal House", 1, some 0⟩,
        ⟨"the-hague-residence", "The Hague Royal Residence", 1, none⟩,
        ⟨"utrecht-historic-loft", "Utrecht Historic Loft", 2, some (thirtyDays - oneDay)⟩ ]
    proposals := []
    transactions := []
    portfolioHistory := [] }

/-- The catalog entry of the canal house, in euro. -/
def jsCanalHouse : JsProperty :=
  ⟨"amsterdam-canal-house", "Amsterdam Canal House", 100, 25000, round64 (37 / 100)⟩

/-- The store right after sign-up and `seedInitialData`, in euro. -/
def jsSeededStore : JsStore :=
  { cashBalance := .finite 100000
    properties := jsPropertiesToSeed
    portfolio := []
    proposals := [⟨"proposal-1", "rotterdam-penthouse", 1250, 120⟩]
    transactions := []
    portfolioHistory := [] }

/-- The seeded store after a purchase of five canal-house tokens at the epoch. -/
def jsAfterBuy : JsStore :=
  { jsSeededStore with
    cashBalance := .finite 99500
    properties :=
      [ ⟨"amsterdam-canal-house", "Amsterdam Canal House", 100, 24995, round64 (37 / 100)⟩,
        ⟨"rotterdam-penthouse", "Rotterdam Modern Penthouse", 120, 10000, round64 (52 / 100)⟩,
        ⟨"utrecht-historic-loft", "Utrecht Historic Loft", 75, 10000, round64 (30 / 100)⟩,
        ⟨"the-hague-residence", "The Hague Royal Residence", 200, 20000, round64 (68 / 100)⟩ ]
    portfolio := [⟨"amsterdam-canal-house", "Amsterdam Canal House", 5, some 0⟩] }

/-- Buy five tokens, be paid the rent after thirty days, sell, buy the five
tokens back and be paid again, all within four milliseconds of the first
payout, device and server clocks agreeing. -/
def jsRebuyCalls : List (Clock × JsCall) :=
  [(⟨1, 1⟩, JsCall.buy jsCanalHouse 5),
   (⟨thirtyDays + 1, thirtyDays + 1⟩, JsCall.rentalPayouts),
   (⟨thirtyDays + 2, thirtyDays + 2⟩, JsCall.sell
     ⟨"amsterdam-canal-house", "Amsterdam Canal House", 5, some (thirtyDays + 1)⟩),
   (⟨thirtyDays + 3, thirtyDays + 3⟩, JsCall.buy jsCanalHouse 5),
   (⟨thirtyDays + 4, thirtyDays + 4⟩, JsCall.rentalPayouts)]

/-- Two payout passes a minute apart on a device whose clock is 31 days ahead
of the server. -/
def jsSkewedPasses : List (Clock × JsCall) :=
  [(⟨thirtyDays + oneDay + 1000, 1000⟩, JsCall.rentalPayouts),
   (⟨thirtyDays + oneDay + 61000, 61000⟩, JsCall.rentalPayouts)]

/-- The seeded store with one snapshot, taken at the epoch. -/
def jsSnapshotStore : JsStore :=
  { jsSeededStore with portfolioHistory := [⟨0, 0⟩] }

/-- A catalog with three tokens left of one property, and cash to buy more. -/
def jsScarceStore : JsStore :=
  { cashBalance := .finite 1000
    properties := [⟨"utrecht-historic-loft", "Utrecht Historic Loft", 75, 3, round64 (30 / 100)⟩]
    portfolio := []
    proposals := []
    transactions := []
    portfolioHistory := [] }

/-- The only entry of `jsScarceStore`. -/
def jsLoft : JsProperty :=
  ⟨"utrecht-historic-loft", "Utrecht Historic Loft", 75, 3, round64 (30 / 100)⟩

/-- A balance of zero next to a holding of quantity `-5`, the holding a purchase
of `-5` tokens creates. -/
def jsShortStore : JsStore :=
  { cashBalance := .finite 0
    properties := [jsCanalHouse]
    portfolio := [⟨"amsterdam-canal-house", "Amsterdam Canal House", -5, some 0⟩]
    proposals := []
    transactions := []
    portfolioHistory := [] }

/-- The calls of a day on the seeded account: a deposit of 50.01, a purchase, a
payout pass, a withdrawal of more than the balance, a vote, a sale. -/
def jsScenarioDay : List (Clock × JsCall) :=
  [(⟨1, 1⟩, JsCall.addCash (some (5001 / 100))), (⟨2, 2⟩, JsCall.buy jsCanalHouse 10),
   (⟨thirtyDays + 3, thirtyDays + 3⟩, JsCall.rentalPayouts),
   (⟨thirtyDays + 4, thirtyDays + 4⟩, JsCall.cashOut (some 99999999)),
   (⟨thirtyDays + 5, thirtyDays + 5⟩, JsCall.vote "proposal-1" Vote.yes),
   (⟨thirtyDays + 6, thirtyDays + 6⟩, JsCall.sell
     ⟨"amsterdam-canal-house", "Amsterdam Canal House", 10, some (thirtyDays + 3)⟩)]

/-! ## Account ledger: deposits and withdrawals -/

/-- C7: when the requested amount exceeds the cash balance, `handleCashOut`
stops at the insufficient-funds alert and returns the store as it was: the
balance is unchanged and no transaction record is added. -/
theorem handleCashOut_insufficient_funds (now : Int) (s : Store) (amount : Int)
    (h : s.cashBalance < amount) :
    handleCashOut now s amount = (s, Outcome.insufficientFunds) := by
  simp [handleCashOut, h]

/-- Scenario D: withdrawing 1500.00 from an account holding 1000.00. -/
theorem handleCashOut_insufficient_funds_witness :
    scenarioStore.cashBalance < 150000 ∧
      handleCashOut 0 scenarioStore 150000 = (scenarioStore, Outcome.insufficientFunds) :=
  ⟨by decide, handleCashOut_insufficient_funds 0 scenarioStore 150000 (by decide)⟩

/-! ## Keyed lists -/

theorem find?_map_key {α : Type} (key : α → DocId) (g : α → α) (hg : ∀ a, key (g a) = key a)
    (id : DocId) (l : List α) :
    (l.map g).find? (fun a => key a == id) = (l.find? (fun a => key a == id)).map g := by
  induction l with
  | nil => rfl
  | cons a l ih =>
    simp only [List.map_cons, List.find?_cons, hg]
    cases h : key a == id
    · simpa using ih
    · simp

theorem find?_map_update {α : Type} (key : α → DocId) (f : α → α) (hf : ∀ a, key (f a) = key a)
    (id : DocId) (l : List α) :
    (l.map fun a => if key a == id then f a else a).find? (fun a => key a == id) =
      (l.find? (fun a => key a == id)).map f := by
  rw [find?_map_key key _ _ id l]
  · cases h : l.find? (fun a => key a == id) with
    | none => rfl
    | some a =>
      have ha := List.find?_some h
      simp only [Option.map_some', ha, if_true]
  · intro a
    cases h : key a == id <;> simp [hf]

theorem find?_map_update_ne {α : Type} (key : α → DocId) (f : α → α)
    (hf : ∀ a, key (f a) = key a) (id other : DocId) (hne : other ≠ id) (l : List α) :
    (l.map fun a => if key a == id then f a else a).find? (fun a => key a == other) =
      l.find? (fun a => key a == other) := by
  rw [find?_map_key key _ _ other l]
  · cases h : l.find? (fun a => key a == other) with
    | none => rfl
    | some a =>
      have ha : key a = other := by simpa using List.find?_some h
      have hk : (key a == id) = false := by
        rw [ha]; simpa using hne
      simp only [Option.map_some', hk, Bool.false_eq_true, if_false]
  · intro a
    cases h : key a == id <;> simp [hf]

theorem any_eq_isSome_find? {α : Type} (p : α → Bool) (l : List α) :
    l.any p = (l.find? p).isSome := by
  induction l with
  | nil => rfl
  | cons a l ih =>
    simp only [List.any_cons, List.find?_cons]
    cases h : p a <;> simp [ih]

theorem map_key_update {α : Type} (key : α → DocId) (f : α → α)
    (hf : ∀ a, key (f a) = key a) (id : DocId) (l : List α) :
    (l.map fun a => if key a == id then f a else a).map key = l.map key := by
  rw [List.map_map]
  apply List.map_congr_left
  intro a _
  show key (if key a == id then f a else a) = key a
  cases h : key a == id <;> simp [hf]

theorem sum_filter_key {α : Type} (key : α → DocId) (val : α → Int) (id : DocId)
    (l : List α) (hnd : (l.map key).Nodup) :
    ((l.filter (fun a => key a == id)).map val).sum =
      match l.find? (fun a => key a == id) with
      | some a => val a
      | none => 0 := by
  induction l with
  | nil => rfl
  | cons a l ih =>
    rw [List.map_cons, List.nodup_cons] at hnd
    cases h : key a == id
    · simp only [List.filter_cons, h, List.find?_cons, Bool.false_eq_true, if_false]
      exact ih hnd.2
    · have hk : key a = id := by simpa using h
      have hrest : l.filter (fun a => key a == id) = [] := by
        rw [List.filter_eq_nil_iff]
        intro b hb hbk
        have hbk2 : key b = id := by simpa using hbk
        exact hnd.1 (List.mem_map.mpr ⟨b, hb, by rw [hbk2, hk]⟩)
      simp only [List.filter_cons, h, if_true, hrest, List.find?_cons, List.map_cons,
        List.map_nil, List.sum_cons, List.sum_nil, add_zero]

theorem find?_of_mem_nodup {α : Type} (key : α → DocId) (a : α) (l : List α)
    (hnd : (l.map key).Nodup) (hmem : a ∈ l) :
    l.find? (fun b => key b == key a) = some a := by
  induction l with
  | nil => cases hmem
  | cons b l ih =>
    rw [List.map_cons, List.nodup_cons] at hnd
    rcases List.mem_cons.mp hmem with rfl | hl
    · simp
    · have hne : (key b == key a) = false := by
        apply beq_false_of_ne
        intro hk
        exact hnd.1 (List.mem_map.mpr ⟨a, hl, hk.symm⟩)
      simp only [List.find?_cons, hne]
      exact ih hnd.2 hl

theorem find?_filter_ne {α : Type} (key : α → DocId) (id other : DocId) (hne : other ≠ id)
    (l : List α) :
    (l.filter fun a => !(key a == id)).find? (fun a => key a == other) =
      l.find? (fun a => key a == other) := by
  induction l with
  | nil => rfl
  | cons a l ih =>
    cases h : key a == id
    · simp only [List.filter_cons, h, Bool.not_false, if_true, List.find?_cons, ih]
    · have hk : key a = id := by simpa using h
      have hother : (key a == other) = false := by
        apply beq_false_of_ne
        rw [hk]
        exact fun e => hne e.symm
      simp only [List.filter_cons, h, Bool.not_true, Bool.false_eq_true, if_false,
        List.find?_cons, hother, ih]

theorem find?_filter_self {α : Type} (key : α → DocId) (id : DocId) (l : List α) :
    (l.filter fun a => !(key a == id)).find? (fun a => key a == id) = none := by
  rw [List.find?_eq_none]
  intro a hmem
  have := (List.mem_filter.mp hmem).2
  simpa using this

theorem find?_none_of_any_false {α : Type} (p : α → Bool) (l : List α)
    (h : l.any p = false) : l.find? p = none := by
  rw [any_eq_isSome_find?] at h
  cases hf : l.find? p with
  | none => rfl
  | some a => rw [hf] at h; cases h

theorem find?_some_of_any {α : Type} (p : α → Bool) (l : List α) (h : l.any p = true) :
    ∃ a, l.find? p = some a := by
  rw [any_eq_isSome_find?] at h
  cases hf : l.find? p with
  | none => rw [hf] at h; cases h
  | some a => exact ⟨a, rfl⟩

theorem any_key_map_update {α : Type} (key : α → DocId) (f : α → α)
    (hf : ∀ a, key (f a) = key a) (id other : DocId) (l : List α) :
    (l.map fun a => if key a == id then f a else a).any (fun a => key a == other) =
      l.any (fun a => key a == other) := by
  induction l with
  | nil => rfl
  | cons a l ih =>
    simp only [List.map_cons, List.any_cons, ih]
    cases h : key a == id <;> simp [hf]

/-! ## Run equations of the trade handlers -/

theorem handleBuy_refused (now : Int) (s : Store) (property : Property) (amount : Int)
    (hfunds : s.cashBalance < amount * property.tokenPrice) :
    handleBuy now s property amount = (s, Outcome.insufficientFunds) := by
  unfold handleBuy
  simp only [if_pos hfunds]

theorem handleBuy_topUp (now : Int) (s : Store) (property : Property) (amount : Int)
    (hfunds : ¬ s.cashBalance < amount * property.tokenPrice)
    (hcat : s.properties.any (fun p => p.id == property.id) = true)
    (hheld : s.portfolio.any (fun h => h.id == property.id) = true) :
    handleBuy now s property amount =
      ({ s with
          cashBalance := s.cashBalance + -(amount * property.tokenPrice)
          properties := s.properties.map fun p =>
            if p.id == property.id then
              { p with tokensAvailable := p.tokensAvailable + -amount } else p
          portfolio := s.portfolio.map fun h =>
            if h.id == property.id then { h with quantity := h.quantity + amount } else h
          transactions := s.transactions ++
            [⟨.Purchase, -(amount * property.tokenPrice),
              .tokensOf amount property.name, now⟩] },
       Outcome.completed) := by
  unfold handleBuy
  simp only [if_neg hfunds, commit, Write.apply, hcat, hheld, if_true]

theorem handleBuy_create (now : Int) (s : Store) (property : Property) (amount : Int)
    (hfunds : ¬ s.cashBalance < amount * property.tokenPrice)
    (hcat : s.properties.any (fun p => p.id == property.id) = true)
    (hheld : s.portfolio.any (fun h => h.id == property.id) = false) :
    handleBuy now s property amount =
      ({ s with
          cashBalance := s.cashBalance + -(amount * property.tokenPrice)
          properties := s.properties.map fun p =>
            if p.id == property.id then
              { p with tokensAvailable := p.tokensAvailable + -amount } else p
          portfolio := s.portfolio ++ [⟨property.id, property.name, amount, some 0⟩]
          transactions := s.transactions ++
            [⟨.Purchase, -(amount * property.tokenPrice),
              .tokensOf amount property.name, now⟩] },
       Outcome.completed) := by
  unfold handleBuy
  simp only [if_neg hfunds, commit, Write.apply, hcat, hheld, if_true, Bool.false_eq_true,
    if_false]

theorem handleBuy_unknown (now : Int) (s : Store) (property : Property) (amount : Int)
    (hfunds : ¬ s.cashBalance < amount * property.tokenPrice)
    (hcat : s.properties.any (fun p => p.id == property.id) = false) :
    handleBuy now s property amount =
      ({ s with
          transactions := s.transactions ++
            [⟨.Purchase, -(amount * property.tokenPrice),
              .tokensOf amount property.name, now⟩] },
       Outcome.commitRejected) := by
  unfold handleBuy
  simp only [if_neg hfunds, commit, Write.apply, hcat, Bool.false_eq_true, if_false]

theorem handleSell_found (now : Int) (s : Store) (holding : Holding) (property : Property)
    (hcat : s.properties.find? (fun p => p.id == holding.id) = some property) :
    handleSell now s holding =
      ({ s with
          cashBalance := s.cashBalance + holding.quantity * property.tokenPrice
          properties := s.properties.map fun p =>
            if p.id == holding.id then
              { p with tokensAvailable := p.tokensAvailable + holding.quantity } else p
          portfolio := s.portfolio.filter fun h => !(h.id == holding.id)
          transactions := s.transactions ++
            [⟨.Sale, holding.quantity * property.tokenPrice,
              .tokensOf holding.quantity property.name, now⟩] },
       Outcome.completed) := by
  have hany : s.properties.any (fun p => p.id == holding.id) = true := by
    rw [any_eq_isSome_find?, hcat]; rfl
  unfold handleSell
  simp only [hcat, commit, Write.apply, hany, if_true]

theorem handleSell_unknown (now : Int) (s : Store) (holding : Holding)
    (hcat : s.properties.find? (fun p => p.id == holding.id) = none) :
    handleSell now s holding = (s, Outcome.typeError) := by
  unfold handleSell
  simp only [hcat]

/-! ## Trade settlement -/

/-- C1: when the property is in the catalog and the cash covers
`amount * tokenPrice`, `handleBuy` completes; afterwards the balance is the old
one minus `amount * tokenPrice`, the holding quantity of the property is the
old one (0 without a holding) plus `amount`, the catalog entry has `amount`
fewer `tokensAvailable`, and exactly one `Purchase` record of
`-(amount * tokenPrice)` has been added. -/
theorem handleBuy_success (now : Int) (s : Store) (property p0 : Property) (amount : Int)
    (hcat : findProperty s property.id = some p0)
    (hfunds : amount * property.tokenPrice ≤ s.cashBalance) :
    ∃ s1, handleBuy now s property amount = (s1, Outcome.completed) ∧
      s1.cashBalance = s.cashBalance - amount * property.tokenPrice ∧
      holdingQuantity s1 property.id = holdingQuantity s property.id + amount ∧
      findProperty s1 property.id =
        some { p0 with tokensAvailable := p0.tokensAvailable - amount } ∧
      s1.transactions = s.transactions ++
        [⟨TxType.Purchase, -(amount * property.tokenPrice),
          Description.tokensOf amount property.name, now⟩] := by
  have hnot : ¬ s.cashBalance < amount * property.tokenPrice := not_lt.mpr hfunds
  unfold findProperty at hcat
  have hany : s.properties.any (fun p => p.id == property.id) = true := by
    rw [any_eq_isSome_find?, hcat]; rfl
  have htok : ((s.properties.map fun p =>
      if p.id == property.id then
        { p with tokensAvailable := p.tokensAvailable + -amount } else p).find?
        (fun p => p.id == property.id)) =
      some { p0 with tokensAvailable := p0.tokensAvailable - amount } := by
    rw [find?_map_update Property.id
      (fun p => { p with tokensAvailable := p.tokensAvailable + -amount }) (fun _ => rfl), hcat]
    rfl
  cases hh : s.portfolio.any (fun h => h.id == property.id)
  · refine ⟨_, handleBuy_create now s property amount hnot hany hh, ?_, ?_, htok, rfl⟩
    · show s.cashBalance + -(amount * property.tokenPrice) = _
      ring
    · have hnone : s.portfolio.find? (fun h => h.id == property.id) = none := by
        rw [any_eq_isSome_find?] at hh
        cases hf : s.portfolio.find? (fun h => h.id == property.id) with
        | none => rfl
        | some a => rw [hf] at hh; cases hh
      unfold holdingQuantity
      simp only [List.find?_append, hnone, Option.none_or, List.find?_cons, beq_self_eq_true]
      simp
  · refine ⟨_, handleBuy_topUp now s property amount hnot hany hh, ?_, ?_, htok, rfl⟩
    · show s.cashBalance + -(amount * property.tokenPrice) = _
      ring
    · unfold holdingQuantity
      simp only []
      rw [find?_map_update Holding.id
        (fun h => { h with quantity := h.quantity + amount }) (fun _ => rfl)]
      cases hf : s.portfolio.find? (fun h => h.id == property.id) with
      | none => rw [any_eq_isSome_find?, hf] at hh; cases hh
      | some a => rfl

/-- Scenario A: 1000.00 in cash, 5 tokens at 100.00 out of 25000. -/
theorem handleBuy_success_witness :
    findProperty scenarioStore canalHouse.id = some canalHouse ∧
    5 * canalHouse.tokenPrice ≤ scenarioStore.cashBalance ∧
    ∃ s1, handleBuy 0 scenarioStore canalHouse 5 = (s1, Outcome.completed) ∧
      s1.cashBalance = 100000 - 5 * 10000 ∧
      holdingQuantity s1 canalHouse.id = 0 + 5 ∧
      findProperty s1 canalHouse.id = some { canalHouse with tokensAvailable := 25000 - 5 } ∧
      s1.transactions = [] ++
        [⟨TxType.Purchase, -(5 * 10000), Description.tokensOf 5 canalHouse.name, 0⟩] :=
  ⟨by decide, by decide,
    handleBuy_success 0 scenarioStore canalHouse canalHouse 5 (by decide) (by decide)⟩

/-- C2: when the catalog has the property of the holding, `handleSell`
completes; the balance grows by `quantity * tokenPrice` at the current catalog
price, the catalog entry gains `quantity` in `tokensAvailable`, no holding of
that property is left in the portfolio (the other holdings stay as they
were), and exactly one `Sale` record of `+(quantity * tokenPrice)` has been
added. -/
theorem handleSell_effect (now : Int) (s : Store) (holding : Holding) (property : Property)
    (hcat : findProperty s holding.id = some property) :
    ∃ s1, handleSell now s holding = (s1, Outcome.completed) ∧
      s1.cashBalance = s.cashBalance + holding.quantity * property.tokenPrice ∧
      findProperty s1 holding.id =
        some { property with tokensAvailable := property.tokensAvailable + holding.quantity } ∧
      (∀ h ∈ s1.portfolio, h.id ≠ holding.id) ∧
      (∀ h, h.id ≠ holding.id → (h ∈ s1.portfolio ↔ h ∈ s.portfolio)) ∧
      holdingQuantity s1 holding.id = 0 ∧
      s1.transactions = s.transactions ++
        [⟨TxType.Sale, holding.quantity * property.tokenPrice,
          Description.tokensOf holding.quantity property.name, now⟩] := by
  unfold findProperty at hcat
  refine ⟨_, handleSell_found now s holding property hcat, rfl, ?_, ?_, ?_, ?_, rfl⟩
  · show ((s.properties.map fun p =>
        if p.id == holding.id then
          { p with tokensAvailable := p.tokensAvailable + holding.quantity } else p).find?
        (fun p => p.id == holding.id)) = _
    rw [find?_map_update Property.id
      (fun p => { p with tokensAvailable := p.tokensAvailable + holding.quantity })
      (fun _ => rfl), hcat]
    rfl
  · intro h hmem
    have := (List.mem_filter.mp hmem).2
    simpa using this
  · intro h hne
    show h ∈ s.portfolio.filter (fun h => !(h.id == holding.id)) ↔ _
    simp [List.mem_filter, hne]
  · show (match (s.portfolio.filter fun h => !(h.id == holding.id)).find?
        (fun h => h.id == holding.id) with
      | some h => h.quantity
      | none => 0) = (0 : Int)
    have hnone : (s.portfolio.filter fun h => !(h.id == holding.id)).find?
        (fun h => h.id == holding.id) = none := by
      rw [List.find?_eq_none]
      intro h hmem
      have := (List.mem_filter.mp hmem).2
      simpa using this
    rw [hnone]

/-- Scenario B: the holding of Scenario A is sold at an unchanged price. -/
theorem handleSell_effect_witness :
    findProperty scenarioAfterBuy canalHolding.id =
      some ⟨"amsterdam-canal-house", "Amsterdam Canal House", 10000, 24995, 37⟩ ∧
    (handleSell 9 scenarioAfterBuy canalHolding).1.cashBalance = 100000 ∧
    (handleSell 9 scenarioAfterBuy canalHolding).1.portfolio = [] ∧
    findProperty (handleSell 9 scenarioAfterBuy canalHolding).1 canalHolding.id =
      some canalHouse := by
  obtain ⟨s1, hrun, hcash, htok, -, -, -, -⟩ :=
    handleSell_effect 9 scenarioAfterBuy canalHolding
      ⟨"amsterdam-canal-house", "Amsterdam Canal House", 10000, 24995, 37⟩ (by decide)
  refine ⟨by decide, ?_, by decide, ?_⟩
  · rw [hrun]; rw [hcash]; decide
  · rw [hrun]; rw [htok]; decide

/-- C5: when the cash does not cover `amount * tokenPrice`, `handleBuy` stops
at the insufficient-funds alert and returns the store as it was: balance,
catalog, holdings and transaction list are the ones before the call. -/
theorem handleBuy_insufficient_funds (now : Int) (s : Store) (property : Property)
    (amount : Int) (h : s.cashBalance < amount * property.tokenPrice) :
    handleBuy now s property amount = (s, Outcome.insufficientFunds) := by
  unfold handleBuy
  simp only [if_pos h]

/-- Eleven tokens at 100.00 against 1000.00 in cash. -/
theorem handleBuy_insufficient_funds_witness :
    scenarioStore.cashBalance < 11 * canalHouse.tokenPrice ∧
      handleBuy 0 scenarioStore canalHouse 11 = (scenarioStore, Outcome.insufficientFunds) :=
  ⟨by decide, handleBuy_insufficient_funds 0 scenarioStore canalHouse 11 (by decide)⟩

/-- C6 as stated fails: `handleBuy` has no check of the quantity.  With three
tokens available a purchase of five completes and leaves `tokensAvailable` at
`-2`; a purchase of zero tokens completes too, creating a holding of quantity
0 and a `Purchase` record of amount 0. -/
theorem handleBuy_beyond_supply :
    loft.tokensAvailable < 5 ∧
    handleBuy 0 scarceStore loft 5 =
      ({ scarceStore with
          cashBalance := 62500
          properties := [⟨"utrecht-historic-loft", "Utrecht Historic Loft", 7500, -2, 30⟩]
          portfolio := [⟨"utrecht-historic-loft", "Utrecht Historic Loft", 5, some 0⟩]
          transactions := [⟨.Purchase, -37500, .tokensOf 5 "Utrecht Historic Loft", 0⟩] },
       Outcome.completed) ∧
    handleBuy 0 scarceStore loft 0 =
      ({ scarceStore with
          portfolio := [⟨"utrecht-historic-loft", "Utrecht Historic Loft", 0, some 0⟩]
          transactions := [⟨.Purchase, 0, .tokensOf 0 "Utrecht Historic Loft", 0⟩] },
       Outcome.completed) := by
  decide

/-- C6, amended: the bounds on the quantity are kept by `BuyModal`, in front of
`handleBuy`.  The amount the dialog holds is at least 1 whatever is typed, and
with an amount above `property.tokensAvailable` the Confirm button is
disabled: `handleBuy` is not called and the store is the one before, also
when the cash would cover the cost. -/
theorem buyModal_bounds (now : Int) (s : Store) (property : Property) (amount : Int)
    (parsed : Option Int) :
    1 ≤ BuyModal.setAmount parsed ∧
    (property.tokensAvailable < amount →
      BuyModal.confirm now s property amount = (s, Outcome.disabled)) := by
  refine ⟨le_max_left _ _, ?_⟩
  intro h
  unfold BuyModal.confirm
  simp only [gt_iff_lt, h, or_true, if_true]

/-- Five tokens asked of the three available, with cash for all five. -/
theorem buyModal_bounds_witness :
    loft.tokensAvailable < 5 ∧ 5 * loft.tokenPrice ≤ scarceStore.cashBalance ∧
    BuyModal.confirm 0 scarceStore loft 5 = (scarceStore, Outcome.disabled) :=
  ⟨by decide, by decide, (buyModal_bounds 0 scarceStore loft 5 none).2 (by decide)⟩

/-! ## Rental payouts -/

theorem mem_payoutBatch_stamp (now : Int) (properties : List Property) (id : DocId)
    (portfolio : List Holding) :
    Write.stampLastPayout id now ∈ payoutBatch now properties portfolio ↔
      ∃ h ∈ portfolio, h.id = id ∧ (rentalPayout now properties h).isSome = true := by
  induction portfolio with
  | nil => simp [payoutBatch]
  | cons a l ih =>
    unfold payoutBatch
    cases hr : rentalPayout now properties a with
    | none => simp [ih, hr]
    | some r =>
      simp only [hr, List.mem_cons, Write.stampLastPayout.injEq, and_true, reduceCtorEq,
        false_or, ih, exists_eq_or_imp, Option.isSome_some]
      constructor
      · rintro (h | h)
        · exact Or.inl h.symm
        · exact Or.inr h
      · rintro (h | h)
        · exact Or.inl h.symm
        · exact Or.inr h

theorem mem_payoutBatch_cash (now : Int) (properties : List Property) (holding : Holding)
    (rent : Int) (portfolio : List Holding) (hmem : holding ∈ portfolio)
    (hr : rentalPayout now properties holding = some rent) :
    Write.incrementCash rent ∈ payoutBatch now properties portfolio := by
  induction portfolio with
  | nil => cases hmem
  | cons a l ih =>
    unfold payoutBatch
    rcases List.mem_cons.mp hmem with rfl | hl
    · simp [hr]
    · cases ha : rentalPayout now properties a with
      | none => simpa using ih hl
      | some r => simp [ih hl]

theorem commit_payoutBatch (now : Int) (properties : List Property) (l : List Holding)
    (a : Store) (hsub : ∀ h ∈ l, a.portfolio.any (fun x => x.id == h.id) = true) :
    commit a (payoutBatch now properties l) =
      some { a with
        cashBalance := a.cashBalance + (l.filterMap (rentalPayout now properties)).sum
        portfolio := a.portfolio.map fun x =>
          if l.any (fun h => h.id == x.id && (rentalPayout now properties h).isSome) then
            { x with lastPayoutDate := some now }
          else x } := by
  induction l generalizing a with
  | nil =>
    simp [payoutBatch, commit]
  | cons h l ih =>
    have hl : ∀ h1 ∈ l, a.portfolio.any (fun x => x.id == h1.id) = true :=
      fun h1 hh => hsub h1 (List.mem_cons_of_mem _ hh)
    unfold payoutBatch
    cases hr : rentalPayout now properties h with
    | none =>
      simp only [ih a hl, List.filterMap_cons, hr, List.any_cons, Option.isSome_none,
        Bool.and_false, Bool.false_or]
    | some r =>
      have hh := hsub h (List.mem_cons_self _ _)
      simp only [commit, Write.apply, hh, if_true]
      rw [ih]
      · simp only [List.filterMap_cons, hr, List.sum_cons, List.any_cons, Option.isSome_some,
          Bool.and_true, List.map_map, Option.some.injEq]
        congr 1
        · ring
        · apply List.map_congr_left
          intro x _
          simp only [Function.comp]
          cases hk : x.id == h.id
          · have hk2 : (h.id == x.id) = false := by
              rw [beq_eq_false_iff_ne] at hk ⊢
              exact fun e => hk e.symm
            simp [hk2]
          · have hk2 : (h.id == x.id) = true := by
              rw [beq_iff_eq] at hk ⊢
              exact hk.symm
            simp [hk2]
      · intro h1 hh1
        show (a.portfolio.map fun x =>
            if x.id == h.id then { x with lastPayoutDate := some now } else x).any
            (fun x => x.id == h1.id) = true
        rw [any_key_map_update Holding.id (fun x => { x with lastPayoutDate := some now })
          (fun _ => rfl)]
        exact hl h1 hh1

theorem checkForRentalPayouts_eq (now : Int) (s : Store) :
    checkForRentalPayouts now s =
      ({ s with
          cashBalance :=
            s.cashBalance + (s.portfolio.filterMap (rentalPayout now s.properties)).sum
          portfolio := s.portfolio.map fun x =>
            if s.portfolio.any
                (fun h => h.id == x.id && (rentalPayout now s.properties h).isSome) then
              { x with lastPayoutDate := some now }
            else x
          transactions := s.transactions ++ payoutRecords now s.properties s.portfolio },
       Outcome.completed) := by
  unfold checkForRentalPayouts
  split
  · next hlen =>
    have hnil : s.portfolio = [] := List.length_eq_zero.mp hlen
    cases s
    simp only at hnil
    subst hnil
    simp [payoutRecords]
  · dsimp only
    rw [commit_payoutBatch]
    intro h hh
    exact List.any_eq_true.mpr ⟨h, hh, by simp⟩

theorem any_paid_of_mem (now : Int) (properties : List Property) (holding : Holding)
    (l : List Holding) (hnd : (l.map fun h => h.id).Nodup) (hmem : holding ∈ l) :
    l.any (fun h => h.id == holding.id && (rentalPayout now properties h).isSome) =
      (rentalPayout now properties holding).isSome := by
  cases hp : (rentalPayout now properties holding).isSome
  · rw [List.any_eq_false]
    intro h hh
    cases hk : h.id == holding.id
    · simp
    · have heq : h = holding :=
        List.inj_on_of_nodup_map hnd hh hmem (by simpa using hk)
      subst heq
      simp [hp]
  · exact List.any_eq_true.mpr ⟨holding, hmem, by simp [hp]⟩

/-- C10 as stated fails at the boundary: a holding last paid at the epoch is
not paid by a pass made exactly thirty days later; the pass leaves the store
as it was. -/
theorem payout_skipped_at_thirty_days :
    thirtyDays - (0 : Int) ≥ thirtyDays ∧
    rentalPayout thirtyDays rentedStore.properties
      ⟨"amsterdam-canal-house", "Amsterdam Canal House", 10, some 0⟩ = none ∧
    checkForRentalPayouts thirtyDays rentedStore = (rentedStore, Outcome.completed) := by
  decide

/-- C10, amended: for a holding of the portfolio whose property is in the
catalog, a pass of `checkForRentalPayouts` at time `now` pays the holding if
and only if `now - lastPayoutDate` is more than thirty days (a missing
`lastPayoutDate` counting as the epoch), so not at exactly thirty days; the
rent of a paid holding is `quantity * monthlyRentPerToken`, and it is this
amount the pass puts into its batch for the balance, next to the new
`lastPayoutDate` of the holding.  After the pass the holding carries
`lastPayoutDate = now` exactly in that case and is untouched otherwise. -/
theorem rentalPayout_decision (now : Int) (s : Store) (holding : Holding) (property : Property)
    (hwf : s.WF) (hmem : holding ∈ s.portfolio)
    (hcat : findProperty s holding.id = some property) :
    (rentalPayout now s.properties holding =
        some (holding.quantity * property.monthlyRentPerToken) ↔
      thirtyDays < now - holding.lastPayoutDate.getD 0) ∧
    (rentalPayout now s.properties holding = none ↔
      now - holding.lastPayoutDate.getD 0 ≤ thirtyDays) ∧
    (Write.stampLastPayout holding.id now ∈ payoutBatch now s.properties s.portfolio ↔
      thirtyDays < now - holding.lastPayoutDate.getD 0) ∧
    (thirtyDays < now - holding.lastPayoutDate.getD 0 →
      Write.incrementCash (holding.quantity * property.monthlyRentPerToken) ∈
        payoutBatch now s.properties s.portfolio) ∧
    (checkForRentalPayouts now s).1.portfolio.find? (fun h => h.id == holding.id) =
      some (if thirtyDays < now - holding.lastPayoutDate.getD 0 then
        { holding with lastPayoutDate := some now } else holding) := by
  unfold findProperty at hcat
  have hsome : rentalPayout now s.properties holding =
        some (holding.quantity * property.monthlyRentPerToken) ↔
      thirtyDays < now - holding.lastPayoutDate.getD 0 := by
    unfold rentalPayout
    simp only [hcat]
    constructor
    · intro h
      by_contra hc
      have : ¬ holding.lastPayoutDate.getD 0 < now - thirtyDays := by omega
      rw [if_neg this] at h
      cases h
    · intro h
      have : holding.lastPayoutDate.getD 0 < now - thirtyDays := by omega
      rw [if_pos this]
  have hnone : rentalPayout now s.properties holding = none ↔
      now - holding.lastPayoutDate.getD 0 ≤ thirtyDays := by
    constructor
    · intro h
      by_contra hc
      rw [hsome.mpr (not_le.mp hc)] at h
      cases h
    · intro h
      unfold rentalPayout
      have : ¬ holding.lastPayoutDate.getD 0 < now - thirtyDays := by omega
      simp only [if_neg this]
  refine ⟨hsome, hnone, ?_, fun h => mem_payoutBatch_cash now _ holding _ _ hmem (hsome.mpr h),
    ?_⟩
  · rw [mem_payoutBatch_stamp]
    constructor
    · rintro ⟨h, hh, hid, hpaid⟩
      have heq : h = holding := List.inj_on_of_nodup_map hwf.2 hh hmem hid
      subst heq
      by_contra hc
      rw [hnone.mpr (not_lt.mp hc)] at hpaid
      cases hpaid
    · intro h
      exact ⟨holding, hmem, rfl, by rw [hsome.mpr h]; rfl⟩
  · rw [checkForRentalPayouts_eq]
    dsimp only
    rw [find?_map_key Holding.id _ _ holding.id s.portfolio,
      find?_of_mem_nodup Holding.id holding s.portfolio hwf.2 hmem, Option.map_some',
      any_paid_of_mem now s.properties holding s.portfolio hwf.2 hmem]
    · by_cases hc : thirtyDays < now - holding.lastPayoutDate.getD 0
      · rw [hsome.mpr hc, if_pos hc]
        rfl
      · rw [hnone.mpr (not_lt.mp hc), if_neg hc]
        rfl
    · intro x
      split <;> rfl

/-- Scenario C one millisecond past thirty days: ten tokens at 0.37. -/
theorem rentalPayout_decision_witness :
    rentedStore.WF ∧
    thirtyDays < (thirtyDays + 1) - (0 : Int) ∧
    rentalPayout (thirtyDays + 1) rentedStore.properties
      ⟨"amsterdam-canal-house", "Amsterdam Canal House", 10, some 0⟩ = some (10 * 37) ∧
    checkForRentalPayouts (thirtyDays + 1) rentedStore =
      ({ rentedStore with
          cashBalance := 370
          portfolio :=
            [⟨"amsterdam-canal-house", "Amsterdam Canal House", 10, some (thirtyDays + 1)⟩]
          transactions :=
            [⟨.RentalIncome, 370, .tokensOf 10 "Amsterdam Canal House", thirtyDays + 1⟩] },
       Outcome.completed) :=
  ⟨by decide, by decide,
    (rentalPayout_decision (thirtyDays + 1) rentedStore
      ⟨"amsterdam-canal-house", "Amsterdam Canal House", 10, some 0⟩ canalHouse
      (by decide) (by decide) (by decide)).1.mpr (by decide),
    by decide⟩

/-! ## Supply conservation -/

theorem totalSupply_eq_find (s : Store) (pid : DocId) (hwf : s.WF) :
    totalSupply s pid =
      (match s.properties.find? (fun p => p.id == pid) with
        | some p => p.tokensAvailable
        | none => 0) + holdingQuantity s pid := by
  unfold totalSupply holdingQuantity
  rw [sum_filter_key Property.id (fun p => p.tokensAvailable) pid s.properties hwf.1,
    sum_filter_key Holding.id (fun h => h.quantity) pid s.portfolio hwf.2]
  cases s.properties.find? (fun p => p.id == pid) <;>
    cases s.portfolio.find? (fun h => h.id == pid) <;> rfl

theorem totalSupply_congr (s s1 : Store) (pid : DocId) (hprops : s1.properties = s.properties)
    (hport : s1.portfolio = s.portfolio) : totalSupply s1 pid = totalSupply s pid := by
  unfold totalSupply
  rw [hprops, hport]

theorem handleBuy_WF (now : Int) (s : Store) (property : Property) (amount : Int)
    (hwf : s.WF) : (handleBuy now s property amount).1.WF := by
  by_cases hfunds : s.cashBalance < amount * property.tokenPrice
  · rw [handleBuy_refused now s property amount hfunds]
    exact hwf
  · cases hcat : s.properties.any (fun p => p.id == property.id)
    · rw [handleBuy_unknown now s property amount hfunds hcat]
      exact hwf
    · cases hheld : s.portfolio.any (fun h => h.id == property.id)
      · rw [handleBuy_create now s property amount hfunds hcat hheld]
        refine ⟨?_, ?_⟩
        · show ((s.properties.map fun p =>
              if p.id == property.id then
                { p with tokensAvailable := p.tokensAvailable + -amount } else p).map
              (fun p => p.id)).Nodup
          rw [map_key_update Property.id
            (fun p => { p with tokensAvailable := p.tokensAvailable + -amount })
            (fun _ => rfl)]
          exact hwf.1
        · show ((s.portfolio ++ [(⟨property.id, property.name, amount, some 0⟩ : Holding)]).map
            (fun h => h.id)).Nodup
          rw [List.map_append, List.nodup_append]
          refine ⟨hwf.2, by simp, ?_⟩
          intro a ha hb
          simp only [List.map_cons, List.map_nil, List.mem_singleton] at hb
          obtain ⟨h, hh, rfl⟩ := List.mem_map.mp ha
          have : s.portfolio.any (fun h => h.id == property.id) = true :=
            List.any_eq_true.mpr ⟨h, hh, by simpa using hb⟩
          rw [hheld] at this
          cases this
      · rw [handleBuy_topUp now s property amount hfunds hcat hheld]
        refine ⟨?_, ?_⟩
        · show ((s.properties.map fun p =>
              if p.id == property.id then
                { p with tokensAvailable := p.tokensAvailable + -amount } else p).map
              (fun p => p.id)).Nodup
          rw [map_key_update Property.id
            (fun p => { p with tokensAvailable := p.tokensAvailable + -amount })
            (fun _ => rfl)]
          exact hwf.1
        · show ((s.portfolio.map fun h =>
              if h.id == property.id then { h with quantity := h.quantity + amount }
              else h).map (fun h => h.id)).Nodup
          rw [map_key_update Holding.id (fun h => { h with quantity := h.quantity + amount })
            (fun _ => rfl)]
          exact hwf.2

theorem handleSell_WF (now : Int) (s : Store) (holding : Holding) (hwf : s.WF) :
    (handleSell now s holding).1.WF := by
  cases hcat : s.properties.find? (fun p => p.id == holding.id) with
  | none =>
    rw [handleSell_unknown now s holding hcat]
    exact hwf
  | some property =>
    rw [handleSell_found now s holding property hcat]
    refine ⟨?_, ?_⟩
    · show ((s.properties.map fun p =>
          if p.id == holding.id then
            { p with tokensAvailable := p.tokensAvailable + holding.quantity } else p).map
          (fun p => p.id)).Nodup
      rw [map_key_update Property.id
        (fun p => { p with tokensAvailable := p.tokensAvailable + holding.quantity })
        (fun _ => rfl)]
      exact hwf.1
    · show ((s.portfolio.filter fun h => !(h.id == holding.id)).map (fun h => h.id)).Nodup
      exact (List.filter_sublist _).map _ |>.nodup hwf.2

theorem handleBuy_totalSupply (now : Int) (s : Store) (property : Property) (amount : Int)
    (pid : DocId) (hwf : s.WF) :
    totalSupply (handleBuy now s property amount).1 pid = totalSupply s pid := by
  have hwf1 := handleBuy_WF now s property amount hwf
  rw [totalSupply_eq_find _ pid hwf1, totalSupply_eq_find s pid hwf]
  by_cases hfunds : s.cashBalance < amount * property.tokenPrice
  · rw [handleBuy_refused now s property amount hfunds]
  · cases hcat : s.properties.any (fun p => p.id == property.id)
    · rw [handleBuy_unknown now s property amount hfunds hcat]
      rfl
    · obtain ⟨p0, hp0⟩ := find?_some_of_any _ _ hcat
      cases hheld : s.portfolio.any (fun h => h.id == property.id)
      · rw [handleBuy_create now s property amount hfunds hcat hheld]
        unfold holdingQuantity
        dsimp only
        by_cases hid : pid = property.id
        · subst hid
          rw [find?_map_update Property.id
            (fun p => { p with tokensAvailable := p.tokensAvailable + -amount })
            (fun _ => rfl), List.find?_append, find?_none_of_any_false _ _ hheld, hp0]
          simp
        · rw [find?_map_update_ne Property.id
            (fun p => { p with tokensAvailable := p.tokensAvailable + -amount })
            (fun _ => rfl) property.id pid hid, List.find?_append]
          have hnew : [(⟨property.id, property.name, amount, some 0⟩ : Holding)].find?
              (fun h => h.id == pid) = none := by
            have : (property.id == pid) = false := beq_false_of_ne (fun e => hid e.symm)
            simp only [List.find?_cons, this, List.find?_nil]
          rw [hnew, Option.or_none]
      · obtain ⟨h0, hh0⟩ := find?_some_of_any _ _ hheld
        rw [handleBuy_topUp now s property amount hfunds hcat hheld]
        unfold holdingQuantity
        dsimp only
        by_cases hid : pid = property.id
        · subst hid
          rw [find?_map_update Property.id
            (fun p => { p with tokensAvailable := p.tokensAvailable + -amount })
            (fun _ => rfl),
            find?_map_update Holding.id (fun h => { h with quantity := h.quantity + amount })
            (fun _ => rfl), hp0, hh0]
          simp only [Option.map_some']
          ring
        · rw [find?_map_update_ne Property.id
            (fun p => { p with tokensAvailable := p.tokensAvailable + -amount })
            (fun _ => rfl) property.id pid hid,
            find?_map_update_ne Holding.id (fun h => { h with quantity := h.quantity + amount })
            (fun _ => rfl) property.id pid hid]

theorem handleSell_totalSupply (now : Int) (s : Store) (holding : Holding) (pid : DocId)
    (hwf : s.WF) (hmem : holding ∈ s.portfolio) :
    totalSupply (handleSell now s holding).1 pid = totalSupply s pid := by
  have hwf1 := handleSell_WF now s holding hwf
  rw [totalSupply_eq_find _ pid hwf1, totalSupply_eq_find s pid hwf]
  cases hcat : s.properties.find? (fun p => p.id == holding.id) with
  | none => rw [handleSell_unknown now s holding hcat]
  | some property =>
    rw [handleSell_found now s holding property hcat]
    unfold holdingQuantity
    dsimp only
    by_cases hid : pid = holding.id
    · subst hid
      rw [find?_map_update Property.id
        (fun p => { p with tokensAvailable := p.tokensAvailable + holding.quantity })
        (fun _ => rfl), find?_filter_self Holding.id, hcat,
        find?_of_mem_nodup Holding.id holding s.portfolio hwf.2 hmem]
      simp
    · rw [find?_map_update_ne Property.id
        (fun p => { p with tokensAvailable := p.tokensAvailable + holding.quantity })
        (fun _ => rfl) holding.id pid hid, find?_filter_ne Holding.id holding.id pid hid]

theorem isTrade_step (now : Int) (s : Store) (c : Call) (pid : DocId) (hwf : s.WF)
    (htrade : c.isTrade s = true) :
    (c.run now s).WF ∧ totalSupply (c.run now s) pid = totalSupply s pid := by
  cases c with
  | buy property amount =>
    exact ⟨handleBuy_WF now s property amount hwf,
      handleBuy_totalSupply now s property amount pid hwf⟩
  | sell holding =>
    have hmem : holding ∈ s.portfolio := by
      simpa [Call.isTrade] using htrade
    exact ⟨handleSell_WF now s holding hwf, handleSell_totalSupply now s holding pid hwf hmem⟩
  | addCash amount => cases htrade
  | cashOut amount => cases htrade
  | rentalPayouts => cases htrade
  | vote proposalId choice => cases htrade

/-- C3 as stated fails: `handleSell` trusts the holding it is given.  Called a
second time with a holding that is already sold it credits the proceeds and
returns the tokens to the supply again: the supply of the property grows from
25000 to 25005 and the balance from 1000.00 to 1500.00. -/
theorem totalSupply_broken_by_stale_sell :
    totalSupply scenarioAfterBuy "amsterdam-canal-house" = 25000 ∧
    totalSupply
      (runCalls scenarioAfterBuy [(1, Call.sell canalHolding), (2, Call.sell canalHolding)])
      "amsterdam-canal-house" = 25005 ∧
    (runCalls scenarioAfterBuy
      [(1, Call.sell canalHolding), (2, Call.sell canalHolding)]).cashBalance = 150000 := by
  decide

/-- C3, amended: from a store with unique document ids, after every finite
sequence of `handleBuy` and `handleSell` calls in which each `handleSell` is
given a holding that is in the portfolio at the time of the call, the
`tokensAvailable` of a property plus the quantities of all holdings of it is
what it was before the sequence. -/
theorem totalSupply_conserved (pid : DocId) (calls : List (Int × Call)) (s : Store)
    (hwf : s.WF) (htrades : tradesOnly s calls = true) :
    totalSupply (runCalls s calls) pid = totalSupply s pid := by
  induction calls generalizing s with
  | nil => rfl
  | cons c rest ih =>
    obtain ⟨now, c⟩ := c
    simp only [tradesOnly, Bool.and_eq_true] at htrades
    obtain ⟨hstepWF, hstep⟩ := isTrade_step now s c pid hwf htrades.1
    show totalSupply (runCalls (c.run now s) rest) pid = _
    rw [ih (c.run now s) hstepWF htrades.2, hstep]

/-- On the store right after seeding: buy 5, buy 2, sell the 7. -/
theorem totalSupply_conserved_witness :
    (seededStore "proposal-1").WF ∧
    tradesOnly (seededStore "proposal-1")
      [(1, Call.buy canalHouse 5), (2, Call.buy canalHouse 2),
       (3, Call.sell ⟨"amsterdam-canal-house", "Amsterdam Canal House", 7, some 0⟩)] = true ∧
    totalSupply
      (runCalls (seededStore "proposal-1")
        [(1, Call.buy canalHouse 5), (2, Call.buy canalHouse 2),
         (3, Call.sell ⟨"amsterdam-canal-house", "Amsterdam Canal House", 7, some 0⟩)])
      "amsterdam-canal-house" = totalSupply (seededStore "proposal-1") "amsterdam-canal-house" :=
  ⟨by decide, by decide,
    totalSupply_conserved "amsterdam-canal-house" _ (seededStore "proposal-1")
      (by decide) (by decide)⟩

/-! ## Holdings created and topped up -/

/-- C19: a `handleBuy` that goes through (property in the catalog, cash
covering the cost) creates, when the account has no holding of the property,
a holding of quantity `amount` whose `lastPayoutDate` is the epoch; when a
holding exists, it only adds `amount` to its quantity, the `lastPayoutDate`
(and every other field) staying what it was.  The holdings of other
properties are not touched. -/
theorem handleBuy_holding (now : Int) (s : Store) (property p0 : Property) (amount : Int)
    (hcat : findProperty s property.id = some p0)
    (hfunds : amount * property.tokenPrice ≤ s.cashBalance) :
    ∃ s1, handleBuy now s property amount = (s1, Outcome.completed) ∧
      (s.portfolio.find? (fun h => h.id == property.id) = none →
        s1.portfolio.find? (fun h => h.id == property.id) =
          some ⟨property.id, property.name, amount, some 0⟩) ∧
      (∀ h0, s.portfolio.find? (fun h => h.id == property.id) = some h0 →
        s1.portfolio.find? (fun h => h.id == property.id) =
          some { h0 with quantity := h0.quantity + amount }) ∧
      (∀ other, other ≠ property.id →
        s1.portfolio.find? (fun h => h.id == other) =
          s.portfolio.find? (fun h => h.id == other)) := by
  have hnot : ¬ s.cashBalance < amount * property.tokenPrice := not_lt.mpr hfunds
  unfold findProperty at hcat
  have hany : s.properties.any (fun p => p.id == property.id) = true := by
    rw [any_eq_isSome_find?, hcat]; rfl
  cases hheld : s.portfolio.any (fun h => h.id == property.id)
  · have hnone := find?_none_of_any_false _ _ hheld
    refine ⟨_, handleBuy_create now s property amount hnot hany hheld, ?_, ?_, ?_⟩
    · intro _
      show (s.portfolio ++ [(⟨property.id, property.name, amount, some 0⟩ : Holding)]).find?
        (fun h => h.id == property.id) = _
      rw [List.find?_append, hnone]
      simp
    · intro h0 hh0
      rw [hnone] at hh0
      cases hh0
    · intro other hne
      show (s.portfolio ++ [(⟨property.id, property.name, amount, some 0⟩ : Holding)]).find?
        (fun h => h.id == other) = _
      have hnew : [(⟨property.id, property.name, amount, some 0⟩ : Holding)].find?
          (fun h => h.id == other) = none := by
        have : (property.id == other) = false := beq_false_of_ne (fun e => hne e.symm)
        simp only [List.find?_cons, this, List.find?_nil]
      rw [List.find?_append, hnew, Option.or_none]
  · obtain ⟨h1, hh1⟩ := find?_some_of_any _ _ hheld
    refine ⟨_, handleBuy_topUp now s property amount hnot hany hheld, ?_, ?_, ?_⟩
    · intro hn
      rw [hn] at hh1
      cases hh1
    · intro h0 hh0
      show (s.portfolio.map fun h =>
          if h.id == property.id then { h with quantity := h.quantity + amount } else h).find?
          (fun h => h.id == property.id) = _
      rw [find?_map_update Holding.id (fun h => { h with quantity := h.quantity + amount })
        (fun _ => rfl), hh0]
      rfl
    · intro other hne
      show (s.portfolio.map fun h =>
          if h.id == property.id then { h with quantity := h.quantity + amount } else h).find?
          (fun h => h.id == other) = _
      rw [find?_map_update_ne Holding.id (fun h => { h with quantity := h.quantity + amount })
        (fun _ => rfl) property.id other hne]

/-- Scenario A creates the holding; a second purchase of two tokens, made after
a payout pass has stamped the holding, tops it up and keeps the stamp. -/
theorem handleBuy_holding_witness :
    findProperty scenarioStore canalHouse.id = some canalHouse ∧
    5 * canalHouse.tokenPrice ≤ scenarioStore.cashBalance ∧
    (handleBuy 0 scenarioStore canalHouse 5).1.portfolio =
      [⟨"amsterdam-canal-house", "Amsterdam Canal House", 5, some 0⟩] ∧
    (handleBuy 9 { scenarioAfterBuy with
        portfolio := [⟨"amsterdam-canal-house", "Amsterdam Canal House", 5, some 7⟩] }
      canalHouse 2).1.portfolio =
      [⟨"amsterdam-canal-house", "Amsterdam Canal House", 7, some 7⟩] ∧
    ∃ s1, handleBuy 0 scenarioStore canalHouse 5 = (s1, Outcome.completed) ∧
      (scenarioStore.portfolio.find? (fun h => h.id == canalHouse.id) = none →
        s1.portfolio.find? (fun h => h.id == canalHouse.id) =
          some ⟨canalHouse.id, canalHouse.name, 5, some 0⟩) ∧
      (∀ h0, scenarioStore.portfolio.find? (fun h => h.id == canalHouse.id) = some h0 →
        s1.portfolio.find? (fun h => h.id == canalHouse.id) =
          some { h0 with quantity := h0.quantity + 5 }) ∧
      (∀ other, other ≠ canalHouse.id →
        s1.portfolio.find? (fun h => h.id == other) =
          scenarioStore.portfolio.find? (fun h => h.id == other)) :=
  ⟨by decide, by decide, by decide, by decide,
    handleBuy_holding 0 scenarioStore canalHouse canalHouse 5 (by decide) (by decide)⟩

/-! ## Atomicity of a trade -/

/-- C18 fails on the code: the `Purchase` record is added by its own `addDoc`
before `batch.commit()` and outside the batch.  When the commit is rejected
(here the property has no document, so the supply update finds nothing) the
balance, the catalog and the holdings are the ones before the call, but the
transaction list has the `Purchase` record of a purchase that did not
happen. -/
theorem handleBuy_rejected_keeps_record :
    handleBuy 4 scenarioStore ghostProperty 2 =
      ({ scenarioStore with
          transactions := [⟨.Purchase, -18000, .tokensOf 2 "Leiden Townhouse", 4⟩] },
       Outcome.commitRejected) ∧
    (handleBuy 4 scenarioStore ghostProperty 2).1 ≠ scenarioStore := by
  decide

/-! ## Governance -/

theorem handleVote_found (s : Store) (proposalId : DocId) (choice : Vote) (p : Proposal)
    (hfound : s.proposals.find? (fun q => q.id == proposalId) = some p) :
    handleVote s proposalId choice =
      ({ s with proposals := s.proposals.map fun q =>
          if q.id == proposalId then
            match choice with
            | .yes => { q with yes := q.yes + 1 }
            | .no => { q with no := q.no + 1 }
          else q },
       Outcome.completed) := by
  have hany : s.proposals.any (fun q => q.id == proposalId) = true := by
    rw [any_eq_isSome_find?, hfound]; rfl
  unfold handleVote
  simp only [hany, if_true]

theorem handleBuy_proposals (now : Int) (s : Store) (property : Property) (amount : Int) :
    (handleBuy now s property amount).1.proposals = s.proposals := by
  by_cases hfunds : s.cashBalance < amount * property.tokenPrice
  · rw [handleBuy_refused now s property amount hfunds]
  · cases hcat : s.properties.any (fun p => p.id == property.id)
    · rw [handleBuy_unknown now s property amount hfunds hcat]
    · cases hheld : s.portfolio.any (fun h => h.id == property.id)
      · rw [handleBuy_create now s property amount hfunds hcat hheld]
      · rw [handleBuy_topUp now s property amount hfunds hcat hheld]

theorem handleSell_proposals (now : Int) (s : Store) (holding : Holding) :
    (handleSell now s holding).1.proposals = s.proposals := by
  cases hcat : s.properties.find? (fun p => p.id == holding.id) with
  | none => rw [handleSell_unknown now s holding hcat]
  | some property => rw [handleSell_found now s holding property hcat]

theorem counters_step (now : Int) (s : Store) (c : Call) (pid : DocId) (q : Proposal)
    (hq : s.proposals.find? (fun x => x.id == pid) = some q) :
    ∃ q1, (c.run now s).proposals.find? (fun x => x.id == pid) = some q1 ∧
      q.yes ≤ q1.yes ∧ q.no ≤ q1.no := by
  cases c with
  | addCash amount => exact ⟨q, hq, le_refl _, le_refl _⟩
  | cashOut amount =>
    refine ⟨q, ?_, le_refl _, le_refl _⟩
    show (handleCashOut now s amount).1.proposals.find? _ = _
    unfold handleCashOut
    split <;> exact hq
  | buy property amount =>
    refine ⟨q, ?_, le_refl _, le_refl _⟩
    show (handleBuy now s property amount).1.proposals.find? _ = _
    rw [handleBuy_proposals]
    exact hq
  | sell holding =>
    refine ⟨q, ?_, le_refl _, le_refl _⟩
    show (handleSell now s holding).1.proposals.find? _ = _
    rw [handleSell_proposals]
    exact hq
  | rentalPayouts =>
    refine ⟨q, ?_, le_refl _, le_refl _⟩
    show (checkForRentalPayouts now s).1.proposals.find? _ = _
    rw [checkForRentalPayouts_eq]
    exact hq
  | vote proposalId choice =>
    show ∃ q1, (handleVote s proposalId choice).1.proposals.find? _ = some q1 ∧ _
    cases hp : s.proposals.find? (fun x => x.id == proposalId) with
    | none =>
      have hany : s.proposals.any (fun x => x.id == proposalId) = false := by
        rw [any_eq_isSome_find?, hp]; rfl
      refine ⟨q, ?_, le_refl _, le_refl _⟩
      unfold handleVote
      simp only [hany, Bool.false_eq_true, if_false]
      exact hq
    | some p =>
      rw [handleVote_found s proposalId choice p hp]
      dsimp only
      rw [find?_map_key Proposal.id _ _ pid s.proposals, hq]
      · refine ⟨_, rfl, ?_, ?_⟩
        · by_cases hk : q.id = proposalId <;> cases choice <;> simp [hk]
        · by_cases hk : q.id = proposalId <;> cases choice <;> simp [hk]
      · intro x
        cases x.id == proposalId <;> cases choice <;> rfl

theorem counters_run (calls : List (Int × Call)) (s : Store) (pid : DocId) (q : Proposal)
    (hq : s.proposals.find? (fun x => x.id == pid) = some q) :
    ∃ q1, (runCalls s calls).proposals.find? (fun x => x.id == pid) = some q1 ∧
      q.yes ≤ q1.yes ∧ q.no ≤ q1.no := by
  induction calls generalizing s q with
  | nil => exact ⟨q, hq, le_refl _, le_refl _⟩
  | cons c rest ih =>
    obtain ⟨now, c⟩ := c
    obtain ⟨q1, hq1, hy, hn⟩ := counters_step now s c pid q hq
    obtain ⟨q2, hq2, hy2, hn2⟩ := ih (c.run now s) q1 hq1
    exact ⟨q2, hq2, le_trans hy hy2, le_trans hn hn2⟩

/-- C16: when the proposal exists, `handleVote` completes and adds exactly 1 to
the chosen counter of that proposal; the other counter, every other proposal
and the balance, holdings, catalog, transactions and snapshots are what they
were.  The result does not depend on the portfolio, so not on the quantity the
voter holds.  Over any sequence of handler calls no counter of a proposal
gets smaller. -/
theorem handleVote_effect (s : Store) (proposalId : DocId) (choice : Vote) (p : Proposal)
    (hfound : s.proposals.find? (fun q => q.id == proposalId) = some p) :
    (∃ s1, handleVote s proposalId choice = (s1, Outcome.completed) ∧
      s1.proposals.find? (fun q => q.id == proposalId) =
        some (match choice with
          | .yes => { p with yes := p.yes + 1 }
          | .no => { p with no := p.no + 1 }) ∧
      (∀ other, other ≠ proposalId →
        s1.proposals.find? (fun q => q.id == other) =
          s.proposals.find? (fun q => q.id == other)) ∧
      (∀ q ∈ s.proposals, q.id ≠ proposalId → q ∈ s1.proposals) ∧
      s1.proposals.length = s.proposals.length ∧
      s1.cashBalance = s.cashBalance ∧ s1.portfolio = s.portfolio ∧
      s1.properties = s.properties ∧ s1.transactions = s.transactions ∧
      s1.portfolioHistory = s.portfolioHistory) ∧
    (∀ portfolio : List Holding,
      (handleVote { s with portfolio := portfolio } proposalId choice).1.proposals =
        (handleVote s proposalId choice).1.proposals) ∧
    (∀ (calls : List (Int × Call)) (pid : DocId) (q : Proposal),
      s.proposals.find? (fun x => x.id == pid) = some q →
      ∃ q1, (runCalls s calls).proposals.find? (fun x => x.id == pid) = some q1 ∧
        q.yes ≤ q1.yes ∧ q.no ≤ q1.no) := by
  refine ⟨⟨_, handleVote_found s proposalId choice p hfound, ?_, ?_, ?_, ?_,
    rfl, rfl, rfl, rfl, rfl⟩, ?_, ?_⟩
  · dsimp only
    cases choice
    · rw [find?_map_update Proposal.id (fun q => { q with yes := q.yes + 1 }) (fun _ => rfl),
        hfound]
      rfl
    · rw [find?_map_update Proposal.id (fun q => { q with no := q.no + 1 }) (fun _ => rfl),
        hfound]
      rfl
  · intro other hne
    dsimp only
    cases choice
    · rw [find?_map_update_ne Proposal.id (fun q => { q with yes := q.yes + 1 })
        (fun _ => rfl) proposalId other hne]
    · rw [find?_map_update_ne Proposal.id (fun q => { q with no := q.no + 1 })
        (fun _ => rfl) proposalId other hne]
  · intro q hq hne
    dsimp only
    refine List.mem_map.mpr ⟨q, hq, ?_⟩
    have hk : (q.id == proposalId) = false := beq_false_of_ne hne
    simp only [hk, Bool.false_eq_true, if_false]
  · dsimp only
    rw [List.length_map]
  · intro portfolio
    rw [handleVote_found s proposalId choice p hfound,
      handleVote_found { s with portfolio := portfolio } proposalId choice p hfound]
  · intro calls pid q hq
    exact counters_run calls s pid q hq

/-- A yes vote on the seeded proposal, by an account without any holding. -/
theorem handleVote_effect_witness :
    (seededStore "proposal-1").proposals.find? (fun q => q.id == "proposal-1") =
      some seededProposal ∧
    handleVote (seededStore "proposal-1") "proposal-1" Vote.yes =
      ({ seededStore "proposal-1" with
          proposals := [⟨"proposal-1", "rotterdam-penthouse", 1251, 120⟩] },
       Outcome.completed) ∧
    ∃ q1, (runCalls (seededStore "proposal-1")
        [(1, Call.vote "proposal-1" Vote.no), (2, Call.buy canalHouse 1),
         (3, Call.vote "proposal-1" Vote.no)]).proposals.find?
        (fun x => x.id == "proposal-1") = some q1 ∧
      seededProposal.yes ≤ q1.yes ∧ seededProposal.no ≤ q1.no :=
  ⟨by decide, by decide,
    (handleVote_effect (seededStore "proposal-1") "proposal-1" Vote.yes seededProposal
      (by decide)).2.2 _ "proposal-1" seededProposal (by decide)⟩

theorem userHoldings_eq_find (portfolio : List Holding) (key : DocId)
    (acc : DocId → Option Int) (hnd : (portfolio.map fun h => h.id).Nodup) :
    portfolio.foldl (fun acc h => fun k => if k == h.id then some h.quantity else acc k) acc key =
      match portfolio.find? (fun h => h.id == key) with
      | some h => some h.quantity
      | none => acc key := by
  induction portfolio generalizing acc with
  | nil => rfl
  | cons h l ih =>
    rw [List.map_cons, List.nodup_cons] at hnd
    rw [List.foldl_cons, ih _ hnd.2]
    cases hk : h.id == key
    · have hk2 : (key == h.id) = false := by
        rw [beq_eq_false_iff_ne] at hk ⊢
        exact fun e => hk e.symm
      simp only [List.find?_cons, hk, hk2, Bool.false_eq_true, if_false]
    · have hid : h.id = key := by simpa using hk
      have hnone : l.find? (fun x => x.id == key) = none := by
        rw [List.find?_eq_none]
        intro x hx hxk
        have hxid : x.id = key := by simpa using hxk
        exact hnd.1 (List.mem_map.mpr ⟨x, hx, by rw [hxid, hid]⟩)
      have hk2 : (key == h.id) = true := by simp [hid]
      simp only [List.find?_cons, hk, hnone, hk2, if_true]

/-- C17 as stated fails: `handleVote` checks nothing about the voter.  An
account without any holding, and an account whose holding in the property of
the proposal has quantity 0, both get their vote counted. -/
theorem handleVote_without_holding :
    (seededStore "proposal-1").portfolio = [] ∧
    handleVote (seededStore "proposal-1") "proposal-1" Vote.yes =
      ({ seededStore "proposal-1" with
          proposals := [⟨"proposal-1", "rotterdam-penthouse", 1251, 120⟩] },
       Outcome.completed) ∧
    holdingQuantity emptyHandedStore "rotterdam-penthouse" = 0 ∧
    handleVote emptyHandedStore "proposal-1" Vote.no =
      ({ emptyHandedStore with
          proposals := [⟨"proposal-1", "rotterdam-penthouse", 1250, 121⟩] },
       Outcome.completed) := by
  decide

/-- C17, amended: eligibility is decided by `GovernancePage`, in front of
`handleVote`.  With unique holding ids, the page offers the vote buttons of a
proposal if and only if the quantity the account holds of
`proposal.propertyId` is greater than 0; without a holding, or with a holding
of quantity 0, no button is rendered, `handleVote` is not called and the
store, with both counters, is what it was; with a quantity above 0 the button
calls `handleVote` for that proposal. -/
theorem governancePage_eligibility (s : Store) (p : Proposal) (choice : Vote) (hwf : s.WF) :
    (GovernancePage.canVote s p = true ↔ 0 < holdingQuantity s p.propertyId) ∧
    (holdingQuantity s p.propertyId ≤ 0 →
      GovernancePage.vote s p choice = (s, Outcome.notOffered)) ∧
    (0 < holdingQuantity s p.propertyId →
      GovernancePage.vote s p choice = handleVote s p.id choice) := by
  have hiff : GovernancePage.canVote s p = true ↔ 0 < holdingQuantity s p.propertyId := by
    unfold GovernancePage.canVote GovernancePage.userHoldings holdingQuantity
    rw [userHoldings_eq_find s.portfolio p.propertyId _ hwf.2]
    cases s.portfolio.find? (fun h => h.id == p.propertyId) with
    | none => simp
    | some h => simp
  refine ⟨hiff, ?_, ?_⟩
  · intro hle
    have hno : ¬ GovernancePage.canVote s p = true := fun h => by
      have := hiff.mp h
      omega
    unfold GovernancePage.vote
    rw [if_neg hno]
  · intro hpos
    unfold GovernancePage.vote
    rw [if_pos (hiff.mpr hpos)]

/-- The seeded account holds nothing, the other a quantity of 0: no buttons. -/
theorem governancePage_eligibility_witness :
    (seededStore "proposal-1").WF ∧
    holdingQuantity (seededStore "proposal-1") seededProposal.propertyId ≤ 0 ∧
    GovernancePage.vote (seededStore "proposal-1") seededProposal Vote.yes =
      (seededStore "proposal-1", Outcome.notOffered) ∧
    GovernancePage.vote emptyHandedStore seededProposal Vote.yes =
      (emptyHandedStore, Outcome.notOffered) :=
  ⟨by decide, by decide,
    (governancePage_eligibility (seededStore "proposal-1") seededProposal Vote.yes
      (by decide)).2.1 (by decide),
    by decide⟩

/-! ## Portfolio snapshots -/

theorem lastRecord_eq_none (history : List Snapshot) :
    lastRecord history = none ↔ history = [] := by
  cases history with
  | nil => simp [lastRecord]
  | cons r rest =>
    simp only [lastRecord, reduceCtorEq, iff_false]
    cases lastRecord rest with
    | none => simp
    | some best =>
      dsimp only
      split <;> simp

theorem lastRecord_max (history : List Snapshot) (r : Snapshot)
    (h : lastRecord history = some r) :
    r ∈ history ∧ ∀ x ∈ history, x.timestamp ≤ r.timestamp := by
  induction history generalizing r with
  | nil => simp [lastRecord] at h
  | cons a rest ih =>
    unfold lastRecord at h
    cases hrest : lastRecord rest with
    | none =>
      rw [hrest] at h
      simp only [Option.some.injEq] at h
      subst h
      have hnil := (lastRecord_eq_none rest).mp hrest
      subst hnil
      simp
    | some best =>
      rw [hrest] at h
      obtain ⟨hmem, hmax⟩ := ih best hrest
      dsimp only at h
      split at h
      · next hlt =>
        simp only [Option.some.injEq] at h
        subst h
        refine ⟨List.mem_cons_self _ _, ?_⟩
        intro x hx
        rcases List.mem_cons.mp hx with rfl | hx1
        · exact le_refl _
        · exact le_trans (hmax x hx1) (le_of_lt hlt)
      · next hge =>
        simp only [Option.some.injEq] at h
        subst h
        refine ⟨List.mem_cons_of_mem _ hmem, ?_⟩
        intro x hx
        rcases List.mem_cons.mp hx with rfl | hx1
        · exact not_lt.mp hge
        · exact hmax x hx1

theorem foldl_add_eq_sum {α : Type} (f : α → Int) (l : List α) (init : Int) :
    l.foldl (fun total a => total + f a) init = init + (l.map f).sum := by
  induction l generalizing init with
  | nil => simp
  | cons a l ih =>
    rw [List.foldl_cons, ih, List.map_cons, List.sum_cons]
    ring

theorem recordPortfolioSnapshot_appends (now : Int) (s : Store)
    (hold : ∀ r ∈ s.portfolioHistory, oneDay < now - r.timestamp) :
    recordPortfolioSnapshot now s =
      { s with portfolioHistory := s.portfolioHistory ++ [⟨portfolioValue s, now⟩] } := by
  unfold recordPortfolioSnapshot
  cases hl : lastRecord s.portfolioHistory with
  | none => rfl
  | some r =>
    have hr := hold r (lastRecord_max _ r hl).1
    have : r.timestamp < now - oneDay := by omega
    simp only [if_pos this]

theorem recordPortfolioSnapshot_skips (now : Int) (s : Store) (r : Snapshot)
    (hmem : r ∈ s.portfolioHistory) (hrecent : now - r.timestamp ≤ oneDay) :
    recordPortfolioSnapshot now s = s := by
  unfold recordPortfolioSnapshot
  cases hl : lastRecord s.portfolioHistory with
  | none =>
    rw [(lastRecord_eq_none _).mp hl] at hmem
    cases hmem
  | some best =>
    have hmax := (lastRecord_max _ best hl).2 r hmem
    have : ¬ best.timestamp < now - oneDay := by omega
    simp only [if_neg this]

/-- C14 as stated fails at the boundary: with the latest snapshot taken exactly
24 hours ago no snapshot is added. -/
theorem snapshot_skipped_at_one_day :
    oneDay - (0 : Int) ≥ oneDay ∧
    lastRecord snapshotStore.portfolioHistory = some ⟨0, 0⟩ ∧
    recordPortfolioSnapshot oneDay snapshotStore = snapshotStore := by
  decide

/-- C14, amended: `recordPortfolioSnapshot` adds a snapshot if and only if the
account has no snapshot or the most recent one is more than 24 hours older
than `now` (so not at exactly 24 hours), which is to say that every snapshot
is more than 24 hours older than `now`.  The added snapshot carries `now` and
the sum over the holdings of `quantity * tokenPrice` of the holding's
property (0 for a property that is not in the catalog); otherwise the store,
and with it the history, is unchanged.  The record the decision reads is one
of greatest timestamp. -/
theorem recordPortfolioSnapshot_decision (now : Int) (s : Store) :
    ((recordPortfolioSnapshot now s).portfolioHistory =
        s.portfolioHistory ++
          [⟨(s.portfolio.map fun h => h.quantity *
              (match findProperty s h.id with
               | some property => property.tokenPrice
               | none => 0)).sum, now⟩] ↔
      (lastRecord s.portfolioHistory = none ∨
        ∃ r, lastRecord s.portfolioHistory = some r ∧ oneDay < now - r.timestamp)) ∧
    ((lastRecord s.portfolioHistory = none ∨
        ∃ r, lastRecord s.portfolioHistory = some r ∧ oneDay < now - r.timestamp) ↔
      ∀ r ∈ s.portfolioHistory, oneDay < now - r.timestamp) ∧
    ((∃ r ∈ s.portfolioHistory, now - r.timestamp ≤ oneDay) →
      recordPortfolioSnapshot now s = s) ∧
    (lastRecord s.portfolioHistory = none ↔ s.portfolioHistory = []) ∧
    (∀ r, lastRecord s.portfolioHistory = some r →
      r ∈ s.portfolioHistory ∧ ∀ x ∈ s.portfolioHistory, x.timestamp ≤ r.timestamp) := by
  have hvalue : portfolioValue s =
      (s.portfolio.map fun h => h.quantity *
        (match findProperty s h.id with
         | some property => property.tokenPrice
         | none => 0)).sum := by
    unfold portfolioValue findProperty
    rw [foldl_add_eq_sum, zero_add]
  have hall : (lastRecord s.portfolioHistory = none ∨
        ∃ r, lastRecord s.portfolioHistory = some r ∧ oneDay < now - r.timestamp) ↔
      ∀ r ∈ s.portfolioHistory, oneDay < now - r.timestamp := by
    constructor
    · rintro (hnone | ⟨r, hr, hlt⟩)
      · rw [(lastRecord_eq_none _).mp hnone]
        intro r hr
        cases hr
      · intro x hx
        have := (lastRecord_max _ r hr).2 x hx
        omega
    · intro hold
      cases hl : lastRecord s.portfolioHistory with
      | none => exact Or.inl rfl
      | some r => exact Or.inr ⟨r, rfl, hold r (lastRecord_max _ r hl).1⟩
  refine ⟨?_, hall, ?_, lastRecord_eq_none _, fun r hr => lastRecord_max _ r hr⟩
  · rw [hall, ← hvalue]
    constructor
    · intro happ
      by_contra hnot
      push_neg at hnot
      obtain ⟨r, hr, hle⟩ := hnot
      rw [recordPortfolioSnapshot_skips now s r hr hle] at happ
      have := congrArg List.length happ
      simp at this
    · intro hold
      rw [recordPortfolioSnapshot_appends now s hold]
  · rintro ⟨r, hr, hle⟩
    exact recordPortfolioSnapshot_skips now s r hr hle

/-- A snapshot of an account holding five canal-house tokens at 100.00. -/
theorem recordPortfolioSnapshot_decision_witness :
    (∃ r ∈ snapshotStore.portfolioHistory, (oneDay - 5) - r.timestamp ≤ oneDay) ∧
    recordPortfolioSnapshot (oneDay - 5) snapshotStore = snapshotStore ∧
    (recordPortfolioSnapshot 7 scenarioAfterBuy).portfolioHistory = [⟨50000, 7⟩] :=
  ⟨by decide,
    (recordPortfolioSnapshot_decision (oneDay - 5) snapshotStore).2.2.1 (by decide),
    by decide⟩

/-! ## The account ledger at double precision -/

/-- C9 as stated fails in its last clause: the balance is a double and the
increment rounds.  A deposit of `1.01` on the sign-up balance of 100000 is
recorded with the double nearest to 1.01, and the balance moves to the double
nearest to 100001.01, which is 1.00999999999476... above the old balance: the
change of the balance is not the amount of the record, whether the difference
is taken exactly or as a double. -/
theorem deposit_change_rounded :
    JsStore.handleAddCash 0 signUpAccount (some (101 / 100)) =
      ({ signUpAccount with
          cashBalance := .finite (6872017080271503 / 68719476736)
          transactions :=
            [⟨.Deposit, .finite (4548635623644201 / 4503599627370496), .cashAdded, 0⟩] },
       Outcome.completed) ∧
    (6872017080271503 / 68719476736 : ℚ) - 100000 ≠ 4548635623644201 / 4503599627370496 ∧
    JsNumber.add (.finite (6872017080271503 / 68719476736)) (.finite (-100000)) ≠
      .finite (4548635623644201 / 4503599627370496) := by
  decide!

/-- C9, amended: for a string that spells a number `a > 0`, `handleAddCash`
completes, hands `a` to the increment of the balance, so that the balance
becomes the double sum `cashBalance + a`, and adds exactly one `Deposit`
record of amount `a`; when moreover `a` is not above the balance,
`handleCashOut` completes, hands `-a` to the increment, so that the balance
becomes the double sum `cashBalance + (-a)`, and adds exactly one `Withdrawal`
record of amount `-a`.  In both cases the operand of the increment is the
signed amount of the record, and the catalog, the holdings, the proposals and
the snapshots are untouched. -/
theorem deposit_withdraw_increment (now : Int) (s : JsStore) (text : Option ℚ) (a : ℚ)
    (hparse : parseFloat text = JsNumber.finite a) (hpos : 0 < a) :
    (∃ s1 t, JsStore.handleAddCash now s text = (s1, Outcome.completed) ∧
        s1.cashBalance = s.cashBalance.add (JsNumber.finite a) ∧
        s1.transactions = s.transactions ++ [t] ∧
        t.type = TxType.Deposit ∧ t.amount = JsNumber.finite a ∧
        JsNumber.lt (JsNumber.finite 0) t.amount = true ∧
        s1.portfolio = s.portfolio ∧ s1.properties = s.properties ∧
        s1.proposals = s.proposals ∧ s1.portfolioHistory = s.portfolioHistory) ∧
    (∀ b, s.cashBalance = JsNumber.finite b → a ≤ b →
      ∃ s1 t, JsStore.handleCashOut now s text = (s1, Outcome.completed) ∧
        s1.cashBalance = s.cashBalance.add (JsNumber.finite (-a)) ∧
        s1.transactions = s.transactions ++ [t] ∧
        t.type = TxType.Withdrawal ∧ t.amount = JsNumber.finite (-a) ∧
        JsNumber.lt t.amount (JsNumber.finite 0) = true ∧
        s1.portfolio = s.portfolio ∧ s1.properties = s.properties ∧
        s1.proposals = s.proposals ∧ s1.portfolioHistory = s.portfolioHistory) := by
  constructor
  · refine ⟨{ s with
        cashBalance := s.cashBalance.add (JsNumber.finite a)
        transactions := s.transactions ++ [⟨.Deposit, JsNumber.finite a, .cashAdded, now⟩] },
      ⟨.Deposit, JsNumber.finite a, .cashAdded, now⟩, ?_, rfl, rfl, rfl, rfl, ?_,
      rfl, rfl, rfl, rfl⟩
    · unfold JsStore.handleAddCash
      rw [hparse]
    · show decide ((0 : ℚ) < a) = true
      exact decide_eq_true hpos
  · intro b hb hle
    have hnot : s.cashBalance.lt (parseFloat text) = false := by
      rw [hparse, hb]
      show decide (b < a) = false
      exact decide_eq_false (not_lt.mpr hle)
    refine ⟨{ s with
        cashBalance := s.cashBalance.add (JsNumber.finite (-a))
        transactions := s.transactions ++
          [⟨.Withdrawal, JsNumber.finite (-a), .cashWithdrawn, now⟩] },
      ⟨.Withdrawal, JsNumber.finite (-a), .cashWithdrawn, now⟩, ?_, rfl, rfl, rfl, rfl,
      ?_, rfl, rfl, rfl, rfl⟩
    · unfold JsStore.handleCashOut
      rw [hnot, hparse]
      rfl
    · show decide (-a < (0 : ℚ)) = true
      exact decide_eq_true (by linarith)

/-- A deposit and a withdrawal of 250 euro on the sign-up balance. -/
theorem deposit_withdraw_increment_witness :
    parseFloat (some 250) = JsNumber.finite 250 ∧ (0 : ℚ) < 250 ∧
    (JsStore.handleAddCash 7 signUpAccount (some 250)).1.cashBalance = JsNumber.finite 100250 ∧
    (JsStore.handleCashOut 7 signUpAccount (some 250)).1.cashBalance = JsNumber.finite 99750 ∧
    (JsStore.handleCashOut 7 signUpAccount (some 250)).1.transactions =
      [⟨TxType.Withdrawal, JsNumber.finite (-250), Description.cashWithdrawn, 7⟩] ∧
    ∃ s1 t, JsStore.handleAddCash 7 signUpAccount (some 250) = (s1, Outcome.completed) ∧
      s1.cashBalance = signUpAccount.cashBalance.add (JsNumber.finite 250) ∧
      s1.transactions = signUpAccount.transactions ++ [t] ∧
      t.type = TxType.Deposit ∧ t.amount = JsNumber.finite 250 := by
  refine ⟨by decide!, by decide!, by decide!, by decide!, by decide!, ?_⟩
  obtain ⟨s1, t, hrun, hcash, htx, htype, hamount, -⟩ :=
    (deposit_withdraw_increment 7 signUpAccount (some 250) 250 (by decide!) (by decide!)).1
  exact ⟨s1, t, hrun, hcash, htx, htype, hamount⟩

/-- C8 as stated fails: neither handler checks the amount.  On a balance of
100000 a deposit of `-50` completes, lowers the balance and adds a `Deposit`
record; a deposit of `0` completes and adds a `Deposit` record of 0; a
withdrawal of `-50` completes, raises the balance and adds a `Withdrawal`
record; and with an empty form field, where `parseFloat` gives `NaN`, both
handlers complete, leave `NaN` as the balance and add a record of `NaN`. -/
theorem invalid_amount_accepted :
    JsStore.handleAddCash 0 signUpAccount (some (-50)) =
      ({ signUpAccount with
          cashBalance := .finite 99950
          transactions := [⟨.Deposit, .finite (-50), .cashAdded, 0⟩] },
       Outcome.completed) ∧
    JsStore.handleAddCash 0 signUpAccount (some 0) =
      ({ signUpAccount with transactions := [⟨.Deposit, .finite 0, .cashAdded, 0⟩] },
       Outcome.completed) ∧
    JsStore.handleCashOut 0 signUpAccount (some (-50)) =
      ({ signUpAccount with
          cashBalance := .finite 100050
          transactions := [⟨.Withdrawal, .finite 50, .cashWithdrawn, 0⟩] },
       Outcome.completed) ∧
    JsStore.handleAddCash 0 signUpAccount none =
      ({ signUpAccount with
          cashBalance := .nan
          transactions := [⟨.Deposit, .nan, .cashAdded, 0⟩] },
       Outcome.completed) ∧
    JsStore.handleCashOut 0 signUpAccount none =
      ({ signUpAccount with
          cashBalance := .nan
          transactions := [⟨.Withdrawal, .nan, .cashWithdrawn, 0⟩] },
       Outcome.completed) := by
  decide!

/-- C8, amended: there is no invalid-amount error; whatever the form field
holds (a positive number, zero, a negative number or nothing that parses, which
is `NaN`), `handleAddCash` completes, hands the parsed amount to the increment
of the balance and adds one `Deposit` record of that amount, and
`handleCashOut` is refused exactly when the balance is below the parsed
amount; otherwise it completes, hands minus the amount to the increment and
adds one `Withdrawal` record of minus the amount.  For a number `a` and a
balance `b` the withdrawal goes through exactly when `a ≤ b`, so an amount
`a ≤ 0` is withdrawn from every balance `b ≥ 0`; for `NaN` the comparison is
false whatever the balance, both handlers complete and leave `NaN` as the
balance. -/
theorem invalid_amount_applied (now : Int) (s : JsStore) (text : Option ℚ) :
    JsStore.handleAddCash now s text =
      ({ s with
          cashBalance := s.cashBalance.add (parseFloat text)
          transactions := s.transactions ++ [⟨.Deposit, parseFloat text, .cashAdded, now⟩] },
       Outcome.completed) ∧
    (s.cashBalance.lt (parseFloat text) = true →
      JsStore.handleCashOut now s text = (s, Outcome.insufficientFunds)) ∧
    (s.cashBalance.lt (parseFloat text) = false →
      JsStore.handleCashOut now s text =
        ({ s with
            cashBalance := s.cashBalance.add (parseFloat text).neg
            transactions := s.transactions ++
              [⟨.Withdrawal, (parseFloat text).neg, .cashWithdrawn, now⟩] },
         Outcome.completed)) ∧
    (∀ a b, parseFloat text = JsNumber.finite a → s.cashBalance = JsNumber.finite b →
      (s.cashBalance.lt (parseFloat text) = false ↔ a ≤ b)) ∧
    (∀ a b, parseFloat text = JsNumber.finite a → a ≤ 0 → s.cashBalance = JsNumber.finite b →
      0 ≤ b → (JsStore.handleCashOut now s text).2 = Outcome.completed) ∧
    (parseFloat text = JsNumber.nan →
      s.cashBalance.lt (parseFloat text) = false ∧
      (JsStore.handleAddCash now s text).1.cashBalance = JsNumber.nan ∧
      (JsStore.handleCashOut now s text).1.cashBalance = JsNumber.nan ∧
      (JsStore.handleCashOut now s text).2 = Outcome.completed) := by
  have hnanlt : parseFloat text = JsNumber.nan → s.cashBalance.lt (parseFloat text) = false := by
    intro hnan
    rw [hnan]
    cases s.cashBalance <;> rfl
  have hout : s.cashBalance.lt (parseFloat text) = false →
      JsStore.handleCashOut now s text =
        ({ s with
            cashBalance := s.cashBalance.add (parseFloat text).neg
            transactions := s.transactions ++
              [⟨.Withdrawal, (parseFloat text).neg, .cashWithdrawn, now⟩] },
         Outcome.completed) := by
    intro hlt
    unfold JsStore.handleCashOut
    rw [hlt]
    rfl
  have hfin : ∀ a b, parseFloat text = JsNumber.finite a → s.cashBalance = JsNumber.finite b →
      (s.cashBalance.lt (parseFloat text) = false ↔ a ≤ b) := by
    intro a b ha hb
    rw [ha, hb]
    show decide (b < a) = false ↔ a ≤ b
    rw [decide_eq_false_iff_not, not_lt]
  refine ⟨rfl, ?_, hout, hfin, ?_, ?_⟩
  · intro hlt
    unfold JsStore.handleCashOut
    rw [hlt]
    rfl
  · intro a b ha hneg hb hnonneg
    rw [hout ((hfin a b ha hb).mpr (le_trans hneg hnonneg))]
  · intro hnan
    refine ⟨hnanlt hnan, ?_, ?_, ?_⟩
    · show s.cashBalance.add (parseFloat text) = JsNumber.nan
      rw [hnan]
      cases s.cashBalance <;> rfl
    · rw [hout (hnanlt hnan)]
      show s.cashBalance.add (parseFloat text).neg = JsNumber.nan
      rw [hnan]
      cases s.cashBalance <;> rfl
    · rw [hout (hnanlt hnan)]

/-- A withdrawal of `-50` against a balance of `-100`, and an empty field. -/
theorem invalid_amount_applied_witness :
    (∃ a, parseFloat (some (-50)) = JsNumber.finite a ∧ a ≤ 0) ∧
    (JsNumber.finite (-100)).lt (parseFloat (some (-50))) = true ∧
    JsStore.handleCashOut 3 { signUpAccount with cashBalance := .finite (-100) } (some (-50)) =
      ({ signUpAccount with cashBalance := .finite (-100) }, Outcome.insufficientFunds) ∧
    JsStore.handleCashOut 3 { signUpAccount with cashBalance := .finite (-20) } (some (-50)) =
      ({ signUpAccount with
          cashBalance := .finite 30
          transactions := [⟨.Withdrawal, .finite 50, .cashWithdrawn, 3⟩] },
       Outcome.completed) ∧
    (JsStore.handleCashOut 3 signUpAccount none).1.cashBalance = JsNumber.nan :=
  ⟨⟨-50, by decide!, by decide!⟩, by decide!,
    (invalid_amount_applied 3 { signUpAccount with cashBalance := .finite (-100) }
      (some (-50))).2.1 (by decide!),
    by decide!,
    ((invalid_amount_applied 3 signUpAccount none).2.2.2.2.2 (by decide!)).2.2.1⟩

/-! ## Run equations at double precision -/

theorem jsHandleBuy_refused (now : Int) (s : JsStore) (property : JsProperty) (amount : Int)
    (hfunds : s.cashBalance.lt (.finite (times amount property.tokenPrice)) = true) :
    JsStore.handleBuy now s property amount = (s, Outcome.insufficientFunds) := by
  unfold JsStore.handleBuy
  simp only [hfunds, if_true]

theorem jsHandleBuy_topUp (now : Int) (s : JsStore) (property : JsProperty) (amount : Int)
    (hfunds : s.cashBalance.lt (.finite (times amount property.tokenPrice)) = false)
    (hcat : s.properties.any (fun p => p.id == property.id) = true)
    (hheld : s.portfolio.any (fun h => h.id == property.id) = true) :
    JsStore.handleBuy now s property amount =
      ({ s with
          cashBalance := s.cashBalance.add (.finite (-times amount property.tokenPrice))
          properties := s.properties.map fun p =>
            if p.id == property.id then
              { p with tokensAvailable := p.tokensAvailable + -amount } else p
          portfolio := s.portfolio.map fun h =>
            if h.id == property.id then { h with quantity := h.quantity + amount } else h
          transactions := s.transactions ++
            [⟨.Purchase, .finite (-times amount property.tokenPrice),
              .tokensOf amount property.name, now⟩] },
       Outcome.completed) := by
  unfold JsStore.handleBuy
  simp only [hfunds, JsStore.commit, JsWrite.apply, hcat, hheld, if_true, Bool.false_eq_true,
    if_false]

theorem jsHandleBuy_create (now : Int) (s : JsStore) (property : JsProperty) (amount : Int)
    (hfunds : s.cashBalance.lt (.finite (times amount property.tokenPrice)) = false)
    (hcat : s.properties.any (fun p => p.id == property.id) = true)
    (hheld : s.portfolio.any (fun h => h.id == property.id) = false) :
    JsStore.handleBuy now s property amount =
      ({ s with
          cashBalance := s.cashBalance.add (.finite (-times amount property.tokenPrice))
          properties := s.properties.map fun p =>
            if p.id == property.id then
              { p with tokensAvailable := p.tokensAvailable + -amount } else p
          portfolio := s.portfolio ++ [⟨property.id, property.name, amount, some 0⟩]
          transactions := s.transactions ++
            [⟨.Purchase, .finite (-times amount property.tokenPrice),
              .tokensOf amount property.name, now⟩] },
       Outcome.completed) := by
  unfold JsStore.handleBuy
  simp only [hfunds, JsStore.commit, JsWrite.apply, hcat, hheld, if_true, Bool.false_eq_true,
    if_false]

theorem jsHandleBuy_unknown (now : Int) (s : JsStore) (property : JsProperty) (amount : Int)
    (hfunds : s.cashBalance.lt (.finite (times amount property.tokenPrice)) = false)
    (hcat : s.properties.any (fun p => p.id == property.id) = false) :
    JsStore.handleBuy now s property amount =
      ({ s with
          transactions := s.transactions ++
            [⟨.Purchase, .finite (-times amount property.tokenPrice),
              .tokensOf amount property.name, now⟩] },
       Outcome.commitRejected) := by
  unfold JsStore.handleBuy
  simp only [hfunds, JsStore.commit, JsWrite.apply, hcat, Bool.false_eq_true, if_false]

theorem jsHandleSell_found (now : Int) (s : JsStore) (holding : Holding) (property : JsProperty)
    (hcat : s.properties.find? (fun p => p.id == holding.id) = some property) :
    JsStore.handleSell now s holding =
      ({ s with
          cashBalance := s.cashBalance.add (.finite (times holding.quantity property.tokenPrice))
          properties := s.properties.map fun p =>
            if p.id == holding.id then
              { p with tokensAvailable := p.tokensAvailable + holding.quantity } else p
          portfolio := s.portfolio.filter fun h => !(h.id == holding.id)
          transactions := s.transactions ++
            [⟨.Sale, .finite (times holding.quantity property.tokenPrice),
              .tokensOf holding.quantity property.name, now⟩] },
       Outcome.completed) := by
  have hany : s.properties.any (fun p => p.id == holding.id) = true := by
    rw [any_eq_isSome_find?, hcat]; rfl
  unfold JsStore.handleSell
  simp only [hcat, JsStore.commit, JsWrite.apply, hany, if_true]

theorem jsHandleSell_unknown (now : Int) (s : JsStore) (holding : Holding)
    (hcat : s.properties.find? (fun p => p.id == holding.id) = none) :
    JsStore.handleSell now s holding = (s, Outcome.typeError) := by
  unfold JsStore.handleSell
  simp only [hcat]

theorem jsHandleBuy_WF (now : Int) (s : JsStore) (property : JsProperty) (amount : Int)
    (hwf : s.WF) : (JsStore.handleBuy now s property amount).1.WF := by
  cases hfunds : s.cashBalance.lt (.finite (times amount property.tokenPrice))
  swap
  · rw [jsHandleBuy_refused now s property amount hfunds]
    exact hwf
  · cases hcat : s.properties.any (fun p => p.id == property.id)
    · rw [jsHandleBuy_unknown now s property amount hfunds hcat]
      exact hwf
    · cases hheld : s.portfolio.any (fun h => h.id == property.id)
      · rw [jsHandleBuy_create now s property amount hfunds hcat hheld]
        refine ⟨?_, ?_⟩
        · show ((s.properties.map fun p =>
              if p.id == property.id then
                { p with tokensAvailable := p.tokensAvailable + -amount } else p).map
              (fun p => p.id)).Nodup
          rw [map_key_update JsProperty.id
            (fun p => { p with tokensAvailable := p.tokensAvailable + -amount })
            (fun _ => rfl)]
          exact hwf.1
        · show ((s.portfolio ++ [(⟨property.id, property.name, amount, some 0⟩ : Holding)]).map
            (fun h => h.id)).Nodup
          rw [List.map_append, List.nodup_append]
          refine ⟨hwf.2, by simp, ?_⟩
          intro a ha hb
          simp only [List.map_cons, List.map_nil, List.mem_singleton] at hb
          obtain ⟨h, hh, rfl⟩ := List.mem_map.mp ha
          have : s.portfolio.any (fun h => h.id == property.id) = true :=
            List.any_eq_true.mpr ⟨h, hh, by simpa using hb⟩
          rw [hheld] at this
          cases this
      · rw [jsHandleBuy_topUp now s property amount hfunds hcat hheld]
        refine ⟨?_, ?_⟩
        · show ((s.properties.map fun p =>
              if p.id == property.id then
                { p with tokensAvailable := p.tokensAvailable + -amount } else p).map
              (fun p => p.id)).Nodup
          rw [map_key_update JsProperty.id
            (fun p => { p with tokensAvailable := p.tokensAvailable + -amount })
            (fun _ => rfl)]
          exact hwf.1
        · show ((s.portfolio.map fun h =>
              if h.id == property.id then { h with quantity := h.quantity + amount }
              else h).map (fun h => h.id)).Nodup
          rw [map_key_update Holding.id (fun h => { h with quantity := h.quantity + amount })
            (fun _ => rfl)]
          exact hwf.2

theorem jsHandleSell_WF (now : Int) (s : JsStore) (holding : Holding) (hwf : s.WF) :
    (JsStore.handleSell now s holding).1.WF := by
  cases hcat : s.properties.find? (fun p => p.id == holding.id) with
  | none =>
    rw [jsHandleSell_unknown now s holding hcat]
    exact hwf
  | some property =>
    rw [jsHandleSell_found now s holding property hcat]
    refine ⟨?_, ?_⟩
    · show ((s.properties.map fun p =>
          if p.id == holding.id then
            { p with tokensAvailable := p.tokensAvailable + holding.quantity } else p).map
          (fun p => p.id)).Nodup
      rw [map_key_update JsProperty.id
        (fun p => { p with tokensAvailable := p.tokensAvailable + holding.quantity })
        (fun _ => rfl)]
      exact hwf.1
    · show ((s.portfolio.filter fun h => !(h.id == holding.id)).map (fun h => h.id)).Nodup
      exact (List.filter_sublist _).map _ |>.nodup hwf.2

/-! ## One payout pass -/

theorem jsCommit_payoutBatch (clock : Clock) (properties : List JsProperty) (l : List Holding)
    (a : JsStore) (hsub : ∀ h ∈ l, a.portfolio.any (fun x => x.id == h.id) = true) :
    JsStore.commit a (JsStore.payoutBatch clock properties l) =
      some { a with
        cashBalance := (l.filterMap (JsStore.rentalPayout clock.device properties)).foldl
          (fun balance rent => balance.add (.finite rent)) a.cashBalance
        portfolio := a.portfolio.map fun x =>
          if l.any (fun h =>
              h.id == x.id && (JsStore.rentalPayout clock.device properties h).isSome) then
            { x with lastPayoutDate := some clock.server }
          else x } := by
  induction l generalizing a with
  | nil =>
    simp [JsStore.payoutBatch, JsStore.commit]
  | cons h l ih =>
    have hl : ∀ h1 ∈ l, a.portfolio.any (fun x => x.id == h1.id) = true :=
      fun h1 hh => hsub h1 (List.mem_cons_of_mem _ hh)
    unfold JsStore.payoutBatch
    cases hr : JsStore.rentalPayout clock.device properties h with
    | none =>
      simp only [ih a hl, List.filterMap_cons, hr, List.any_cons, Option.isSome_none,
        Bool.and_false, Bool.false_or]
    | some r =>
      have hh := hsub h (List.mem_cons_self _ _)
      simp only [JsStore.commit, JsWrite.apply, hh, if_true]
      rw [ih]
      · simp only [List.filterMap_cons, hr, List.foldl_cons, List.any_cons, Option.isSome_some,
          Bool.and_true, List.map_map, Option.some.injEq]
        congr 1
        apply List.map_congr_left
        intro x _
        simp only [Function.comp]
        cases hk : x.id == h.id
        · have hk2 : (h.id == x.id) = false := by
            rw [beq_eq_false_iff_ne] at hk ⊢
            exact fun e => hk e.symm
          simp [hk2]
        · have hk2 : (h.id == x.id) = true := by
            rw [beq_iff_eq] at hk ⊢
            exact hk.symm
          simp [hk2]
      · intro h1 hh1
        show (a.portfolio.map fun x =>
            if x.id == h.id then { x with lastPayoutDate := some clock.server } else x).any
            (fun x => x.id == h1.id) = true
        rw [any_key_map_update Holding.id
          (fun x => { x with lastPayoutDate := some clock.server }) (fun _ => rfl)]
        exact hl h1 hh1

theorem jsCheckForRentalPayouts_eq (clock : Clock) (s : JsStore) :
    JsStore.checkForRentalPayouts clock s =
      ({ s with
          cashBalance :=
            (s.portfolio.filterMap (JsStore.rentalPayout clock.device s.properties)).foldl
              (fun balance rent => balance.add (.finite rent)) s.cashBalance
          portfolio := s.portfolio.map fun x =>
            if s.portfolio.any (fun h =>
                h.id == x.id && (JsStore.rentalPayout clock.device s.properties h).isSome) then
              { x with lastPayoutDate := some clock.server }
            else x
          transactions := s.transactions ++
            JsStore.payoutRecords clock s.properties s.portfolio },
       Outcome.completed) := by
  unfold JsStore.checkForRentalPayouts
  split
  · next hlen =>
    have hnil : s.portfolio = [] := List.length_eq_zero.mp hlen
    cases s
    simp only at hnil
    subst hnil
    simp [JsStore.payoutRecords]
  · dsimp only
    rw [jsCommit_payoutBatch]
    intro h hh
    exact List.any_eq_true.mpr ⟨h, hh, by simp⟩

theorem jsAny_paid_of_mem (dateNow : Int) (properties : List JsProperty) (holding : Holding)
    (l : List Holding) (hnd : (l.map fun h => h.id).Nodup) (hmem : holding ∈ l) :
    l.any (fun h => h.id == holding.id && (JsStore.rentalPayout dateNow properties h).isSome) =
      (JsStore.rentalPayout dateNow properties holding).isSome := by
  cases hp : (JsStore.rentalPayout dateNow properties holding).isSome
  · rw [List.any_eq_false]
    intro h hh
    cases hk : h.id == holding.id
    · simp
    · have heq : h = holding :=
        List.inj_on_of_nodup_map hnd hh hmem (by simpa using hk)
      subst heq
      simp [hp]
  · exact List.any_eq_true.mpr ⟨holding, hmem, by simp [hp]⟩

theorem jsRentalPayout_eq (dateNow : Int) (properties : List JsProperty) (holding : Holding) :
    JsStore.rentalPayout dateNow properties holding =
      if JsStore.isDue dateNow properties holding then
        some (JsStore.rentOf properties holding) else none := by
  unfold JsStore.rentalPayout JsStore.isDue JsStore.rentOf
  dsimp only
  by_cases hlt : holding.lastPayoutDate.getD 0 < dateNow - thirtyDays
  · have hdue : thirtyDays < dateNow - holding.lastPayoutDate.getD 0 := by omega
    cases properties.find? (fun p => p.id == holding.id) <;> simp [hlt, hdue]
  · have hdue : ¬ thirtyDays < dateNow - holding.lastPayoutDate.getD 0 := by omega
    simp [hlt, hdue]

theorem jsRentalPayout_isSome (dateNow : Int) (properties : List JsProperty)
    (holding : Holding) :
    (JsStore.rentalPayout dateNow properties holding).isSome =
      JsStore.isDue dateNow properties holding := by
  rw [jsRentalPayout_eq]
  cases JsStore.isDue dateNow properties holding <;> rfl

theorem jsPayoutRecord_isSome (time dateNow : Int) (properties : List JsProperty)
    (holding : Holding) (h : JsStore.isDue dateNow properties holding = true) :
    (JsStore.payoutRecord time properties holding).isSome = true := by
  unfold JsStore.isDue at h
  unfold JsStore.payoutRecord
  cases hf : properties.find? (fun p => p.id == holding.id) with
  | none => rw [hf] at h; simp at h
  | some p => rfl

theorem foldl_filterMap_rentalPayout (dateNow : Int) (properties : List JsProperty)
    (l : List Holding) (balance : JsNumber) :
    (l.filterMap (JsStore.rentalPayout dateNow properties)).foldl
        (fun b rent => b.add (.finite rent)) balance =
      (l.filter (JsStore.isDue dateNow properties)).foldl
        (fun b h => b.add (.finite (JsStore.rentOf properties h))) balance := by
  induction l generalizing balance with
  | nil => rfl
  | cons h l ih =>
    rw [List.filterMap_cons, List.filter_cons, jsRentalPayout_eq dateNow properties h]
    cases he : JsStore.isDue dateNow properties h
    · simp only [Bool.false_eq_true, if_false]
      exact ih balance
    · simp only [if_true, List.foldl_cons]
      exact ih _

theorem jsPayoutRecords_eq (clock : Clock) (properties : List JsProperty) (l : List Holding) :
    JsStore.payoutRecords clock properties l =
      (l.filter (JsStore.isDue clock.device properties)).filterMap
        (JsStore.payoutRecord clock.server properties) := by
  induction l with
  | nil => rfl
  | cons h l ih =>
    unfold JsStore.payoutRecords
    rw [jsRentalPayout_eq, List.filter_cons]
    cases he : JsStore.isDue clock.device properties h
    · simp only [Bool.false_eq_true, if_false]
      cases properties.find? (fun p => p.id == h.id) <;> exact ih
    · have hfound : (properties.find? (fun p => p.id == h.id)).isSome = true := by
        unfold JsStore.isDue at he
        simp only [Bool.and_eq_true] at he
        exact he.2
      cases hf : properties.find? (fun p => p.id == h.id) with
      | none => rw [hf] at hfound; cases hfound
      | some p =>
        simp only [if_true, List.filterMap_cons, JsStore.payoutRecord, hf, JsStore.rentOf, ih]

theorem jsLength_payoutRecord (time dateNow : Int) (properties : List JsProperty)
    (l : List Holding) (hall : ∀ h ∈ l, JsStore.isDue dateNow properties h = true) :
    (l.filterMap (JsStore.payoutRecord time properties)).length = l.length := by
  induction l with
  | nil => rfl
  | cons h l ih =>
    have hh := jsPayoutRecord_isSome time dateNow properties h (hall h (List.mem_cons_self _ _))
    cases hr : JsStore.payoutRecord time properties h with
    | none => rw [hr] at hh; cases hh
    | some t =>
      simp only [List.filterMap_cons, hr, List.length_cons]
      rw [ih (fun x hx => hall x (List.mem_cons_of_mem _ hx))]

theorem jsPayoutPass_eq (clock : Clock) (s : JsStore) (hwf : s.WF) :
    JsStore.checkForRentalPayouts clock s =
      ({ s with
          cashBalance := (s.portfolio.filter (JsStore.isDue clock.device s.properties)).foldl
            (fun balance h => balance.add (.finite (JsStore.rentOf s.properties h)))
            s.cashBalance
          portfolio := s.portfolio.map fun h =>
            if JsStore.isDue clock.device s.properties h then
              { h with lastPayoutDate := some clock.server } else h
          transactions := s.transactions ++
            (s.portfolio.filter (JsStore.isDue clock.device s.properties)).filterMap
              (JsStore.payoutRecord clock.server s.properties) },
       Outcome.completed) := by
  rw [jsCheckForRentalPayouts_eq, foldl_filterMap_rentalPayout, jsPayoutRecords_eq]
  congr 2
  apply List.map_congr_left
  intro x hx
  rw [jsAny_paid_of_mem clock.device s.properties x s.portfolio hwf.2 hx, jsRentalPayout_isSome]

theorem jsMap_stamp_of_none_due (dateNow stamp : Int) (properties : List JsProperty)
    (l : List Holding) (hnone : l.filter (JsStore.isDue dateNow properties) = []) :
    (l.map fun h =>
      if JsStore.isDue dateNow properties h then
        { h with lastPayoutDate := some stamp } else h) = l := by
  rw [List.filter_eq_nil_iff] at hnone
  have : ∀ h ∈ l, (fun h : Holding =>
      if JsStore.isDue dateNow properties h then
        { h with lastPayoutDate := some stamp } else h) h = id h := by
    intro h hh
    have hf : JsStore.isDue dateNow properties h = false := by
      cases he : JsStore.isDue dateNow properties h
      · rfl
      · exact absurd he (hnone h hh)
    simp only [hf, Bool.false_eq_true, if_false, id]
  rw [List.map_congr_left this, List.map_id]

/-- C11 as stated fails twice over.  At exactly thirty days a holding that is
eligible in the claim's sense (thirty days have passed since its last payout;
its rent is 3.70) is not paid: the pass leaves the store as it was.  And a
pass that pays two holdings, of rents 0.37 and 0.68 on a balance of 100000,
makes two increments, each rounded to a double, and leaves
100001.04999999999: the balance has not grown by the sum of the rents, be the
sum and the difference taken exactly or as doubles. -/
theorem payout_pass_not_the_sum :
    thirtyDays - (0 : Int) ≥ thirtyDays ∧
    JsStore.rentOf jsRentedStore.properties
      ⟨"amsterdam-canal-house", "Amsterdam Canal House", 10, some 0⟩ =
      4165829655317709 / 1125899906842624 ∧
    JsStore.checkForRentalPayouts ⟨thirtyDays, thirtyDays⟩ jsRentedStore =
      (jsRentedStore, Outcome.completed) ∧
    JsStore.checkForRentalPayouts ⟨thirtyDays + 1, thirtyDays + 1⟩ jsThreeHoldings =
      ({ jsThreeHoldings with
          cashBalance := .finite (1718004957262643 / 17179869184)
          portfolio :=
            [ ⟨"amsterdam-canal-house", "Amsterdam Canal House", 1, some (thirtyDays + 1)⟩,
              ⟨"the-hague-residence", "The Hague Royal Residence", 1, some (thirtyDays + 1)⟩,
              ⟨"utrecht-historic-loft", "Utrecht Historic Loft", 2,
                some (thirtyDays - oneDay)⟩ ]
          transactions :=
            [ ⟨.RentalIncome, .finite (3332663724254167 / 9007199254740992),
                .tokensOf 1 "Amsterdam Canal House", thirtyDays + 1⟩,
              ⟨.RentalIncome, .finite (6124895493223875 / 9007199254740992),
                .tokensOf 1 "The Hague Royal Residence", thirtyDays + 1⟩ ] },
       Outcome.completed) ∧
    (1718004957262643 / 17179869184 : ℚ) - 100000 ≠
      3332663724254167 / 9007199254740992 + 6124895493223875 / 9007199254740992 ∧
    (1718004957262643 / 17179869184 : ℚ) - 100000 ≠
      round64 (3332663724254167 / 9007199254740992 + 6124895493223875 / 9007199254740992) ∧
    JsNumber.finite (1718004957262643 / 17179869184) ≠
      (JsNumber.finite 100000).add
        ((JsNumber.finite (3332663724254167 / 9007199254740992)).add
          (.finite (6124895493223875 / 9007199254740992))) := by
  decide!

/-- C11, amended: on a store with unique document ids one pass of
`checkForRentalPayouts` completes and pays the holdings that are due: those
whose last payout (the epoch if missing) lies more than thirty days before the
device's `Date.now()`, so not at exactly thirty days, and whose property is in
the catalog.  The balance after the pass is the balance before it with one
increment per due holding applied in portfolio order, each by the double
`quantity * monthlyRentPerToken` and each rounded to a double; the pass sets
the `lastPayoutDate` of each due holding to the server time and leaves every
other holding as it was; it leaves the id and quantity of every holding, the
catalog, the proposals and the snapshots as they were; and it adds exactly
one `Rental Income` record per due holding, carrying that holding's rent and
the server time.  When no holding is due the store is unchanged. -/
theorem checkForRentalPayouts_increments (clock : Clock) (s : JsStore) (hwf : s.WF) :
    ∃ s1, JsStore.checkForRentalPayouts clock s = (s1, Outcome.completed) ∧
      s1.cashBalance = (s.portfolio.filter (JsStore.isDue clock.device s.properties)).foldl
        (fun balance h => balance.add (.finite (JsStore.rentOf s.properties h)))
        s.cashBalance ∧
      (∀ h, JsStore.isDue clock.device s.properties h = true ↔
        thirtyDays < clock.device - h.lastPayoutDate.getD 0 ∧
          ∃ property, s.properties.find? (fun p => p.id == h.id) = some property) ∧
      (∀ h property, s.properties.find? (fun p => p.id == h.id) = some property →
        JsStore.rentOf s.properties h = round64 (h.quantity * property.monthlyRentPerToken) ∧
        JsStore.payoutRecord clock.server s.properties h =
          some ⟨TxType.RentalIncome,
            JsNumber.finite (round64 (h.quantity * property.monthlyRentPerToken)),
            Description.tokensOf h.quantity property.name, clock.server⟩) ∧
      s1.portfolio = (s.portfolio.map fun h =>
        if JsStore.isDue clock.device s.properties h then
          { h with lastPayoutDate := some clock.server } else h) ∧
      (∀ h ∈ s.portfolio, JsStore.isDue clock.device s.properties h = true →
        s1.portfolio.find? (fun x => x.id == h.id) =
          some { h with lastPayoutDate := some clock.server }) ∧
      (∀ h ∈ s.portfolio, JsStore.isDue clock.device s.properties h = false →
        s1.portfolio.find? (fun x => x.id == h.id) = some h) ∧
      (s1.portfolio.map fun h => (h.id, h.quantity)) =
        (s.portfolio.map fun h => (h.id, h.quantity)) ∧
      s1.transactions = s.transactions ++
        (s.portfolio.filter (JsStore.isDue clock.device s.properties)).filterMap
          (JsStore.payoutRecord clock.server s.properties) ∧
      ((s.portfolio.filter (JsStore.isDue clock.device s.properties)).filterMap
          (JsStore.payoutRecord clock.server s.properties)).length =
        (s.portfolio.filter (JsStore.isDue clock.device s.properties)).length ∧
      s1.properties = s.properties ∧ s1.proposals = s.proposals ∧
      s1.portfolioHistory = s.portfolioHistory ∧
      (s.portfolio.filter (JsStore.isDue clock.device s.properties) = [] → s1 = s) := by
  have hkey : ∀ x : Holding, Holding.id
      (if JsStore.isDue clock.device s.properties x then
        { x with lastPayoutDate := some clock.server } else x) = x.id := by
    intro x
    split <;> rfl
  refine ⟨_, jsPayoutPass_eq clock s hwf, rfl, ?_, ?_, rfl, ?_, ?_, ?_, rfl, ?_, rfl, rfl, rfl,
    ?_⟩
  · intro h
    unfold JsStore.isDue
    rw [Bool.and_eq_true, decide_eq_true_eq, Option.isSome_iff_exists]
  · intro h property hfound
    unfold JsStore.rentOf JsStore.payoutRecord
    rw [hfound]
    exact ⟨rfl, rfl⟩
  · intro h hh he
    dsimp only
    rw [find?_map_key Holding.id _ hkey h.id s.portfolio,
      find?_of_mem_nodup Holding.id h s.portfolio hwf.2 hh, Option.map_some', he]
    rfl
  · intro h hh he
    dsimp only
    rw [find?_map_key Holding.id _ hkey h.id s.portfolio,
      find?_of_mem_nodup Holding.id h s.portfolio hwf.2 hh, Option.map_some', he]
    rfl
  · dsimp only
    rw [List.map_map]
    apply List.map_congr_left
    intro x _
    show ((if JsStore.isDue clock.device s.properties x then
        { x with lastPayoutDate := some clock.server } else x).id,
      (if JsStore.isDue clock.device s.properties x then
        { x with lastPayoutDate := some clock.server } else x).quantity) = (x.id, x.quantity)
    split <;> rfl
  · exact jsLength_payoutRecord clock.server clock.device s.properties _
      (fun h hh => (List.mem_filter.mp hh).2)
  · intro hnone
    rw [hnone, jsMap_stamp_of_none_due clock.device clock.server s.properties s.portfolio hnone]
    simp

/-- Scenario C with the server clock two seconds behind the device: ten tokens
at 0.37 last paid at the epoch are paid the double 3.7 at 31 days. -/
theorem checkForRentalPayouts_increments_witness :
    jsRentedStore.WF ∧
    JsStore.checkForRentalPayouts ⟨thirtyDays + oneDay, thirtyDays + oneDay - 2000⟩
        jsRentedStore =
      ({ jsRentedStore with
          cashBalance := .finite (4165829655317709 / 1125899906842624)
          portfolio :=
            [⟨"amsterdam-canal-house", "Amsterdam Canal House", 10,
              some (thirtyDays + oneDay - 2000)⟩]
          transactions :=
            [⟨.RentalIncome, .finite (4165829655317709 / 1125899906842624),
              .tokensOf 10 "Amsterdam Canal House", thirtyDays + oneDay - 2000⟩] },
       Outcome.completed) ∧
    ∃ s1, JsStore.checkForRentalPayouts ⟨thirtyDays + oneDay, thirtyDays + oneDay - 2000⟩
        jsRentedStore = (s1, Outcome.completed) ∧
      s1.cashBalance =
        (jsRentedStore.portfolio.filter
          (JsStore.isDue (thirtyDays + oneDay) jsRentedStore.properties)).foldl
          (fun balance h => balance.add (.finite (JsStore.rentOf jsRentedStore.properties h)))
          jsRentedStore.cashBalance := by
  refine ⟨by decide, by decide!, ?_⟩
  obtain ⟨s1, hrun, hcash, -⟩ :=
    checkForRentalPayouts_increments ⟨thirtyDays + oneDay, thirtyDays + oneDay - 2000⟩
      jsRentedStore (by decide)
  exact ⟨s1, hrun, hcash⟩

/-! ## Two payout passes -/

theorem jsIsDue_stamped (stamp dateNow : Int) (properties : List JsProperty) (h : Holding)
    (hclose : dateNow - stamp ≤ thirtyDays) :
    JsStore.isDue dateNow properties { h with lastPayoutDate := some stamp } = false := by
  unfold JsStore.isDue
  have : ¬ thirtyDays < dateNow - stamp := by omega
  simp [this]

theorem jsFilter_isDue_stamped (c1 c2 : Clock) (properties : List JsProperty)
    (l : List Holding) (hclose : c2.device - c1.server ≤ thirtyDays) :
    (l.map fun h =>
        if JsStore.isDue c1.device properties h then
          { h with lastPayoutDate := some c1.server } else h).filter
      (JsStore.isDue c2.device properties) =
    l.filter (fun h =>
      !JsStore.isDue c1.device properties h && JsStore.isDue c2.device properties h) := by
  induction l with
  | nil => rfl
  | cons h l ih =>
    rw [List.map_cons, List.filter_cons, List.filter_cons, ih]
    cases he1 : JsStore.isDue c1.device properties h
    · simp only [Bool.false_eq_true, if_false, Bool.not_false, Bool.true_and]
    · simp only [if_true, jsIsDue_stamped c1.server c2.device properties h hclose,
        Bool.false_eq_true, if_false, Bool.not_true, Bool.false_and]

theorem jsMap_stamp_twice (c1 c2 : Clock) (properties : List JsProperty) (l : List Holding)
    (hclose : c2.device - c1.server ≤ thirtyDays) :
    ((l.map fun h =>
        if JsStore.isDue c1.device properties h then
          { h with lastPayoutDate := some c1.server } else h).map
      fun h =>
        if JsStore.isDue c2.device properties h then
          { h with lastPayoutDate := some c2.server } else h) =
    l.map fun h =>
      if JsStore.isDue c1.device properties h then { h with lastPayoutDate := some c1.server }
      else if JsStore.isDue c2.device properties h then
        { h with lastPayoutDate := some c2.server }
      else h := by
  rw [List.map_map]
  apply List.map_congr_left
  intro h _
  simp only [Function.comp]
  cases he1 : JsStore.isDue c1.device properties h
  · simp only [Bool.false_eq_true, if_false]
  · simp only [if_true, jsIsDue_stamped c1.server c2.device properties h hclose,
      Bool.false_eq_true, if_false]

theorem jsPayoutPass_WF (clock : Clock) (s : JsStore) (hwf : s.WF) :
    (JsStore.checkForRentalPayouts clock s).1.WF := by
  rw [jsPayoutPass_eq clock s hwf]
  refine ⟨hwf.1, ?_⟩
  show ((s.portfolio.map fun h =>
      if JsStore.isDue clock.device s.properties h then
        { h with lastPayoutDate := some clock.server } else h).map
      (fun h => h.id)).Nodup
  rw [List.map_map]
  have : ∀ h ∈ s.portfolio, ((fun h : Holding => h.id) ∘ fun h : Holding =>
      if JsStore.isDue clock.device s.properties h then
        { h with lastPayoutDate := some clock.server } else h) h =
      (fun h : Holding => h.id) h := by
    intro h _
    simp only [Function.comp]
    split <;> rfl
  rw [List.map_congr_left this]
  exact hwf.2

theorem jsSecondPass_eq (c1 c2 : Clock) (s : JsStore) (hwf : s.WF)
    (hclose : c2.device - c1.server ≤ thirtyDays) :
    JsStore.checkForRentalPayouts c2 (JsStore.checkForRentalPayouts c1 s).1 =
      ({ (JsStore.checkForRentalPayouts c1 s).1 with
          cashBalance :=
            (s.portfolio.filter fun h =>
              !JsStore.isDue c1.device s.properties h &&
                JsStore.isDue c2.device s.properties h).foldl
              (fun balance h => balance.add (.finite (JsStore.rentOf s.properties h)))
              (JsStore.checkForRentalPayouts c1 s).1.cashBalance
          portfolio := s.portfolio.map fun h =>
            if JsStore.isDue c1.device s.properties h then
              { h with lastPayoutDate := some c1.server }
            else if JsStore.isDue c2.device s.properties h then
              { h with lastPayoutDate := some c2.server }
            else h
          transactions := (JsStore.checkForRentalPayouts c1 s).1.transactions ++
            (s.portfolio.filter fun h =>
              !JsStore.isDue c1.device s.properties h &&
                JsStore.isDue c2.device s.properties h).filterMap
              (JsStore.payoutRecord c2.server s.properties) },
       Outcome.completed) := by
  rw [jsPayoutPass_eq c2 _ (jsPayoutPass_WF c1 s hwf)]
  rw [jsPayoutPass_eq c1 s hwf]
  dsimp only
  rw [jsFilter_isDue_stamped c1 c2 s.properties s.portfolio hclose,
    jsMap_stamp_twice c1 c2 s.properties s.portfolio hclose]

theorem jsSecondPass_noop (c1 c2 : Clock) (s : JsStore) (hwf : s.WF)
    (hclose : c2.device - c1.server ≤ thirtyDays)
    (hlate : (s.portfolio.filter fun h =>
      !JsStore.isDue c1.device s.properties h && JsStore.isDue c2.device s.properties h) = []) :
    JsStore.checkForRentalPayouts c2 (JsStore.checkForRentalPayouts c1 s).1 =
      ((JsStore.checkForRentalPayouts c1 s).1, Outcome.completed) := by
  have hmap : (s.portfolio.map fun h =>
      if JsStore.isDue c1.device s.properties h then { h with lastPayoutDate := some c1.server }
      else if JsStore.isDue c2.device s.properties h then
        { h with lastPayoutDate := some c2.server }
      else h) = (JsStore.checkForRentalPayouts c1 s).1.portfolio := by
    rw [jsPayoutPass_eq c1 s hwf]
    dsimp only
    apply List.map_congr_left
    intro h hh
    have hno := List.filter_eq_nil_iff.mp hlate h hh
    cases he1 : JsStore.isDue c1.device s.properties h <;>
      cases he2 : JsStore.isDue c2.device s.properties h <;> simp_all
  rw [jsSecondPass_eq c1 c2 s hwf hclose, hlate, hmap]
  generalize (JsStore.checkForRentalPayouts c1 s).1 = x
  cases x
  simp

theorem jsIsDue_mono (d1 d2 : Int) (properties : List JsProperty) (h : Holding)
    (hle : d2 ≤ d1) (hdue : JsStore.isDue d2 properties h = true) :
    JsStore.isDue d1 properties h = true := by
  unfold JsStore.isDue at hdue ⊢
  simp only [Bool.and_eq_true, decide_eq_true_eq] at hdue ⊢
  exact ⟨by omega, hdue.2⟩

/-- C12 as stated fails, in two ways.  A holding that is not yet due at the
first pass can be due at the second: with the last payout at the epoch and
both clocks agreeing, a pass after 29 days pays nothing and a pass two days
later pays the rent of 3.70.  And a holding paid by the first pass is paid
again by the second when the device clock runs ahead of the server: with the
device 31 days ahead, the first pass pays 3.70 and stamps the server time, and
a pass one minute later finds that stamp more than thirty days behind
`Date.now()` and pays 3.70 again. -/
theorem second_pass_pays :
    thirtyDays - oneDay ≤ thirtyDays + oneDay ∧
    (thirtyDays + oneDay) - (thirtyDays - oneDay) < thirtyDays ∧
    JsStore.checkForRentalPayouts ⟨thirtyDays - oneDay, thirtyDays - oneDay⟩ jsRentedStore =
      (jsRentedStore, Outcome.completed) ∧
    JsStore.checkForRentalPayouts ⟨thirtyDays + oneDay, thirtyDays + oneDay⟩
        (JsStore.checkForRentalPayouts ⟨thirtyDays - oneDay, thirtyDays - oneDay⟩
          jsRentedStore).1 =
      ({ jsRentedStore with
          cashBalance := .finite (4165829655317709 / 1125899906842624)
          portfolio :=
            [⟨"amsterdam-canal-house", "Amsterdam Canal House", 10,
              some (thirtyDays + oneDay)⟩]
          transactions :=
            [⟨.RentalIncome, .finite (4165829655317709 / 1125899906842624),
              .tokensOf 10 "Amsterdam Canal House", thirtyDays + oneDay⟩] },
       Outcome.completed) ∧
    (1000 + 60000 : Int) - 1000 < thirtyDays ∧
    JsStore.checkForRentalPayouts ⟨thirtyDays + oneDay + 1000 + 60000, 1000 + 60000⟩
        (JsStore.checkForRentalPayouts ⟨thirtyDays + oneDay + 1000, 1000⟩ jsRentedStore).1 =
      ({ jsRentedStore with
          cashBalance := .finite (4165829655317709 / 562949953421312)
          portfolio :=
            [⟨"amsterdam-canal-house", "Amsterdam Canal House", 10, some (1000 + 60000)⟩]
          transactions :=
            [ ⟨.RentalIncome, .finite (4165829655317709 / 1125899906842624),
                .tokensOf 10 "Amsterdam Canal House", 1000⟩,
              ⟨.RentalIncome, .finite (4165829655317709 / 1125899906842624),
                .tokensOf 10 "Amsterdam Canal House", 1000 + 60000⟩ ] },
       Outcome.completed) := by
  decide!

/-- C12, amended: on a store with unique document ids, take a pass and then a
second pass whose `Date.now()` is less than thirty days after the server time
of the first (as it is when device and server clocks agree and the passes are
less than thirty days apart).  No holding is paid twice: every holding the
first pass paid carries the server time of the first pass as
`lastPayoutDate`, is not due at the second pass and is left as it is.  The
second pass pays exactly the holdings that were not due at the first pass and
are due at the second, one increment and one record each; when there is none
it is a no-op, as is always a second pass whose `Date.now()` is not later than
that of the first. -/
theorem second_pass_spares_paid (c1 c2 : Clock) (s : JsStore) (hwf : s.WF)
    (hclose : c2.device - c1.server < thirtyDays) :
    ∃ s1 s2, JsStore.checkForRentalPayouts c1 s = (s1, Outcome.completed) ∧
      JsStore.checkForRentalPayouts c2 s1 = (s2, Outcome.completed) ∧
      (∀ h ∈ s.portfolio, JsStore.isDue c1.device s.properties h = true →
        s1.portfolio.find? (fun x => x.id == h.id) =
          some { h with lastPayoutDate := some c1.server } ∧
        JsStore.isDue c2.device s1.properties { h with lastPayoutDate := some c1.server } =
          false ∧
        s2.portfolio.find? (fun x => x.id == h.id) =
          some { h with lastPayoutDate := some c1.server }) ∧
      s1.transactions = s.transactions ++
        (s.portfolio.filter (JsStore.isDue c1.device s.properties)).filterMap
          (JsStore.payoutRecord c1.server s.properties) ∧
      s2.transactions = s1.transactions ++
        (s.portfolio.filter fun h =>
          !JsStore.isDue c1.device s.properties h &&
            JsStore.isDue c2.device s.properties h).filterMap
          (JsStore.payoutRecord c2.server s.properties) ∧
      s2.cashBalance =
        (s.portfolio.filter fun h =>
          !JsStore.isDue c1.device s.properties h &&
            JsStore.isDue c2.device s.properties h).foldl
          (fun balance h => balance.add (.finite (JsStore.rentOf s.properties h)))
          s1.cashBalance ∧
      ((s.portfolio.filter fun h =>
          !JsStore.isDue c1.device s.properties h &&
            JsStore.isDue c2.device s.properties h) = [] → s2 = s1) ∧
      (c2.device ≤ c1.device → s2 = s1) := by
  have hle : c2.device - c1.server ≤ thirtyDays := le_of_lt hclose
  have hkey1 : ∀ x : Holding, Holding.id
      (if JsStore.isDue c1.device s.properties x then
        { x with lastPayoutDate := some c1.server } else x) = x.id := by
    intro x
    split <;> rfl
  have hkey2 : ∀ x : Holding, Holding.id
      (if JsStore.isDue c1.device s.properties x then
          { x with lastPayoutDate := some c1.server }
        else if JsStore.isDue c2.device s.properties x then
          { x with lastPayoutDate := some c2.server }
        else x) = x.id := by
    intro x
    split
    · rfl
    · split <;> rfl
  refine ⟨(JsStore.checkForRentalPayouts c1 s).1, (JsStore.checkForRentalPayouts c2
    (JsStore.checkForRentalPayouts c1 s).1).1, ?_, ?_, ?_, ?_, ?_, ?_, ?_, ?_⟩
  · rw [jsPayoutPass_eq c1 s hwf]
  · rw [jsSecondPass_eq c1 c2 s hwf hle]
  · intro h hh he
    refine ⟨?_, ?_, ?_⟩
    · rw [jsPayoutPass_eq c1 s hwf]
      dsimp only
      rw [find?_map_key Holding.id _ hkey1 h.id s.portfolio,
        find?_of_mem_nodup Holding.id h s.portfolio hwf.2 hh, Option.map_some', he]
      rfl
    · exact jsIsDue_stamped c1.server c2.device _ h hle
    · rw [jsSecondPass_eq c1 c2 s hwf hle]
      dsimp only
      rw [find?_map_key Holding.id _ hkey2 h.id s.portfolio,
        find?_of_mem_nodup Holding.id h s.portfolio hwf.2 hh, Option.map_some', he]
      rfl
  · rw [jsPayoutPass_eq c1 s hwf]
  · rw [jsSecondPass_eq c1 c2 s hwf hle]
  · rw [jsSecondPass_eq c1 c2 s hwf hle]
  · intro hlate
    rw [jsSecondPass_noop c1 c2 s hwf hle hlate]
  · intro hdev
    rw [jsSecondPass_noop c1 c2 s hwf hle]
    rw [List.filter_eq_nil_iff]
    intro h _
    cases he2 : JsStore.isDue c2.device s.properties h
    · simp
    · simp [jsIsDue_mono c1.device c2.device s.properties h hdev he2]

/-- Scenario C: ten tokens at 0.37 last paid at the epoch; a pass after 31 days
and a second pass one minute later, the server clock two seconds behind the
device. -/
theorem second_pass_spares_paid_witness :
    jsRentedStore.WF ∧
    (thirtyDays + oneDay + 60000) - (thirtyDays + oneDay - 2000) < thirtyDays ∧
    (JsStore.checkForRentalPayouts ⟨thirtyDays + oneDay, thirtyDays + oneDay - 2000⟩
      jsRentedStore).1.cashBalance = .finite (4165829655317709 / 1125899906842624) ∧
    JsStore.checkForRentalPayouts
        ⟨thirtyDays + oneDay + 60000, thirtyDays + oneDay + 58000⟩
        (JsStore.checkForRentalPayouts ⟨thirtyDays + oneDay, thirtyDays + oneDay - 2000⟩
          jsRentedStore).1 =
      ((JsStore.checkForRentalPayouts ⟨thirtyDays + oneDay, thirtyDays + oneDay - 2000⟩
          jsRentedStore).1, Outcome.completed) ∧
    ∃ s1 s2,
      JsStore.checkForRentalPayouts ⟨thirtyDays + oneDay, thirtyDays + oneDay - 2000⟩
        jsRentedStore = (s1, Outcome.completed) ∧
      JsStore.checkForRentalPayouts ⟨thirtyDays + oneDay + 60000, thirtyDays + oneDay + 58000⟩
        s1 = (s2, Outcome.completed) ∧
      s2.transactions = s1.transactions ++
        (jsRentedStore.portfolio.filter fun h =>
          !JsStore.isDue (thirtyDays + oneDay) jsRentedStore.properties h &&
            JsStore.isDue (thirtyDays + oneDay + 60000) jsRentedStore.properties h).filterMap
          (JsStore.payoutRecord (thirtyDays + oneDay + 58000) jsRentedStore.properties) := by
  refine ⟨by decide, by decide, by decide!, by decide!, ?_⟩
  obtain ⟨s1, s2, h1, h2, -, -, htx, -⟩ :=
    second_pass_spares_paid ⟨thirtyDays + oneDay, thirtyDays + oneDay - 2000⟩
      ⟨thirtyDays + oneDay + 60000, thirtyDays + oneDay + 58000⟩ jsRentedStore
      (by decide) (by decide)
  exact ⟨s1, s2, h1, h2, htx⟩

/-! ## Payouts of one holding over time -/

theorem jsHandleBuy_keeps (now : Int) (s : JsStore) (property : JsProperty) (amount : Int)
    (h : Holding) (hh : h ∈ s.portfolio) :
    ∃ h1 ∈ (JsStore.handleBuy now s property amount).1.portfolio,
      h1.id = h.id ∧ h1.lastPayoutDate = h.lastPayoutDate := by
  cases hfunds : s.cashBalance.lt (.finite (times amount property.tokenPrice))
  swap
  · rw [jsHandleBuy_refused now s property amount hfunds]
    exact ⟨h, hh, rfl, rfl⟩
  · cases hcat : s.properties.any (fun p => p.id == property.id)
    · rw [jsHandleBuy_unknown now s property amount hfunds hcat]
      exact ⟨h, hh, rfl, rfl⟩
    · cases hheld : s.portfolio.any (fun h => h.id == property.id)
      · rw [jsHandleBuy_create now s property amount hfunds hcat hheld]
        exact ⟨h, List.mem_append_left _ hh, rfl, rfl⟩
      · rw [jsHandleBuy_topUp now s property amount hfunds hcat hheld]
        refine ⟨_, List.mem_map.mpr ⟨h, hh, rfl⟩, ?_, ?_⟩
        · split <;> rfl
        · split <;> rfl

theorem jsHandleSell_keeps (now : Int) (s : JsStore) (holding h : Holding)
    (hh : h ∈ s.portfolio) (hne : h.id ≠ holding.id) :
    h ∈ (JsStore.handleSell now s holding).1.portfolio := by
  cases hcat : s.properties.find? (fun p => p.id == holding.id) with
  | none =>
    rw [jsHandleSell_unknown now s holding hcat]
    exact hh
  | some property =>
    rw [jsHandleSell_found now s holding property hcat]
    exact List.mem_filter.mpr ⟨hh, by simpa using hne⟩

theorem jsPayoutPass_keeps (clock : Clock) (s : JsStore) (hwf : s.WF) (h : Holding)
    (hh : h ∈ s.portfolio) :
    ∃ h1 ∈ (JsStore.checkForRentalPayouts clock s).1.portfolio, h1.id = h.id ∧
      (h1.lastPayoutDate = h.lastPayoutDate ∨ h1.lastPayoutDate = some clock.server) := by
  rw [jsPayoutPass_eq clock s hwf]
  refine ⟨_, List.mem_map.mpr ⟨h, hh, rfl⟩, ?_, ?_⟩
  · split <;> rfl
  · split
    · exact Or.inr rfl
    · exact Or.inl rfl

theorem jsStamp_kept (pid : DocId) (t1 : Int) (mid : List (Clock × JsCall)) (start : Int)
    (s : JsStore) (hwf : s.WF) (hstart : t1 ≤ start)
    (hkeeps : JsStore.keepsHolding pid start mid = true)
    (hinv : ∃ h ∈ s.portfolio, h.id = pid ∧ ∃ t, h.lastPayoutDate = some t ∧ t1 ≤ t) :
    (JsStore.runCalls s mid).WF ∧
      ∃ h ∈ (JsStore.runCalls s mid).portfolio, h.id = pid ∧
        ∃ t, h.lastPayoutDate = some t ∧ t1 ≤ t := by
  induction mid generalizing start s with
  | nil => exact ⟨hwf, hinv⟩
  | cons c rest ih =>
    obtain ⟨clock, c⟩ := c
    obtain ⟨h, hh, hid, t, ht, hle⟩ := hinv
    simp only [JsStore.keepsHolding, Bool.and_eq_true, decide_eq_true_eq] at hkeeps
    obtain ⟨⟨hnow, hcall⟩, hrest⟩ := hkeeps
    have hnow1 : t1 ≤ clock.server := le_trans hstart hnow
    cases c with
    | addCash amount => cases hcall
    | cashOut amount => cases hcall
    | vote proposalId choice => cases hcall
    | buy property amount =>
      obtain ⟨h1, hh1, hid1, hlast1⟩ := jsHandleBuy_keeps clock.server s property amount h hh
      exact ih clock.server _ (jsHandleBuy_WF clock.server s property amount hwf) hnow1 hrest
        ⟨h1, hh1, hid1.trans hid, t, hlast1.trans ht, hle⟩
    | sell holding =>
      have hne : h.id ≠ holding.id := by
        rw [hid]
        intro e
        simp [e] at hcall
      exact ih clock.server _ (jsHandleSell_WF clock.server s holding hwf) hnow1 hrest
        ⟨h, jsHandleSell_keeps clock.server s holding h hh hne, hid, t, ht, hle⟩
    | rentalPayouts =>
      obtain ⟨h1, hh1, hid1, hlast1⟩ := jsPayoutPass_keeps clock s hwf h hh
      refine ih clock.server _ (jsPayoutPass_WF clock s hwf) hnow1 hrest
        ⟨h1, hh1, hid1.trans hid, ?_⟩
      rcases hlast1 with hsame | hnew
      · exact ⟨t, hsame.trans ht, hle⟩
      · exact ⟨clock.server, hnew, hnow1⟩

/-- C13 as stated fails, in two ways.  `handleSell` deletes the holding and a
later `handleBuy` creates it anew with `lastPayoutDate` at the epoch, so with
device and server clocks agreeing the account's holding of one property is
paid at thirty days plus 1 ms and again 3 ms later.  And without any sale,
when the device clock runs 31 days ahead of the server, one holding document
is paid by two passes a minute apart: the first stamps the server time, which
`Date.now()` of the second finds more than thirty days back. -/
theorem payout_repeated_after_rebuy :
    (JsStore.runCalls jsSeededStore jsRebuyCalls).transactions.filter
        (fun t => t.type == TxType.RentalIncome) =
      [ ⟨.RentalIncome, .finite (4165829655317709 / 2251799813685248),
          .tokensOf 5 "Amsterdam Canal House", thirtyDays + 1⟩,
        ⟨.RentalIncome, .finite (4165829655317709 / 2251799813685248),
          .tokensOf 5 "Amsterdam Canal House", thirtyDays + 4⟩ ] ∧
    (thirtyDays + 4) - (thirtyDays + 1) < thirtyDays ∧
    (jsRebuyCalls.map fun c => c.1.server) =
      [1, thirtyDays + 1, thirtyDays + 2, thirtyDays + 3, thirtyDays + 4] ∧
    (JsStore.runCalls jsRentedStore jsSkewedPasses).transactions =
      [ ⟨.RentalIncome, .finite (4165829655317709 / 1125899906842624),
          .tokensOf 10 "Amsterdam Canal House", 1000⟩,
        ⟨.RentalIncome, .finite (4165829655317709 / 1125899906842624),
          .tokensOf 10 "Amsterdam Canal House", 61000⟩ ] ∧
    (61000 : Int) - 1000 < thirtyDays ∧
    (thirtyDays + oneDay + 61000) - (thirtyDays + oneDay + 1000) < thirtyDays := by
  decide!

/-- C13, amended: on a store with unique document ids, take a pass of
`checkForRentalPayouts` that pays the holding of a property, then any calls of
`handleBuy`, `checkForRentalPayouts` and `handleSell` at server times that do
not decrease, among which no `handleSell` is of that property, then a pass
that pays the holding of that property again.  The `Date.now()` of the second
paying pass is more than thirty days after the server time of the first; so
when the device clock is not ahead of the server clock at the second pass,
the two payouts of the holding document are recorded more than thirty days
apart. -/
theorem payouts_spaced (pid : DocId) (c1 c2 : Clock) (mid : List (Clock × JsCall))
    (s : JsStore) (hwf : s.WF) (hpaid1 : JsStore.paysHolding c1.device s pid = true)
    (hmid : JsStore.keepsHolding pid c1.server mid = true)
    (hpaid2 : JsStore.paysHolding c2.device
      (JsStore.runCalls (JsStore.checkForRentalPayouts c1 s).1 mid) pid = true) :
    thirtyDays < c2.device - c1.server ∧
      (c2.device ≤ c2.server → thirtyDays < c2.server - c1.server) := by
  have hinit : ∃ h ∈ (JsStore.checkForRentalPayouts c1 s).1.portfolio, h.id = pid ∧
      ∃ t, h.lastPayoutDate = some t ∧ c1.server ≤ t := by
    unfold JsStore.paysHolding at hpaid1
    obtain ⟨h0, hh0, hp0⟩ := List.any_eq_true.mp hpaid1
    simp only [Bool.and_eq_true, beq_iff_eq] at hp0
    have he : JsStore.isDue c1.device s.properties h0 = true := by
      rw [← jsRentalPayout_isSome]
      exact hp0.2
    rw [jsPayoutPass_eq c1 s hwf]
    refine ⟨_, List.mem_map.mpr ⟨h0, hh0, rfl⟩, ?_, c1.server, ?_, le_refl _⟩
    · rw [he]
      exact hp0.1
    · rw [he]
      rfl
  obtain ⟨hwf2, h, hh, hid, t, ht, hle⟩ :=
    jsStamp_kept pid c1.server mid c1.server _ (jsPayoutPass_WF c1 s hwf) (le_refl _) hmid hinit
  unfold JsStore.paysHolding at hpaid2
  obtain ⟨h2, hh2, hp2⟩ := List.any_eq_true.mp hpaid2
  simp only [Bool.and_eq_true, beq_iff_eq] at hp2
  have heq : h2 = h := List.inj_on_of_nodup_map hwf2.2 hh2 hh (hp2.1.trans hid.symm)
  have he2 : JsStore.isDue c2.device
      (JsStore.runCalls (JsStore.checkForRentalPayouts c1 s).1 mid).properties h = true := by
    rw [← jsRentalPayout_isSome, ← heq]
    exact hp2.2
  unfold JsStore.isDue at he2
  simp only [Bool.and_eq_true, decide_eq_true_eq] at he2
  have hdue := he2.1
  rw [ht] at hdue
  simp only [Option.getD_some] at hdue
  constructor
  · omega
  · intro hdev
    omega

/-- Five tokens bought on day 0: paid at 31 days, topped up, and paid again at
62 days, the server clock two seconds behind the device. -/
theorem payouts_spaced_witness :
    jsAfterBuy.WF ∧
    JsStore.paysHolding (thirtyDays + oneDay) jsAfterBuy "amsterdam-canal-house" = true ∧
    JsStore.keepsHolding "amsterdam-canal-house" (thirtyDays + oneDay - 2000)
      [(⟨thirtyDays + 2 * oneDay, thirtyDays + 2 * oneDay - 2000⟩, JsCall.buy jsCanalHouse 1),
       (⟨thirtyDays + 3 * oneDay, thirtyDays + 3 * oneDay - 2000⟩, JsCall.rentalPayouts)] =
      true ∧
    JsStore.paysHolding (2 * thirtyDays + 2 * oneDay)
      (JsStore.runCalls
        (JsStore.checkForRentalPayouts ⟨thirtyDays + oneDay, thirtyDays + oneDay - 2000⟩
          jsAfterBuy).1
        [(⟨thirtyDays + 2 * oneDay, thirtyDays + 2 * oneDay - 2000⟩, JsCall.buy jsCanalHouse 1),
         (⟨thirtyDays + 3 * oneDay, thirtyDays + 3 * oneDay - 2000⟩, JsCall.rentalPayouts)])
      "amsterdam-canal-house" = true ∧
    thirtyDays < (2 * thirtyDays + 2 * oneDay) - (thirtyDays + oneDay - 2000) :=
  ⟨by decide, by decide!, by decide, by decide!,
    (payouts_spaced "amsterdam-canal-house"
      ⟨thirtyDays + oneDay, thirtyDays + oneDay - 2000⟩
      ⟨2 * thirtyDays + 2 * oneDay, 2 * thirtyDays + 2 * oneDay - 2000⟩
      [(⟨thirtyDays + 2 * oneDay, thirtyDays + 2 * oneDay - 2000⟩, JsCall.buy jsCanalHouse 1),
       (⟨thirtyDays + 3 * oneDay, thirtyDays + 3 * oneDay - 2000⟩, JsCall.rentalPayouts)]
      jsAfterBuy (by decide) (by decide!) (by decide) (by decide!)).1⟩

/-! ## Two snapshot runs -/

theorem jsLastRecord_eq_none (history : List JsSnapshot) :
    JsStore.lastRecord history = none ↔ history = [] := by
  cases history with
  | nil => simp [JsStore.lastRecord]
  | cons r rest =>
    simp only [JsStore.lastRecord, reduceCtorEq, iff_false]
    cases JsStore.lastRecord rest with
    | none => simp
    | some best =>
      dsimp only
      split <;> simp

theorem jsLastRecord_max (history : List JsSnapshot) (r : JsSnapshot)
    (h : JsStore.lastRecord history = some r) :
    r ∈ history ∧ ∀ x ∈ history, x.timestamp ≤ r.timestamp := by
  induction history generalizing r with
  | nil => simp [JsStore.lastRecord] at h
  | cons a rest ih =>
    unfold JsStore.lastRecord at h
    cases hrest : JsStore.lastRecord rest with
    | none =>
      rw [hrest] at h
      simp only [Option.some.injEq] at h
      subst h
      have hnil := (jsLastRecord_eq_none rest).mp hrest
      subst hnil
      simp
    | some best =>
      rw [hrest] at h
      obtain ⟨hmem, hmax⟩ := ih best hrest
      dsimp only at h
      split at h
      · next hlt =>
        simp only [Option.some.injEq] at h
        subst h
        refine ⟨List.mem_cons_self _ _, ?_⟩
        intro x hx
        rcases List.mem_cons.mp hx with rfl | hx1
        · exact le_refl _
        · exact le_trans (hmax x hx1) (le_of_lt hlt)
      · next hge =>
        simp only [Option.some.injEq] at h
        subst h
        refine ⟨List.mem_cons_of_mem _ hmem, ?_⟩
        intro x hx
        rcases List.mem_cons.mp hx with rfl | hx1
        · exact not_lt.mp hge
        · exact hmax x hx1

theorem jsRecordPortfolioSnapshot_appends (clock : Clock) (s : JsStore)
    (hold : ∀ r ∈ s.portfolioHistory, oneDay < clock.device - r.timestamp) :
    JsStore.recordPortfolioSnapshot clock s =
      { s with portfolioHistory :=
          s.portfolioHistory ++ [⟨JsStore.portfolioValue s, clock.server⟩] } := by
  unfold JsStore.recordPortfolioSnapshot
  cases hl : JsStore.lastRecord s.portfolioHistory with
  | none => rfl
  | some r =>
    have hr := hold r (jsLastRecord_max _ r hl).1
    have : r.timestamp < clock.device - oneDay := by omega
    simp only [if_pos this]

theorem jsRecordPortfolioSnapshot_skips (clock : Clock) (s : JsStore) (r : JsSnapshot)
    (hmem : r ∈ s.portfolioHistory) (hrecent : clock.device - r.timestamp ≤ oneDay) :
    JsStore.recordPortfolioSnapshot clock s = s := by
  unfold JsStore.recordPortfolioSnapshot
  cases hl : JsStore.lastRecord s.portfolioHistory with
  | none =>
    rw [(jsLastRecord_eq_none _).mp hl] at hmem
    cases hmem
  | some best =>
    have hmax := (jsLastRecord_max _ best hl).2 r hmem
    have : ¬ best.timestamp < clock.device - oneDay := by omega
    simp only [if_neg this]

/-- C15 as stated fails, in two ways.  With device and server clocks agreeing
and a snapshot taken 24 hours minus one millisecond before the first run, the
first run adds nothing and the second run, two milliseconds later, adds one,
where the claim has zero.  And with the device clock 25 hours ahead of the
server, two runs a minute apart on an empty history both add a snapshot: the
first carries the server time, which `Date.now()` of the second finds more
than 24 hours back. -/
theorem snapshot_added_by_second_run :
    (oneDay - 1) - (0 : Int) < oneDay ∧
    oneDay - 1 ≤ oneDay + 1 ∧ (oneDay + 1) - (oneDay - 1) < oneDay ∧
    JsStore.recordPortfolioSnapshot ⟨oneDay - 1, oneDay - 1⟩ jsSnapshotStore =
      jsSnapshotStore ∧
    (JsStore.recordPortfolioSnapshot ⟨oneDay + 1, oneDay + 1⟩
      (JsStore.recordPortfolioSnapshot ⟨oneDay - 1, oneDay - 1⟩
        jsSnapshotStore)).portfolioHistory =
      [⟨0, 0⟩, ⟨0, oneDay + 1⟩] ∧
    (61000 : Int) - 1000 < oneDay ∧
    (JsStore.recordPortfolioSnapshot ⟨oneDay + 3600000 + 61000, 61000⟩
      (JsStore.recordPortfolioSnapshot ⟨oneDay + 3600000 + 1000, 1000⟩
        jsAfterBuy)).portfolioHistory =
      [⟨500, 1000⟩, ⟨500, 61000⟩] := by
  decide!

/-- C15, amended: take two runs of `recordPortfolioSnapshot`, the `Date.now()`
of the second not before that of the first and less than 24 hours after the
server time of the first (as it is when device and server clocks agree and the
runs are less than 24 hours apart).  They add at most one snapshot in total.
They add exactly one, with the server time of the first run, when every
snapshot of the account is more than 24 hours older than `Date.now()` of the
first run (or there is none); they add none when some snapshot is at most 24
hours older than `Date.now()` of the second run; and they add exactly one,
with the server time of the second run, when some snapshot is at most 24 hours
older than `Date.now()` of the first run but all are more than 24 hours older
than that of the second.  When at neither run the device clock is ahead of the
server clock, a history whose snapshots are more than 24 hours apart stays
so. -/
theorem recordPortfolioSnapshot_twice (c1 c2 : Clock) (s : JsStore)
    (hle : c1.device ≤ c2.device) (hclose : c2.device - c1.server < oneDay) :
    ((∀ r ∈ s.portfolioHistory, oneDay < c1.device - r.timestamp) →
      (JsStore.recordPortfolioSnapshot c2
        (JsStore.recordPortfolioSnapshot c1 s)).portfolioHistory =
        s.portfolioHistory ++ [⟨JsStore.portfolioValue s, c1.server⟩]) ∧
    ((∃ r ∈ s.portfolioHistory, c2.device - r.timestamp ≤ oneDay) →
      JsStore.recordPortfolioSnapshot c2 (JsStore.recordPortfolioSnapshot c1 s) = s) ∧
    ((∃ r ∈ s.portfolioHistory, c1.device - r.timestamp ≤ oneDay) →
      (∀ r ∈ s.portfolioHistory, oneDay < c2.device - r.timestamp) →
      (JsStore.recordPortfolioSnapshot c2
        (JsStore.recordPortfolioSnapshot c1 s)).portfolioHistory =
        s.portfolioHistory ++ [⟨JsStore.portfolioValue s, c2.server⟩]) ∧
    ((JsStore.recordPortfolioSnapshot c2
        (JsStore.recordPortfolioSnapshot c1 s)).portfolioHistory = s.portfolioHistory ∨
      ∃ t, (JsStore.recordPortfolioSnapshot c2
        (JsStore.recordPortfolioSnapshot c1 s)).portfolioHistory =
        s.portfolioHistory ++ [⟨JsStore.portfolioValue s, t⟩]) ∧
    (c1.device ≤ c1.server → c2.device ≤ c2.server →
      s.portfolioHistory.Pairwise (fun a b => oneDay < b.timestamp - a.timestamp) →
      (JsStore.recordPortfolioSnapshot c2
        (JsStore.recordPortfolioSnapshot c1 s)).portfolioHistory.Pairwise
        (fun a b => oneDay < b.timestamp - a.timestamp)) := by
  have hfirst : (∀ r ∈ s.portfolioHistory, oneDay < c1.device - r.timestamp) →
      JsStore.recordPortfolioSnapshot c2 (JsStore.recordPortfolioSnapshot c1 s) =
        { s with portfolioHistory :=
            s.portfolioHistory ++ [⟨JsStore.portfolioValue s, c1.server⟩] } := by
    intro hold
    rw [jsRecordPortfolioSnapshot_appends c1 s hold]
    exact jsRecordPortfolioSnapshot_skips c2 _ ⟨JsStore.portfolioValue s, c1.server⟩
      (List.mem_append_right _ (List.mem_singleton_self _)) (le_of_lt hclose)
  have hsecond : (∃ r ∈ s.portfolioHistory, c1.device - r.timestamp ≤ oneDay) →
      (∀ r ∈ s.portfolioHistory, oneDay < c2.device - r.timestamp) →
      JsStore.recordPortfolioSnapshot c2 (JsStore.recordPortfolioSnapshot c1 s) =
        { s with portfolioHistory :=
            s.portfolioHistory ++ [⟨JsStore.portfolioValue s, c2.server⟩] } := by
    rintro ⟨r, hr, hrle⟩ hold
    rw [jsRecordPortfolioSnapshot_skips c1 s r hr hrle]
    exact jsRecordPortfolioSnapshot_appends c2 s hold
  have hnone : (∃ r ∈ s.portfolioHistory, c2.device - r.timestamp ≤ oneDay) →
      JsStore.recordPortfolioSnapshot c2 (JsStore.recordPortfolioSnapshot c1 s) = s := by
    rintro ⟨r, hr, hrle⟩
    rw [jsRecordPortfolioSnapshot_skips c1 s r hr (by omega)]
    exact jsRecordPortfolioSnapshot_skips c2 s r hr hrle
  have hcases : JsStore.recordPortfolioSnapshot c2 (JsStore.recordPortfolioSnapshot c1 s) = s ∨
      ∃ c : Clock, (c = c1 ∨ c = c2) ∧
        (∀ r ∈ s.portfolioHistory, oneDay < c.device - r.timestamp) ∧
        JsStore.recordPortfolioSnapshot c2 (JsStore.recordPortfolioSnapshot c1 s) =
          { s with portfolioHistory :=
              s.portfolioHistory ++ [⟨JsStore.portfolioValue s, c.server⟩] } := by
    by_cases h1 : ∀ r ∈ s.portfolioHistory, oneDay < c1.device - r.timestamp
    · exact Or.inr ⟨c1, Or.inl rfl, h1, hfirst h1⟩
    · push_neg at h1
      by_cases h2 : ∀ r ∈ s.portfolioHistory, oneDay < c2.device - r.timestamp
      · exact Or.inr ⟨c2, Or.inr rfl, h2, hsecond h1 h2⟩
      · push_neg at h2
        exact Or.inl (hnone h2)
  refine ⟨fun h => by rw [hfirst h], hnone, fun h1 h2 => by rw [hsecond h1 h2], ?_, ?_⟩
  · rcases hcases with h | ⟨c, _, _, h⟩
    · exact Or.inl (by rw [h])
    · exact Or.inr ⟨c.server, by rw [h]⟩
  · intro hdev1 hdev2 hpw
    rcases hcases with h | ⟨c, hc, ht, h⟩
    · rw [h]
      exact hpw
    · rw [h]
      show (s.portfolioHistory ++
        [(⟨JsStore.portfolioValue s, c.server⟩ : JsSnapshot)]).Pairwise _
      rw [List.pairwise_append]
      refine ⟨hpw, List.pairwise_singleton _ _, ?_⟩
      intro a ha b hb
      rw [List.mem_singleton.mp hb]
      have hdev : c.device ≤ c.server := by
        rcases hc with rfl | rfl
        · exact hdev1
        · exact hdev2
      have := ht a ha
      show oneDay < c.server - a.timestamp
      omega

/-- On a history with one snapshot from the epoch: runs at 25 hours and, 23
hours later, at 48 hours of the device clock, the server clock two seconds
behind, add one snapshot, with the server time of the first run. -/
theorem recordPortfolioSnapshot_twice_witness :
    oneDay + 3600000 ≤ 2 * oneDay ∧ 2 * oneDay - (oneDay + 3600000 - 2000) < oneDay ∧
    (∀ r ∈ jsSnapshotStore.portfolioHistory, oneDay < (oneDay + 3600000) - r.timestamp) ∧
    (JsStore.recordPortfolioSnapshot ⟨2 * oneDay, 2 * oneDay - 2000⟩
      (JsStore.recordPortfolioSnapshot ⟨oneDay + 3600000, oneDay + 3600000 - 2000⟩
        jsSnapshotStore)).portfolioHistory =
      jsSnapshotStore.portfolioHistory ++
        [⟨JsStore.portfolioValue jsSnapshotStore, oneDay + 3600000 - 2000⟩] :=
  ⟨by decide, by decide, by decide,
    (recordPortfolioSnapshot_twice ⟨oneDay + 3600000, oneDay + 3600000 - 2000⟩
      ⟨2 * oneDay, 2 * oneDay - 2000⟩ jsSnapshotStore (by decide) (by decide)).1 (by decide)⟩

/-! ## No negative balances -/

theorem scale2_nonneg (q : ℚ) (k : Int) (hq : 0 ≤ q) : 0 ≤ scale2 q k := by
  unfold scale2
  split
  · exact mul_nonneg hq (by positivity)
  · exact div_nonneg hq (by positivity)

theorem roundHalfEven_nonneg (q : ℚ) (hq : 0 ≤ q) : 0 ≤ roundHalfEven q := by
  have hf : 0 ≤ q.floor := by
    have : (0 : ℤ) ≤ ⌊q⌋ := Int.floor_nonneg.mpr hq
    exact this
  unfold roundHalfEven
  dsimp only
  split
  · exact hf
  · split
    · omega
    · split <;> omega

theorem round64_nonneg (q : ℚ) (hq : 0 ≤ q) : 0 ≤ round64 q := by
  unfold round64
  split
  · exact le_refl _
  · dsimp only
    rw [if_neg (not_lt.mpr hq)]
    apply scale2_nonneg
    exact_mod_cast roundHalfEven_nonneg _ (scale2_nonneg _ _ (abs_nonneg q))

theorem times_nonneg (quantity : Int) (x : ℚ) (hq : 0 ≤ quantity) (hx : 0 ≤ x) :
    0 ≤ times quantity x := by
  unfold times
  exact round64_nonneg _ (mul_nonneg (by exact_mod_cast hq) hx)

theorem jsGe_zero (a : JsNumber) :
    a.ge (.finite 0) = true ↔ ∃ b, a = JsNumber.finite b ∧ 0 ≤ b := by
  cases a with
  | nan => simp [JsNumber.ge]
  | finite b => simp [JsNumber.ge]

theorem jsAdd_nonneg (a : JsNumber) (r : ℚ) (ha : a.ge (.finite 0) = true) (hr : 0 ≤ r) :
    (a.add (.finite r)).ge (.finite 0) = true := by
  obtain ⟨b, rfl, hb⟩ := (jsGe_zero a).mp ha
  exact (jsGe_zero _).mpr ⟨_, rfl, round64_nonneg _ (add_nonneg hb hr)⟩

theorem jsSub_nonneg (a : JsNumber) (c : ℚ) (ha : a.ge (.finite 0) = true)
    (hlt : a.lt (.finite c) = false) : (a.add (.finite (-c))).ge (.finite 0) = true := by
  obtain ⟨b, rfl, hb⟩ := (jsGe_zero a).mp ha
  have hcb : c ≤ b := by
    have : decide (b < c) = false := hlt
    rw [decide_eq_false_iff_not, not_lt] at this
    exact this
  exact (jsGe_zero _).mpr ⟨_, rfl, round64_nonneg _ (by linarith)⟩

theorem jsCommit_preserves (P : JsStore → Prop) (ws : List JsWrite)
    (hstep : ∀ w ∈ ws, ∀ a b, P a → w.apply a = some b → P b) (s s1 : JsStore) (hs : P s)
    (hc : JsStore.commit s ws = some s1) : P s1 := by
  induction ws generalizing s with
  | nil =>
    simp only [JsStore.commit, Option.some.injEq] at hc
    exact hc ▸ hs
  | cons w ws ih =>
    unfold JsStore.commit at hc
    cases hw : w.apply s with
    | none => rw [hw] at hc; cases hc
    | some s2 =>
      rw [hw] at hc
      exact ih (fun w1 h1 => hstep w1 (List.mem_cons_of_mem _ h1)) s2
        (hstep w (List.mem_cons_self _ _) s s2 hs hw) hc

theorem jsPayoutBatch_writes (clock : Clock) (properties : List JsProperty)
    (portfolio : List Holding) (hprops : ∀ p ∈ properties, 0 ≤ p.monthlyRentPerToken)
    (hport : ∀ h ∈ portfolio, 0 ≤ h.quantity) :
    ∀ w ∈ JsStore.payoutBatch clock properties portfolio,
      (∃ r, 0 ≤ r ∧ w = JsWrite.incrementCash r) ∨
        ∃ id, w = JsWrite.stampLastPayout id clock.server := by
  induction portfolio with
  | nil => intro w hw; cases hw
  | cons a l ih =>
    intro w hw
    have ihl := ih (fun h hh => hport h (List.mem_cons_of_mem _ hh))
    unfold JsStore.payoutBatch at hw
    cases hr : JsStore.rentalPayout clock.device properties a with
    | none =>
      rw [hr] at hw
      exact ihl w hw
    | some r =>
      rw [hr] at hw
      rcases List.mem_cons.mp hw with rfl | hw1
      · left
        refine ⟨r, ?_, rfl⟩
        unfold JsStore.rentalPayout at hr
        dsimp only at hr
        split at hr
        · cases hf : properties.find? (fun p => p.id == a.id) with
          | none => rw [hf] at hr; cases hr
          | some p =>
            rw [hf] at hr
            simp only [Option.some.injEq] at hr
            rw [← hr]
            exact times_nonneg _ _ (hport a (List.mem_cons_self _ _))
              (hprops p (List.mem_of_find?_eq_some hf))
        · cases hr
      · rcases List.mem_cons.mp hw1 with rfl | hw2
        · right; exact ⟨a.id, rfl⟩
        · exact ihl w hw2

theorem jsApply_incrementCash_sound (r : ℚ) (hr : 0 ≤ r) (a b : JsStore)
    (ha : a.WF ∧ a.NonNegative) (hab : (JsWrite.incrementCash r).apply a = some b) :
    b.WF ∧ b.NonNegative := by
  simp only [JsWrite.apply, Option.some.injEq] at hab
  subst hab
  exact ⟨ha.1, jsAdd_nonneg _ r ha.2.1 hr, ha.2.2.1, ha.2.2.2⟩

theorem jsApply_stampLastPayout_sound (id : DocId) (t : Int) (a b : JsStore)
    (ha : a.WF ∧ a.NonNegative) (hab : (JsWrite.stampLastPayout id t).apply a = some b) :
    b.WF ∧ b.NonNegative := by
  simp only [JsWrite.apply] at hab
  split at hab
  · simp only [Option.some.injEq] at hab
    subst hab
    refine ⟨⟨ha.1.1, ?_⟩, ha.2.1, ha.2.2.1, ?_⟩
    · show ((a.portfolio.map fun h =>
          if h.id == id then { h with lastPayoutDate := some t } else h).map
          (fun h => h.id)).Nodup
      rw [map_key_update Holding.id (fun h => { h with lastPayoutDate := some t })
        (fun _ => rfl)]
      exact ha.1.2
    · intro h hh
      obtain ⟨h0, hh0, rfl⟩ := List.mem_map.mp hh
      have := ha.2.2.2 h0 hh0
      cases hk : h0.id == id <;> simpa [hk] using this
  · cases hab

theorem jsCheckForRentalPayouts_sound (clock : Clock) (s : JsStore)
    (hs : s.WF ∧ s.NonNegative) :
    (JsStore.checkForRentalPayouts clock s).1.WF ∧
      (JsStore.checkForRentalPayouts clock s).1.NonNegative := by
  unfold JsStore.checkForRentalPayouts
  split
  · exact hs
  · have hs1 : JsStore.WF { s with transactions :=
          s.transactions ++ JsStore.payoutRecords clock s.properties s.portfolio } ∧
        JsStore.NonNegative { s with transactions :=
          s.transactions ++ JsStore.payoutRecords clock s.properties s.portfolio } := hs
    dsimp only
    cases hc : JsStore.commit { s with transactions :=
        s.transactions ++ JsStore.payoutRecords clock s.properties s.portfolio }
        (JsStore.payoutBatch clock s.properties s.portfolio) with
    | none => exact hs1
    | some s2 =>
      refine jsCommit_preserves (fun a => a.WF ∧ a.NonNegative) _ ?_ _ s2 hs1 hc
      intro w hw a b ha hab
      rcases jsPayoutBatch_writes clock s.properties s.portfolio
          (fun p hp => (hs.2.2.1 p hp).2.2) hs.2.2.2 w hw with ⟨r, hr, rfl⟩ | ⟨id, rfl⟩
      · exact jsApply_incrementCash_sound r hr a b ha hab
      · exact jsApply_stampLastPayout_sound id clock.server a b ha hab

theorem jsHandleBuy_sound (now : Int) (s : JsStore) (property : JsProperty) (amount : Int)
    (hs : s.WF ∧ s.NonNegative) (hmem : property ∈ s.properties) (hlo : 0 ≤ amount)
    (hhi : amount ≤ property.tokensAvailable) :
    (JsStore.handleBuy now s property amount).1.WF ∧
      (JsStore.handleBuy now s property amount).1.NonNegative := by
  refine ⟨jsHandleBuy_WF now s property amount hs.1, ?_⟩
  have hprops : ∀ p ∈ (s.properties.map fun p =>
      if p.id == property.id then
        { p with tokensAvailable := p.tokensAvailable + -amount } else p),
      0 ≤ p.tokensAvailable ∧ 0 ≤ p.tokenPrice ∧ 0 ≤ p.monthlyRentPerToken := by
    intro p hp
    obtain ⟨p0, hp0, rfl⟩ := List.mem_map.mp hp
    have hnn := hs.2.2.1 p0 hp0
    cases hk : p0.id == property.id
    · simpa [hk] using hnn
    · have hid : p0.id = property.id := by simpa using hk
      have heq : p0 = property := List.inj_on_of_nodup_map hs.1.1 hp0 hmem hid
      subst heq
      simp only [hk, if_true]
      exact ⟨by omega, hnn.2.1, hnn.2.2⟩
  cases hfunds : s.cashBalance.lt (.finite (times amount property.tokenPrice))
  swap
  · rw [jsHandleBuy_refused now s property amount hfunds]
    exact hs.2
  · have hcash := jsSub_nonneg s.cashBalance _ hs.2.1 hfunds
    cases hcat : s.properties.any (fun p => p.id == property.id)
    · rw [jsHandleBuy_unknown now s property amount hfunds hcat]
      exact hs.2
    · cases hheld : s.portfolio.any (fun h => h.id == property.id)
      · rw [jsHandleBuy_create now s property amount hfunds hcat hheld]
        refine ⟨hcash, hprops, ?_⟩
        intro h hh
        rcases List.mem_append.mp hh with hold | hnew
        · exact hs.2.2.2 h hold
        · rw [List.mem_singleton.mp hnew]
          exact hlo
      · rw [jsHandleBuy_topUp now s property amount hfunds hcat hheld]
        refine ⟨hcash, hprops, ?_⟩
        intro h hh
        obtain ⟨h0, hh0, rfl⟩ := List.mem_map.mp hh
        have hq := hs.2.2.2 h0 hh0
        cases hk : h0.id == property.id
        · simpa [hk] using hq
        · simp only [hk, if_true]
          exact add_nonneg hq hlo

theorem jsHandleSell_sound (now : Int) (s : JsStore) (holding : Holding)
    (hs : s.WF ∧ s.NonNegative) (hmem : holding ∈ s.portfolio) :
    (JsStore.handleSell now s holding).1.WF ∧
      (JsStore.handleSell now s holding).1.NonNegative := by
  refine ⟨jsHandleSell_WF now s holding hs.1, ?_⟩
  have hq := hs.2.2.2 holding hmem
  cases hcat : s.properties.find? (fun p => p.id == holding.id) with
  | none =>
    rw [jsHandleSell_unknown now s holding hcat]
    exact hs.2
  | some property =>
    rw [jsHandleSell_found now s holding property hcat]
    have hprice := (hs.2.2.1 property (List.mem_of_find?_eq_some hcat)).2.1
    refine ⟨jsAdd_nonneg _ _ hs.2.1 (times_nonneg _ _ hq hprice), ?_, ?_⟩
    · intro p hp
      obtain ⟨p0, hp0, rfl⟩ := List.mem_map.mp hp
      have hnn := hs.2.2.1 p0 hp0
      cases hk : p0.id == holding.id
      · simpa [hk] using hnn
      · simp only [hk, if_true]
        exact ⟨add_nonneg hnn.1 hq, hnn.2.1, hnn.2.2⟩
    · intro h hh
      exact hs.2.2.2 h (List.mem_filter.mp hh).1

theorem jsAdmissible_step (clock : Clock) (s : JsStore) (c : JsCall)
    (hs : s.WF ∧ s.NonNegative) (hadm : c.admissible s = true) :
    (c.run clock s).WF ∧ (c.run clock s).NonNegative := by
  cases c with
  | addCash amount =>
    have h0 : (parseFloat amount).ge (.finite 0) = true := hadm
    obtain ⟨a, ha, ha0⟩ := (jsGe_zero _).mp h0
    refine ⟨hs.1, ?_, hs.2.2.1, hs.2.2.2⟩
    show (s.cashBalance.add (parseFloat amount)).ge (.finite 0) = true
    rw [ha]
    exact jsAdd_nonneg _ a hs.2.1 ha0
  | cashOut amount =>
    have hnum : parseFloat amount ≠ JsNumber.nan := by
      simpa [JsCall.admissible] using hadm
    show (JsStore.handleCashOut clock.server s amount).1.WF ∧
      (JsStore.handleCashOut clock.server s amount).1.NonNegative
    unfold JsStore.handleCashOut
    cases hlt : s.cashBalance.lt (parseFloat amount)
    · simp only [Bool.false_eq_true, if_false]
      refine ⟨hs.1, ?_, hs.2.2.1, hs.2.2.2⟩
      show (s.cashBalance.add (parseFloat amount).neg).ge (.finite 0) = true
      cases hp : parseFloat amount with
      | nan => exact absurd hp hnum
      | finite a =>
        rw [hp] at hlt
        exact jsSub_nonneg _ a hs.2.1 hlt
    · simp only [if_true]
      exact hs
  | buy property amount =>
    simp only [JsCall.admissible, Bool.and_eq_true, decide_eq_true_eq] at hadm
    have hmem : property ∈ s.properties := by simpa using hadm.1.1
    exact jsHandleBuy_sound clock.server s property amount hs hmem hadm.1.2 hadm.2
  | sell holding =>
    have hmem : holding ∈ s.portfolio := by simpa [JsCall.admissible] using hadm
    exact jsHandleSell_sound clock.server s holding hs hmem
  | rentalPayouts => exact jsCheckForRentalPayouts_sound clock s hs
  | vote proposalId choice =>
    show (JsStore.handleVote s proposalId choice).1.WF ∧
      (JsStore.handleVote s proposalId choice).1.NonNegative
    unfold JsStore.handleVote
    split
    · exact hs
    · exact hs

/-- C4 as stated fails: with arbitrary arguments a deposit of `-200000` takes
the sign-up balance of 100000 to `-100000`; a withdrawal with an empty form
field, where `parseFloat` gives `NaN`, passes the funds check and leaves `NaN`
as the balance, which is not `>= 0`; and a purchase of five tokens out of
three available takes `tokensAvailable` to `-2`.  Nor is a balance and a
supply of at least 0 enough of the state: with a holding of quantity `-5` in
the portfolio, selling it takes a balance of 0 to `-500`. -/
theorem negative_balance_and_supply :
    signUpAccount.cashBalance.ge (.finite 0) = true ∧
    (JsStore.runCalls signUpAccount [(⟨0, 0⟩, JsCall.addCash (some (-200000)))]).cashBalance =
      .finite (-100000) ∧
    (JsStore.runCalls signUpAccount [(⟨0, 0⟩, JsCall.cashOut none)]).cashBalance = .nan ∧
    JsNumber.ge .nan (.finite 0) = false ∧
    jsScarceStore.cashBalance.ge (.finite 0) = true ∧
    (∀ p ∈ jsScarceStore.properties, 0 ≤ p.tokensAvailable) ∧
    ((JsStore.runCalls jsScarceStore [(⟨0, 0⟩, JsCall.buy jsLoft 5)]).properties.map
      fun p => p.tokensAvailable) = [-2] ∧
    jsShortStore.cashBalance.ge (.finite 0) = true ∧
    (∀ p ∈ jsShortStore.properties, 0 ≤ p.tokensAvailable) ∧
    (JsStore.runCalls jsShortStore
      [(⟨0, 0⟩, JsCall.sell
        ⟨"amsterdam-canal-house", "Amsterdam Canal House", -5, some 0⟩)]).cashBalance =
      .finite (-500) := by
  decide!

/-- C4, amended: from a store with unique document ids in which the balance is
a number that is at least 0 and every `tokensAvailable`, `tokenPrice` and
`monthlyRentPerToken` and every holding quantity are at least 0, every finite
sequence of `handleAddCash`, `handleCashOut`, `handleBuy`, `handleSell`,
`checkForRentalPayouts` and `handleVote` calls ends with a balance that is a
number at least 0 and with `tokensAvailable` of every property at least 0,
provided each deposit is of a string that spells a number at least 0, each
withdrawal is of a string that spells a number (of either sign), each purchase
is of a catalog entry for a quantity between 0 and its `tokensAvailable`, and
each sale is of a holding in the portfolio; payout passes and votes are
unrestricted, and so are the two clocks. -/
theorem nonNegative_preserved (calls : List (Clock × JsCall)) (s : JsStore) (hwf : s.WF)
    (hnn : s.NonNegative) (hadm : JsStore.admissibleCalls s calls = true) :
    (JsStore.runCalls s calls).cashBalance.ge (.finite 0) = true ∧
      ∀ p ∈ (JsStore.runCalls s calls).properties, 0 ≤ p.tokensAvailable := by
  have key : (JsStore.runCalls s calls).WF ∧ (JsStore.runCalls s calls).NonNegative := by
    induction calls generalizing s with
    | nil => exact ⟨hwf, hnn⟩
    | cons c rest ih =>
      obtain ⟨clock, c⟩ := c
      simp only [JsStore.admissibleCalls, Bool.and_eq_true] at hadm
      obtain ⟨h1, h2⟩ := jsAdmissible_step clock s c ⟨hwf, hnn⟩ hadm.1
      exact ih (c.run clock s) h1 h2 hadm.2
  exact ⟨key.2.1, fun p hp => (key.2.2.1 p hp).1⟩

/-- The day of `jsScenarioDay` on the seeded account ends at 100053.70999999999. -/
theorem nonNegative_preserved_witness :
    jsSeededStore.WF ∧ jsSeededStore.NonNegative ∧
    JsStore.admissibleCalls jsSeededStore jsScenarioDay = true ∧
    (JsStore.runCalls jsSeededStore jsScenarioDay).cashBalance =
      .finite (3437819298347745 / 34359738368) ∧
    (JsStore.runCalls jsSeededStore jsScenarioDay).cashBalance.ge (.finite 0) = true ∧
    ∀ p ∈ (JsStore.runCalls jsSeededStore jsScenarioDay).properties, 0 ≤ p.tokensAvailable :=
  ⟨by decide, by decide!, by decide!, by decide!,
    nonNegative_preserved jsScenarioDay jsSeededStore (by decide) (by decide!) (by decide!)⟩

end REChain
